import Mathlib

/-!
# KiroGate — formal verification of the request-path core

This file gives a shallow embedding, in Lean 4, of the parts of the
KiroGate gateway (TypeScript, Deno) that its specification makes claims
about, together with theorems settling those claims.

Conventions used throughout:

* JavaScript numbers that are used as integers (timestamps, counters)
  are modelled as `Int` or `Nat`; fractional token arithmetic uses `ℚ`.
* JavaScript strings are modelled as Lean `String`.  Where the source
  indexes UTF-16 code units (`charCodeAt`), we decompose characters
  into UTF-16 units explicitly (`utf16Codes`).
* `undefined`/absent optional fields are modelled as `Option` (or, where
  the source only ever distinguishes truthiness, by a sentinel noted at
  the definition).
* Mutation of `this` is modelled by explicit state passing: a method
  becomes a function `State → args → result × State`.
* `Date.now()` and `crypto.randomUUID()` are passed in as parameters.
-/

set_option maxRecDepth 10000

namespace KiroGate

/-! ## JSON values

A model of the JSON values manipulated by `JSON.parse` / `JSON.stringify`
in the source.  Object fields keep insertion order, as JS objects do. -/

inductive J where
  | null : J
  | bool (b : Bool) : J
  | num (q : ℚ) : J
  | str (s : String) : J
  | arr (elems : List J) : J
  | obj (fields : List (String × J)) : J

/-- The empty JSON object `{}`. -/
def J.empty : J := .obj []

/-! ### A JSON parser (model of `JSON.parse`)

Recursive-descent parser over the character list, with explicit fuel.
It covers the JSON grammar: `null`, booleans, numbers (integer part,
optional fraction and exponent), strings with the standard escapes,
arrays and objects.  `\uXXXX` escapes are accepted when the code is a
valid Unicode scalar value (Lean characters cannot hold lone
surrogates; no input considered in this file contains any). -/

def jsonIsWs (c : Char) : Bool := c = ' ' ∨ c = '\t' ∨ c = '\n' ∨ c = '\r'

def jsonSkipWs : List Char → List Char
  | [] => []
  | c :: cs => if jsonIsWs c then jsonSkipWs cs else c :: cs

def jsonHexVal (c : Char) : Option Nat :=
  if '0' ≤ c ∧ c ≤ '9' then some (c.toNat - '0'.toNat)
  else if 'a' ≤ c ∧ c ≤ 'f' then some (c.toNat - 'a'.toNat + 10)
  else if 'A' ≤ c ∧ c ≤ 'F' then some (c.toNat - 'A'.toNat + 10)
  else none

def jsonParseString (fuel : Nat) (cs : List Char) (acc : List Char) :
    Option (String × List Char) :=
  match fuel, cs with
  | 0, _ => none
  | _, [] => none
  | fuel + 1, c :: rest =>
    if c = '"' then some (String.mk acc.reverse, rest)
    else if c = '\\' then
      match rest with
      | [] => none
      | e :: rest2 =>
        if e = '"' then jsonParseString fuel rest2 ('"' :: acc)
        else if e = '\\' then jsonParseString fuel rest2 ('\\' :: acc)
        else if e = '/' then jsonParseString fuel rest2 ('/' :: acc)
        else if e = 'b' then jsonParseString fuel rest2 ('\x08' :: acc)
        else if e = 'f' then jsonParseString fuel rest2 ('\x0c' :: acc)
        else if e = 'n' then jsonParseString fuel rest2 ('\n' :: acc)
        else if e = 'r' then jsonParseString fuel rest2 ('\r' :: acc)
        else if e = 't' then jsonParseString fuel rest2 ('\t' :: acc)
        else if e = 'u' then
          match rest2 with
          | h1 :: h2 :: h3 :: h4 :: rest3 =>
            match jsonHexVal h1, jsonHexVal h2, jsonHexVal h3, jsonHexVal h4 with
            | some a, some b, some c3, some d =>
              let code := ((a * 16 + b) * 16 + c3) * 16 + d
              if code < 0xd800 ∨ (0xdfff < code ∧ code < 0x110000) then
                jsonParseString fuel rest3 (Char.ofNat code :: acc)
              else none
            | _, _, _, _ => none
          | _ => none
        else none
    else if c.toNat < 0x20 then none
    else jsonParseString fuel rest (c :: acc)

def jsonParseDigits (cs : List Char) (acc : Nat) (count : Nat) :
    Nat × Nat × List Char :=
  match cs with
  | [] => (acc, count, [])
  | c :: rest =>
    if '0' ≤ c ∧ c ≤ '9' then
      jsonParseDigits rest (acc * 10 + (c.toNat - '0'.toNat)) (count + 1)
    else (acc, count, cs)

/-- Parse a JSON number starting at `cs`; the leading character is known
to be a digit or `-`. -/
def jsonParseNumber (cs : List Char) : Option (ℚ × List Char) :=
  let (neg, cs1) := match cs with
    | '-' :: rest => (true, rest)
    | _ => (false, cs)
  let (ip, ipCount, cs2) := jsonParseDigits cs1 0 0
  if ipCount = 0 then none else
  let (frac, fracCs) : ℚ × List Char := match cs2 with
    | '.' :: rest =>
      let (fp, fpCount, cs3) := jsonParseDigits rest 0 0
      ((fp : ℚ) / ((10 : ℚ) ^ fpCount), cs3)
    | _ => (0, cs2)
  let base : ℚ := (ip : ℚ) + frac
  let (mant, expCs) : ℚ × List Char := match fracCs with
    | 'e' :: rest | 'E' :: rest =>
      let (eneg, rest1) := match rest with
        | '-' :: r => (true, r)
        | '+' :: r => (false, r)
        | _ => (false, rest)
      let (ev, evCount, cs4) := jsonParseDigits rest1 0 0
      if evCount = 0 then (base, fracCs)
      else if eneg then (base / ((10 : ℚ) ^ ev), cs4)
      else (base * ((10 : ℚ) ^ ev), cs4)
    | _ => (base, fracCs)
  some (if neg then -mant else mant, expCs)

mutual

def jsonParseValue (fuel : Nat) (cs : List Char) : Option (J × List Char) :=
  match fuel with
  | 0 => none
  | fuel + 1 =>
    match jsonSkipWs cs with
    | [] => none
    | c :: rest =>
      if c = '"' then
        match jsonParseString (rest.length + 1) rest [] with
        | some (s, rest2) => some (.str s, rest2)
        | none => none
      else if c = '{' then jsonParseObject fuel rest []
      else if c = '[' then jsonParseArray fuel rest []
      else if c = 't' then
        match rest with
        | 'r' :: 'u' :: 'e' :: rest2 => some (.bool true, rest2)
        | _ => none
      else if c = 'f' then
        match rest with
        | 'a' :: 'l' :: 's' :: 'e' :: rest2 => some (.bool false, rest2)
        | _ => none
      else if c = 'n' then
        match rest with
        | 'u' :: 'l' :: 'l' :: rest2 => some (.null, rest2)
        | _ => none
      else if c = '-' ∨ ('0' ≤ c ∧ c ≤ '9') then
        match jsonParseNumber (c :: rest) with
        | some (q, rest2) => some (.num q, rest2)
        | none => none
      else none

def jsonParseObject (fuel : Nat) (cs : List Char) (acc : List (String × J)) :
    Option (J × List Char) :=
  match fuel with
  | 0 => none
  | fuel + 1 =>
    match jsonSkipWs cs with
    | '}' :: rest => if acc.isEmpty then some (.obj [], rest) else none
    | '"' :: rest =>
      match jsonParseString (rest.length + 1) rest [] with
      | some (key, rest2) =>
        match jsonSkipWs rest2 with
        | ':' :: rest3 =>
          match jsonParseValue fuel rest3 with
          | some (v, rest4) =>
            match jsonSkipWs rest4 with
            | ',' :: rest5 => jsonParseObject fuel rest5 ((key, v) :: acc)
            | '}' :: rest5 => some (.obj ((key, v) :: acc).reverse, rest5)
            | _ => none
          | none => none
        | _ => none
      | none => none
    | _ => none

def jsonParseArray (fuel : Nat) (cs : List Char) (acc : List J) :
    Option (J × List Char) :=
  match fuel with
  | 0 => none
  | fuel + 1 =>
    match jsonSkipWs cs with
    | ']' :: rest => if acc.isEmpty then some (.arr [], rest) else none
    | cs1 =>
      match jsonParseValue fuel cs1 with
      | some (v, rest) =>
        match jsonSkipWs rest with
        | ',' :: rest2 => jsonParseArray fuel rest2 (v :: acc)
        | ']' :: rest2 => some (.arr (v :: acc).reverse, rest2)
        | _ => none
      | none => none

end

/-- Model of `JSON.parse(s)`: parse one value, then only whitespace may
remain.  `none` models a thrown `SyntaxError`. -/
def jsonParse (s : String) : Option J :=
  match jsonParseValue (s.length + 1) s.data with
  | some (v, rest) => if jsonSkipWs rest = [] then some v else none
  | none => none

/-! ### `JSON.stringify` (compact form)

Used by the source when serializing tool inputs.  String escaping
follows `JSON.stringify`: `"` , `\` and control characters are escaped.
Number rendering is exact for integers; non-integral rationals are
rendered as `num/den`, an approximation of JS float formatting that no
theorem below depends on. -/

def jsonHexDigit (n : Nat) : Char :=
  if n < 10 then Char.ofNat ('0'.toNat + n) else Char.ofNat ('a'.toNat + n - 10)

def jsonEscapeChar (c : Char) : List Char :=
  if c = '"' then ['\\', '"']
  else if c = '\\' then ['\\', '\\']
  else if c = '\n' then ['\\', 'n']
  else if c = '\r' then ['\\', 'r']
  else if c = '\t' then ['\\', 't']
  else if c = '\x08' then ['\\', 'b']
  else if c = '\x0c' then ['\\', 'f']
  else if c.toNat < 0x20 then
    ['\\', 'u', '0', '0', jsonHexDigit (c.toNat / 16), jsonHexDigit (c.toNat % 16)]
  else [c]

def jsonEscape (s : String) : String :=
  String.mk (s.data.foldr (fun c acc => jsonEscapeChar c ++ acc) [])

def jsonRenderNum (q : ℚ) : String :=
  if q.den = 1 then toString q.num else toString q.num ++ "/" ++ toString q.den

mutual

def jsonStringify : J → String
  | .null => "null"
  | .bool true => "true"
  | .bool false => "false"
  | .num q => jsonRenderNum q
  | .str s => "\"" ++ jsonEscape s ++ "\""
  | .arr elems => "[" ++ jsonStringifyElems elems ++ "]"
  | .obj fields => "\x7b" ++ jsonStringifyFields fields ++ "\x7d"

def jsonStringifyElems : List J → String
  | [] => ""
  | [x] => jsonStringify x
  | x :: y :: rest => jsonStringify x ++ "," ++ jsonStringifyElems (y :: rest)

def jsonStringifyFields : List (String × J) → String
  | [] => ""
  | [(k, v)] => "\"" ++ jsonEscape k ++ "\":" ++ jsonStringify v
  | (k, v) :: f :: rest =>
    "\"" ++ jsonEscape k ++ "\":" ++ jsonStringify v ++ "," ++ jsonStringifyFields (f :: rest)

end

/-! ## Numeric helpers for JS arithmetic -/

/-- `Math.round` on a rational: round half toward positive infinity. -/
def jsRound (q : ℚ) : ℤ := ⌊q + 1 / 2⌋

/-- `Math.ceil` on a rational. -/
def jsCeil (q : ℚ) : ℤ := ⌈q⌉

/-- UTF-16 code units of a string, as `charCodeAt` enumerates them:
characters beyond the BMP become a surrogate pair. -/
def utf16CodesOfChar (c : Char) : List Nat :=
  if c.val.toNat < 0x10000 then [c.val.toNat]
  else [0xd800 + (c.val.toNat - 0x10000) / 0x400, 0xdc00 + (c.val.toNat - 0x10000) % 0x400]

def utf16Codes (s : String) : List Nat :=
  (s.data.map utf16CodesOfChar).flatten

/-! ## C6 — token estimators

Two distinct estimators exist in the source.

`countTokensKiro` is the private `countTokens` of `src/lib/types.ts`
(lines 1426–1436), the one `parseEventStream` invokes at end-of-stream
when the upstream reported no `outputTokens`:

```ts
function countTokens(text: string): number {
  if (!text) return 0
  let count = 0
  for (let i = 0; i < text.length; i++) {
    const code = text.charCodeAt(i)
    if (code > 0x4E00 && code < 0x9FFF) count += 2
    else if (code > 127) count += 1.5
    else count += 0.25
  }
  return Math.ceil(count)
}
```

The CJK-segment/word estimator described by the claim is the exported
`countTokens` of `src/lib/stream.ts` (lines 22–38), used by the SSE
stream handlers; it is embedded below as `countTokensStream`. -/

/-- The per-unit accumulation loop of the kiro-API `countTokens`,
translated with an explicit accumulator. -/
def countTokensKiroLoop : List Nat → ℚ → ℚ
  | [], count => count
  | code :: rest, count =>
    if 0x4E00 < code ∧ code < 0x9FFF then countTokensKiroLoop rest (count + 2)
    else if 127 < code then countTokensKiroLoop rest (count + 3/2)
    else countTokensKiroLoop rest (count + 1/4)

/-- `countTokens` of `src/lib/types.ts`, used by `parseEventStream`. -/
def countTokensKiro (text : String) : ℤ :=
  if text = "" then 0
  else jsCeil (countTokensKiroLoop (utf16Codes text) 0)

/-- Specification-style restatement of the same estimator: the ceiling
of a weighted sum over UTF-16 code units. -/
def kiroCharWeight (code : Nat) : ℚ :=
  if 0x4E00 < code ∧ code < 0x9FFF then 2
  else if 127 < code then 3/2
  else 1/4

def countTokensKiroSpec (text : String) : ℤ :=
  if text = "" then 0
  else jsCeil (((utf16Codes text).map kiroCharWeight).sum)

/-! ### The CJK-segment/word estimator of `src/lib/stream.ts`

```ts
export function countTokens(text: string): number {
  if (!text) return 0
  let tokens = 0
  const segments = text.match(/[一-鿿㐀-䶿　-〿＀-￯]+|[^...]+/g)
  if (!segments) return 1
  for (const seg of segments) {
    if (/[一-鿿㐀-䶿]/.test(seg[0])) {
      const hanzi = (seg.match(/[一-鿿㐀-䶿]/g) || []).length
      tokens += hanzi * 1.2 + (seg.length - hanzi) * 0.5
    } else {
      const words = seg.split(/\s+/).filter(w => w.length > 0)
      for (const w of words) tokens += w.length <= 4 ? 1 : Math.ceil(w.length / 3.5)
      tokens += (seg.match(/\s+/g) || []).length * 0.5
    }
  }
  return Math.max(1, Math.round(tokens))
}
```
-/

/-- Membership in the regex class
`[一-鿿㐀-䶿　-〿＀-￯]`. -/
def isCJKClass (c : Char) : Bool :=
  (0x4e00 ≤ c.toNat ∧ c.toNat ≤ 0x9fff) ∨ (0x3400 ≤ c.toNat ∧ c.toNat ≤ 0x4dbf) ∨
  (0x3000 ≤ c.toNat ∧ c.toNat ≤ 0x303f) ∨ (0xff00 ≤ c.toNat ∧ c.toNat ≤ 0xffef)

/-- Membership in the Han-ideograph class `[一-鿿㐀-䶿]`. -/
def isHanzi (c : Char) : Bool :=
  (0x4e00 ≤ c.toNat ∧ c.toNat ≤ 0x9fff) ∨ (0x3400 ≤ c.toNat ∧ c.toNat ≤ 0x4dbf)

def isJsWs (c : Char) : Bool :=
  c = ' ' ∨ c = '\t' ∨ c = '\n' ∨ c = '\r' ∨ c = '\x0b' ∨ c = '\x0c' ∨
  c.toNat = 0xfeff ∨ c.toNat = 0xa0 ∨ c.toNat = 0x2028 ∨ c.toNat = 0x2029

/-- JS `String.prototype.trim` over a character list (whitespace set
approximated by `isJsWs`; no input below uses exotic spaces). -/
def jsTrim (l : List Char) : List Char :=
  ((l.dropWhile isJsWs).reverse.dropWhile isJsWs).reverse

def jsTrimStr (s : String) : String := String.mk (jsTrim s.data)

/-- Split a character list into maximal runs on which `p` is constant
(the alternation `/p+|[^p]+/g`). -/
def splitRuns (p : Char → Bool) : List Char → List (List Char)
  | [] => []
  | c :: cs =>
    match splitRuns p cs with
    | [] => [[c]]
    | (d :: ds) :: rest =>
      if p c = p d then ((c :: d :: ds) :: rest) else [c] :: (d :: ds) :: rest
    | [] :: rest => [c] :: rest

/-- Maximal runs on which `p` holds, dropping the gaps (the global match
`/p+/g` used for whitespace-run counting and word splitting). -/
def runsWhere (p : Char → Bool) (l : List Char) : List (List Char) :=
  (splitRuns p l).filter (fun r => match r with | [] => false | c :: _ => p c)

/-- Token value the stream estimator assigns to one regex segment. -/
def streamSegTokens (seg : List Char) : ℚ :=
  match seg with
  | [] => 0
  | c0 :: _ =>
    if isHanzi c0 then
      let hanzi := (seg.filter isHanzi).length
      hanzi * (6/5) + ((seg.length - hanzi) : ℚ) * (1/2)
    else
      let words := runsWhere (fun c => ¬ isJsWs c) seg
      (words.map (fun w => if w.length ≤ 4 then (1 : ℚ) else (jsCeil ((w.length : ℚ) / (7/2)) : ℚ))).sum
        + ((runsWhere isJsWs seg).length : ℚ) * (1/2)

/-- `countTokens` of `src/lib/stream.ts` (the stream-handler estimator). -/
def countTokensStream (text : String) : ℤ :=
  if text = "" then 0
  else
    let segments := splitRuns isCJKClass text.data
    max 1 (jsRound ((segments.map streamSegTokens).sum))

/-- The estimator exactly as claim C6 words it (`claim`-side definition,
for comparison with the source): per CJK segment, 1.2 per Han character
plus 0.5 per other character of the segment; per non-CJK segment, the
word/whitespace rule; minimum 1 token for non-empty input. -/
def claimSegTokens (seg : List Char) : ℚ :=
  match seg with
  | [] => 0
  | c0 :: _ =>
    if isCJKClass c0 then
      let hanzi := (seg.filter isHanzi).length
      hanzi * (6/5) + ((seg.length - hanzi) : ℚ) * (1/2)
    else
      let words := runsWhere (fun c => ¬ isJsWs c) seg
      (words.map (fun w => if w.length ≤ 4 then (1 : ℚ) else (jsCeil ((w.length : ℚ) / (7/2)) : ℚ))).sum
        + ((runsWhere isJsWs seg).length : ℚ) * (1/2)

def countTokensClaim (text : String) : ℤ :=
  if text = "" then 0
  else
    let segments := splitRuns isCJKClass text.data
    max 1 (jsRound ((segments.map claimSegTokens).sum))

/-! ## C5 — circuit breaker (`src/unnamed/part_004`, `CircuitBreaker`) -/

inductive CircuitState where
  | CLOSED | OPEN | HALF_OPEN
deriving DecidableEq, Repr

structure CircuitBreaker where
  state : CircuitState := .CLOSED
  failureCount : Nat := 0
  successCount : Nat := 0
  lastFailTime : Int := 0
  failureThreshold : Nat := 5
  resetTimeoutMs : Int := 30000
  halfOpenMaxAttempts : Nat := 3
deriving DecidableEq, Repr

/-- `canExecute()`, with `Date.now()` passed as `now`.  Returns the
boolean result and the (possibly updated) breaker. -/
def CircuitBreaker.canExecute (cb : CircuitBreaker) (now : Int) :
    Bool × CircuitBreaker :=
  match cb.state with
  | .CLOSED => (true, cb)
  | .OPEN =>
    if now - cb.lastFailTime ≥ cb.resetTimeoutMs then
      (true, { cb with state := .HALF_OPEN, successCount := 0 })
    else (false, cb)
  | .HALF_OPEN => (true, cb)

def CircuitBreaker.recordSuccess (cb : CircuitBreaker) : CircuitBreaker :=
  match cb.state with
  | .HALF_OPEN =>
    let sc := cb.successCount + 1
    if sc ≥ cb.halfOpenMaxAttempts then
      { cb with state := .CLOSED, failureCount := 0, successCount := sc }
    else { cb with successCount := sc }
  | .CLOSED => { cb with failureCount := cb.failureCount - 1 }
  | .OPEN => cb

def CircuitBreaker.recordFailure (cb : CircuitBreaker) (now : Int) : CircuitBreaker :=
  let cb := { cb with lastFailTime := now }
  match cb.state with
  | .CLOSED =>
    let fc := cb.failureCount + 1
    if fc ≥ cb.failureThreshold then { cb with state := .OPEN, failureCount := fc }
    else { cb with failureCount := fc }
  | .HALF_OPEN => { cb with state := .OPEN }
  | .OPEN => cb

/-! ## C10 — non-streaming OpenAI inverse transform
(`src/lib/accountPool.ts`, `kiroToOpenaiResponse`) -/

structure KiroToolUse where
  toolUseId : String
  name : String
  input : J

structure OAFunctionCall where
  name : String
  arguments : String
deriving DecidableEq, Repr

structure OAToolCall where
  id : String
  type : String
  function : OAFunctionCall
deriving DecidableEq, Repr

structure OAMessage where
  role : String
  content : Option String
  tool_calls : Option (List OAToolCall)
deriving DecidableEq, Repr

structure OAChoice where
  index : Nat
  message : OAMessage
  finish_reason : String
deriving DecidableEq, Repr

structure OAUsage where
  prompt_tokens : Nat
  completion_tokens : Nat
  total_tokens : Nat
  prompt_tokens_details_cached_tokens : Option Nat := none
  completion_tokens_details_reasoning_tokens : Option Nat := none
  prompt_cache_hit_tokens : Option Nat := none
deriving DecidableEq, Repr

structure OAChatResponse where
  id : String
  object : String
  created : Int
  model : String
  choices : List OAChoice
  usage : OAUsage
deriving DecidableEq, Repr

structure KiroUsageIn where
  inputTokens : Nat
  outputTokens : Nat
  cacheReadTokens : Option Nat := none
  cacheWriteTokens : Option Nat := none
  reasoningTokens : Option Nat := none
deriving DecidableEq, Repr

/-- JS truthiness of an optional numeric field (`undefined` and `0` are
falsy). -/
def optTruthy (o : Option Nat) : Bool :=
  match o with
  | none => false
  | some n => n ≠ 0

/-- `kiroToOpenaiResponse` (`src/lib/accountPool.ts` 1017–1052).  The
`uuid` and `nowSec` parameters stand for `crypto.randomUUID()` and
`Math.floor(Date.now() / 1000)`. -/
def kiroToOpenaiResponse (content : String) (toolUses : List KiroToolUse)
    (usage : KiroUsageIn) (model : String) (uuid : String) (nowSec : Int) :
    OAChatResponse :=
  { id := "chatcmpl-" ++ uuid
    object := "chat.completion"
    created := nowSec
    model := model
    choices := [{
      index := 0
      message := {
        role := "assistant"
        content := if toolUses.length > 0 then none else some content
        tool_calls := if toolUses.length > 0 then
            some (toolUses.map (fun tu =>
              { id := tu.toolUseId, type := "function",
                function := { name := tu.name, arguments := jsonStringify tu.input } }))
          else none }
      finish_reason := if toolUses.length > 0 then "tool_calls" else "stop" }]
    usage := {
      prompt_tokens := usage.inputTokens
      completion_tokens := usage.outputTokens
      total_tokens := usage.inputTokens + usage.outputTokens
      prompt_tokens_details_cached_tokens :=
        if optTruthy usage.cacheReadTokens then usage.cacheReadTokens else none
      prompt_cache_hit_tokens :=
        if optTruthy usage.cacheReadTokens then usage.cacheReadTokens else none
      completion_tokens_details_reasoning_tokens :=
        if optTruthy usage.reasoningTokens then usage.reasoningTokens else none } }

/-! ## C8 — context-compressor batch scheduling
(`src/lib/stream.ts`: `generateBatchSummary` 1183–1209 and the
concurrency-capped batch loop of `doCompressHistory` 1285–1300).

The upstream call `callKiroApi` inside `generateBatchSummary` is
abstracted by an oracle `upstream : Nat → String → Option String`
giving, per batch index and prompt, the returned content (`none` models
a thrown error, handled by the `catch`). -/

structure CMsg where
  role : String
  text : String
deriving DecidableEq, Repr

/-- `batch.map(m => `[${m.role}]: ${extractMessageText(m).slice(0, 1000)}`).join('\n---\n')`;
`CMsg.text` stands for `extractMessageText(m)`. -/
def batchTextOf (batch : List CMsg) : String :=
  String.intercalate "\n---\n"
    (batch.map (fun m => "[" ++ m.role ++ "]: " ++ (m.text.take 1000)))

/-- The prompt `generateBatchSummary` builds.  `existingSummary` is the
optional `existingSummary` parameter; JS `if (existingSummary)` makes
both `undefined` and the empty string skip the previous-context
section. -/
def buildSummaryPrompt (compressionRatio : ℚ) (batchText : String)
    (existingSummary : Option String) : String :=
  let targetLen := jsCeil ((batchText.length : ℚ) * compressionRatio)
  let head := "Summarize this conversation segment concisely (target ~" ++
    toString targetLen ++
    " chars). Preserve: key decisions, file paths, tool actions, technical details, and user intent.\n\n"
  let ctx := match existingSummary with
    | some s => if s ≠ "" then "Previous context:\n" ++ s ++ "\n\n" else ""
    | none => ""
  head ++ ctx ++ "Conversation:\n" ++ batchText

/-- `generateBatchSummary`: ask the upstream for a summary; on an empty
or failed result, fall back to a truncation of the batch text. -/
def generateBatchSummary (compressionRatio : ℚ)
    (upstream : Nat → String → Option String)
    (batch : List CMsg) (batchIndex : Nat) (existingSummary : Option String) :
    String :=
  let batchText := batchTextOf batch
  let targetLen := jsCeil ((batchText.length : ℚ) * compressionRatio)
  let prompt := buildSummaryPrompt compressionRatio batchText existingSummary
  let fallback := batchText.take targetLen.toNat ++ "..."
  match upstream batchIndex prompt with
  | some content =>
    if jsTrimStr content ≠ "" then jsTrimStr content else fallback
  | none => fallback

/-- The `existingSummary` argument the loop passes when launching batch
`idx`, read from the summaries array `summaries` as it stands when the
batch's chunk is created:
`idx > 0 ? summaries[idx - 1] : undefined`. -/
def chunkLaunchPrev (summaries : List String) (idx : Nat) : Option String :=
  if idx > 0 then some (summaries.getD (idx - 1) "") else none

/-- Run one concurrency chunk: batches `i, i+1, …, i+count-1` are all
launched against the pre-chunk array `summaries` (the promises are
created synchronously before any of them resolves), and their results
are stored.  Also records, per batch, the `existingSummary` argument it
was launched with. -/
def applyChunk (gen : Nat → Option String → String)
    (summaries : List String) (prevArgs : List (Option (Option String)))
    (i count : Nat) : List String × List (Option (Option String)) :=
  (List.range count).foldl
    (fun acc j =>
      let idx := i + j
      let prev := chunkLaunchPrev summaries idx
      (acc.1.set idx (gen idx prev), acc.2.set idx (some prev)))
    (summaries, prevArgs)

/-- The chunked loop
`for (let i = 0; i < batches.length; i += CONCURRENCY)` with
`CONCURRENCY = 3`.  The first argument is fuel bounding the number of
iterations; any fuel with `n ≤ i + fuel` lets the loop run to
completion (the index advances by 3 per iteration). -/
def runChunksAux (gen : Nat → Option String → String) (n : Nat) :
    Nat → Nat → List String × List (Option (Option String)) →
    List String × List (Option (Option String))
  | 0, _, st => st
  | fuel + 1, i, st =>
    if i < n then
      runChunksAux gen n fuel (i + 3) (applyChunk gen st.1 st.2 i (min 3 (n - i)))
    else st

/-- Summaries and per-batch launch arguments of the whole batch loop
(`summaries` starts as `new Array(n).fill('')`).  The second component
records, for each batch, `some prev` where `prev` was the
`existingSummary` argument passed to `generateBatchSummary`. -/
def runBatchLoop (gen : Nat → Option String → String) (n : Nat) :
    List String × List (Option (Option String)) :=
  runChunksAux gen n (n + 1) 0 (List.replicate n "", List.replicate n none)

/-! ## Account pool (`src/lib/accountPool.ts`) — C7, C9 -/

structure ProxyAccount where
  id : String
  disabled : Bool := false
  quotaExhausted : Bool := false
  cooldownUntil : Option Int := none
  errorCount : Nat := 0
  expiresAt : Option Int := none
  isAvailable : Bool := true
  subscriptionType : Option String := none
  lastUsed : Int := 0
  requestCount : Nat := 0
deriving DecidableEq, Repr

structure AccountStats where
  requests : Nat := 0
  tokens : Nat := 0
  inputTokens : Nat := 0
  outputTokens : Nat := 0
  errors : Nat := 0
  lastUsed : Int := 0
  avgResponseTime : ℚ := 0
  totalResponseTime : ℚ := 0
deriving DecidableEq, Repr

structure AccountHealth where
  score : ℚ := 100
  successRate : ℚ := 1
  avgResponseTime : ℚ := 0
  recentErrors : Nat := 0
  lastSuccessTime : Int := 0
deriving DecidableEq, Repr

structure AccountPoolConfig where
  cooldownMs : Int := 60000
  maxErrorCount : Nat := 5
  autoResetIntervalMs : Int := 300000
  healthScoreDecay : ℚ := 20
  healthScoreRecovery : ℚ := 10
deriving DecidableEq, Repr

structure AccountPool where
  accounts : List ProxyAccount := []
  accountStats : List (String × AccountStats) := []
  accountHealth : List (String × AccountHealth) := []
  inflightRequests : List (String × Nat) := []
  recentRequestWindows : List (String × List Int) := []
  currentIndex : Nat := 0
  lastAutoReset : Int := 0
  config : AccountPoolConfig := {}
deriving DecidableEq, Repr

/-- Association-list lookup, modelling `Map.get`. -/
def alGet {α : Type} (l : List (String × α)) (k : String) : Option α :=
  (l.find? (fun p => p.1 = k)).map (fun p => p.2)

/-- `Map.set`: replace the entry in place if present (JS `Map` keeps
insertion order for existing keys), append otherwise. -/
def alSet {α : Type} (l : List (String × α)) (k : String) (v : α) :
    List (String × α) :=
  if (l.find? (fun p => p.1 = k)).isSome then
    l.map (fun p => if p.1 = k then (k, v) else p)
  else l ++ [(k, v)]

/-- `this.accounts.get(id)` (the accounts map is keyed by `account.id`). -/
def getAccount (accounts : List ProxyAccount) (id : String) : Option ProxyAccount :=
  accounts.find? (fun a => a.id = id)

/-- `this.accounts.set(id, a')` for an id already keying `a'`. -/
def setAccount (accounts : List ProxyAccount) (a' : ProxyAccount) :
    List ProxyAccount :=
  if (accounts.find? (fun a => a.id = a'.id)).isSome then
    accounts.map (fun a => if a.id = a'.id then a' else a)
  else accounts ++ [a']

/-- JS truthiness of an optional timestamp (`undefined` and `0` falsy). -/
def intTruthy (o : Option Int) : Bool :=
  match o with
  | none => false
  | some t => t ≠ 0

/-- `listHasPrefix l pat`: does `l` start with `pat`? -/
def listHasPrefix {α : Type} [DecidableEq α] : List α → List α → Bool
  | _, [] => true
  | [], _ :: _ => false
  | c :: cs, p :: ps => c = p ∧ listHasPrefix cs ps

/-- `String.indexOf(pat, from)` over lists: the first position `≥ k`
where `pat` occurs (positions counted from the start of the original
list by starting the search with that offset `k`). -/
def listIndexOfFrom {α : Type} [DecidableEq α] (pat : List α) :
    List α → Nat → Option Nat
  | [], k => if pat.isEmpty then some k else none
  | c :: cs, k =>
    if listHasPrefix (c :: cs) pat then some k
    else listIndexOfFrom pat cs (k + 1)

/-- `s.includes(sub)` (used for `model.toLowerCase().includes('opus')`;
`sub` is already lowercase there). -/
def strIncludes (s sub : String) : Bool :=
  (listIndexOfFrom sub.data s.data 0).isSome

/-- `checkAccountAvailability` (lines 299–314); only the boolean is
modelled, the `reason` string is used for logging alone. -/
def checkAccountAvailability (cfg : AccountPoolConfig) (a : ProxyAccount)
    (now : Int) : Bool :=
  if a.disabled then false
  else if a.quotaExhausted then false
  else if intTruthy a.cooldownUntil ∧ a.cooldownUntil.getD 0 > now then false
  else if a.errorCount ≥ cfg.maxErrorCount then false
  else if intTruthy a.expiresAt ∧ a.expiresAt.getD 0 < now ∧
      now - a.expiresAt.getD 0 > 30000 then false
  else if a.isAvailable = false then false
  else true

/-- `supportsModel` (lines 98–104): Free-tier accounts cannot serve
Opus-class models. -/
def supportsModel (a : ProxyAccount) (model : Option String) : Bool :=
  match model with
  | none => true
  | some m =>
    if ¬ strIncludes m.toLower "opus" then true
    else if a.subscriptionType = some "Free" then false
    else true

/-- `getAccountWithShortestCooldown` (lines 330–338): strict-minimum
fold over `max(0, (cooldownUntil || 0) - now)`, first account winning
ties. -/
def getAccountWithShortestCooldown (accounts : List ProxyAccount) (now : Int) :
    Option ProxyAccount :=
  (accounts.foldl
    (fun (best : Option (ProxyAccount × Int)) a =>
      let wait := max 0 (a.cooldownUntil.getD 0 - now)
      match best with
      | none => some (a, wait)
      | some (_, w) => if wait < w then some (a, wait) else best)
    none).map (fun p => p.1)

/-- Stable minimum by a `Nat` key: the behaviour of
`list.sort((a, b) => key a - key b)[0]` (JS `sort` is stable). -/
def stableMinBy {α : Type} (key : α → Nat) (l : List α) : Option α :=
  l.foldl
    (fun best a =>
      match best with
      | none => some a
      | some b => if key a < key b then some a else best)
    none

/-- `zeroDowntimeFallback` (lines 258–297).  Returns the account the
source returns (the pre-update object) and the updated pool.  The
result is `none` only for an empty `accountList` (where the source
would return `undefined`). -/
def zeroDowntimeFallback (cfg : AccountPoolConfig)
    (accountList : List ProxyAccount) (pool : AccountPool) (now : Int) :
    Option ProxyAccount × AccountPool :=
  let p2 : Option ProxyAccount × AccountPool :=
    match stableMinBy (fun a => a.errorCount)
        (accountList.filter (fun a => ¬ a.disabled ∧ ¬ a.quotaExhausted ∧
          a.errorCount < cfg.maxErrorCount + 2)) with
    | some le =>
      let le' := { le with isAvailable := true,
                           errorCount := le.errorCount - 1,
                           cooldownUntil := none }
      (some le, { pool with accounts := setAccount pool.accounts le' })
    | none =>
      let usable := accountList.filter (fun a => ¬ a.disabled ∧ ¬ a.quotaExhausted)
      match (match usable with
             | f :: _ => some f
             | [] => accountList.head?) with
      | none => (accountList.head?, pool)
      | some f =>
        let f' := { f with isAvailable := true, errorCount := 0, cooldownUntil := none }
        (some f, { pool with accounts := setAccount pool.accounts f' })
  match getAccountWithShortestCooldown accountList now with
  | some sc =>
    if intTruthy sc.cooldownUntil ∧ sc.cooldownUntil.getD 0 - now < 5000 then
      let sc' := { sc with isAvailable := true, cooldownUntil := none }
      (some sc, { pool with accounts := setAccount pool.accounts sc' })
    else p2
  | none => p2

/-- `selfHeal` (lines 509–535). -/
def selfHeal (pool : AccountPool) (now : Int) : Bool × AccountPool :=
  let accountList := pool.accounts
  if accountList.isEmpty then (false, pool)
  else
    let unavailable := accountList.filter
      (fun a => ¬ checkAccountAvailability pool.config a now)
    if unavailable.length < accountList.length then (false, pool)
    else
      let errorDisabled := accountList.filter (fun a =>
        ¬ a.disabled ∧ ¬ a.quotaExhausted ∧ a.errorCount ≥ pool.config.maxErrorCount)
      if errorDisabled.isEmpty then (false, pool)
      else
        (true, errorDisabled.foldl
          (fun p a =>
            let a' := { a with isAvailable := true,
                               errorCount := a.errorCount / 2,
                               cooldownUntil := none }
            let p1 := { p with accounts := setAccount p.accounts a' }
            match alGet p1.accountHealth a.id with
            | some h =>
              let h' := { h with score := max 50 h.score,
                                 recentErrors := h.recentErrors / 2 }
              { p1 with accountHealth := alSet p1.accountHealth a.id h' }
            | none => p1)
          pool)

/-- `reset` (lines 537–545). -/
def resetPool (pool : AccountPool) : AccountPool :=
  let pool1 := pool.accounts.foldl
    (fun p a =>
      let a' := { a with isAvailable := true, errorCount := 0, cooldownUntil := none }
      let p1 := { p with accounts := setAccount p.accounts a' }
      match alGet p1.accountHealth a.id with
      | some h =>
        let h' := { h with score := 80, recentErrors := 0 }
        { p1 with accountHealth := alSet p1.accountHealth a.id h' }
      | none => p1)
    pool
  { pool1 with currentIndex := 0 }

/-- `checkAutoReset` (lines 316–328). -/
def checkAutoReset (pool : AccountPool) (now : Int) : AccountPool :=
  if now - pool.lastAutoReset < pool.config.autoResetIntervalMs then pool
  else
    let accountList := pool.accounts
    let availableCount := (accountList.filter
      (fun a => checkAccountAvailability pool.config a now)).length
    if availableCount = 0 ∧ ¬ accountList.isEmpty then
      let healed := selfHeal pool now
      let pool2 := if healed.1 then healed.2 else resetPool healed.2
      { pool2 with lastAutoReset := now }
    else pool

/-- `recordRequestToWindow` (lines 186–195). -/
def recordRequestToWindow (pool : AccountPool) (id : String) (now : Int) :
    AccountPool :=
  let window := (alGet pool.recentRequestWindows id).getD []
  let w2 := window ++ [now]
  let w3 := if w2.length > 200 then w2.filter (fun t => t > now - 300000) else w2
  { pool with recentRequestWindows := alSet pool.recentRequestWindows id w3 }

/-- `acquireAccount` (lines 162–166). -/
def acquireAccount (pool : AccountPool) (id : String) (now : Int) : AccountPool :=
  let cur := (alGet pool.inflightRequests id).getD 0
  recordRequestToWindow
    { pool with inflightRequests := alSet pool.inflightRequests id (cur + 1) }
    id now

/-- `releaseAccount` (lines 168–171); `Math.max(0, current - 1)` is `Nat`
truncated subtraction. -/
def releaseAccount (pool : AccountPool) (id : String) : AccountPool :=
  let cur := (alGet pool.inflightRequests id).getD 0
  { pool with inflightRequests := alSet pool.inflightRequests id (cur - 1) }

/-- `getNextAccount` (lines 107–160).  `choose` abstracts the available
branch's policy selection (`selectByPriority` / `selectByLeastUsed` /
`selectBySmart`, the last of which draws from `Math.random()`); no
claim below exercises that branch.  The returned account is, as in the
source, the object captured before any in-pool update. -/
def getNextAccount (pool : AccountPool) (model : Option String) (now : Int)
    (choose : List ProxyAccount → ProxyAccount) :
    Option ProxyAccount × AccountPool :=
  let accountList := pool.accounts
  match accountList with
  | [] => (none, pool)
  | [account] =>
    if checkAccountAvailability pool.config account now then
      (some account, acquireAccount pool account.id now)
    else
      let account' := { account with isAvailable := true,
                                     errorCount := account.errorCount - 1,
                                     cooldownUntil := none }
      let pool1 := { pool with accounts := setAccount pool.accounts account' }
      (some account, acquireAccount pool1 account.id now)
  | _ =>
    let pool1 := checkAutoReset pool now
    let available := accountList.filter (fun a =>
      checkAccountAvailability pool.config a now ∧ supportsModel a model)
    if available.isEmpty then
      match zeroDowntimeFallback pool.config accountList pool1 now with
      | (some fb, pool2) => (some fb, acquireAccount pool2 fb.id now)
      | (none, pool2) => (none, pool2)
    else
      let selected := choose available
      (some selected, acquireAccount pool1 selected.id now)

/-- `recordSuccess` (lines 364–395). -/
def recordSuccess (pool : AccountPool) (id : String) (tokens : Nat)
    (responseTime : ℚ) (now : Int) : AccountPool :=
  let pool := releaseAccount pool id
  let pool := match getAccount pool.accounts id with
    | some account =>
      let account' := { account with requestCount := account.requestCount + 1,
                                     errorCount := 0, lastUsed := now,
                                     isAvailable := true, cooldownUntil := none }
      { pool with accounts := setAccount pool.accounts account' }
    | none => pool
  let statsOld := alGet pool.accountStats id
  let pool := match statsOld with
    | some stats =>
      let newTotalTime := stats.totalResponseTime + responseTime
      let newRequests := stats.requests + 1
      let stats' := { stats with requests := newRequests,
                                 tokens := stats.tokens + tokens, lastUsed := now,
                                 totalResponseTime := newTotalTime,
                                 avgResponseTime := newTotalTime / (newRequests : ℚ) }
      { pool with accountStats := alSet pool.accountStats id stats' }
    | none => pool
  match alGet pool.accountHealth id with
  | some health =>
    let totalRequests : ℚ := ((match statsOld with
      | some s => s.requests
      | none => 0) : Nat) + 1
    let totalErrors : ℚ := ((match statsOld with
      | some s => s.errors
      | none => 0) : Nat)
    let avgRT : ℚ := match statsOld with
      | some s => if s.avgResponseTime ≠ 0 then s.avgResponseTime else responseTime
      | none => responseTime
    let health' := { health with
                     score := min 100 (health.score + pool.config.healthScoreRecovery),
                     successRate := (totalRequests - totalErrors) / totalRequests,
                     avgResponseTime := avgRT,
                     recentErrors := health.recentErrors - 1,
                     lastSuccessTime := now }
    { pool with accountHealth := alSet pool.accountHealth id health' }
  | none => pool

/-! ## C3 — streaming thinking-tag parser
(`src/lib/stream.ts`, `ThinkingBufferParser` and its tag helpers,
lines 174–333).  Buffers are `List Char`; JS string indexing in this
code is only ever reached with BMP text, where code units and
characters coincide. -/

def THINKING_START_TAG : List Char := "<thinking>".data
def THINKING_END_TAG : List Char := "</thinking>".data
def MAX_THINKING_CHARS : Nat := 100000

/-- The `QUOTE_CHARS` set of `src/lib/stream.ts` line 19. -/
def isQuoteChar (c : Char) : Bool :=
  c = '`' ∨ c = '"' ∨ c = '\'' ∨ c = '\\' ∨ c = '#' ∨ c = '!' ∨ c = '@' ∨
  c = '$' ∨ c = '%' ∨ c = '^' ∨ c = '&' ∨ c = '*' ∨ c = '(' ∨ c = ')' ∨
  c = '-' ∨ c = '_' ∨ c = '=' ∨ c = '+' ∨ c = '[' ∨ c = ']' ∨ c = '{' ∨
  c = '}' ∨ c = ';' ∨ c = ':' ∨ c = '<' ∨ c = '>' ∨ c = ',' ∨ c = '.' ∨
  c = '?' ∨ c = '/'

/-- `buffer.indexOf(pat, from)`. -/
def indexOfFrom (l pat : List Char) (start : Nat) : Option Nat :=
  (listIndexOfFrom pat (l.drop start) 0).map (fun k => k + start)

/-- `isPrecededByQuoteChar`. -/
def isPrecededByQuoteChar (buffer : List Char) (pos : Nat) : Bool :=
  if pos = 0 then false
  else match buffer.get? (pos - 1) with
    | some c => isQuoteChar c
    | none => false

/-- `findRealThinkingStartTag` (search loop with advancing
`searchStart`; the fuel bounds the number of restarts). -/
def findRealStartAux (buffer : List Char) : Nat → Nat → Option Nat
  | 0, _ => none
  | fuel + 1, searchStart =>
    match indexOfFrom buffer THINKING_START_TAG searchStart with
    | none => none
    | some pos =>
      if ¬ isPrecededByQuoteChar buffer pos then some pos
      else findRealStartAux buffer fuel (pos + 1)

def findRealThinkingStartTag (buffer : List Char) : Option Nat :=
  findRealStartAux buffer (buffer.length + 2) 0

/-- `findRealThinkingEndTag`: a close tag counts only when followed by
`"\n\n"`; with fewer than two characters after it, the scan reports "no
tag yet" (the data may still arrive). -/
def findRealEndAux (buffer : List Char) : Nat → Nat → Option Nat
  | 0, _ => none
  | fuel + 1, searchStart =>
    match indexOfFrom buffer THINKING_END_TAG searchStart with
    | none => none
    | some pos =>
      if isPrecededByQuoteChar buffer pos then findRealEndAux buffer fuel (pos + 1)
      else
        let afterContent := buffer.drop (pos + THINKING_END_TAG.length)
        if listHasPrefix afterContent ['\n', '\n'] then some pos
        else if afterContent.length < 2 then none
        else findRealEndAux buffer fuel (pos + 1)

def findRealThinkingEndTag (buffer : List Char) : Option Nat :=
  findRealEndAux buffer (buffer.length + 2) 0

/-- `findRealThinkingEndTagAtBufferEnd` (flush-time variant). -/
def findRealEndAtEndAux (buffer : List Char) : Nat → Nat → Option Nat
  | 0, _ => none
  | fuel + 1, searchStart =>
    match indexOfFrom buffer THINKING_END_TAG searchStart with
    | none => none
    | some pos =>
      if isPrecededByQuoteChar buffer pos then
        findRealEndAtEndAux buffer fuel (pos + 1)
      else
        let afterContent := buffer.drop (pos + THINKING_END_TAG.length)
        if jsTrim afterContent = [] ∨ listHasPrefix afterContent ['\n'] then some pos
        else findRealEndAtEndAux buffer fuel (pos + 1)

def findRealThinkingEndTagAtBufferEnd (buffer : List Char) : Option Nat :=
  findRealEndAtEndAux buffer (buffer.length + 2) 0

/-- Inner check of `pendingTagSuffix`: does the length-`len` suffix of
`buffer` equal the length-`len` prefix of `tag`? -/
def pendingTagSuffixAux (buffer tag : List Char) : Nat → Nat
  | 0 => 0
  | len + 1 =>
    if buffer.drop (buffer.length - (len + 1)) = tag.take (len + 1) then len + 1
    else pendingTagSuffixAux buffer tag len

/-- `pendingTagSuffix` (lines 216–228): length of the longest proper
prefix of `tag` that the buffer ends with. -/
def pendingTagSuffix (buffer tag : List Char) : Nat :=
  if buffer.isEmpty ∨ tag.isEmpty then 0
  else pendingTagSuffixAux buffer tag (min buffer.length (tag.length - 1))

/-- `buffer.lastIndexOf(pat, fromIdx)`: last occurrence starting at a
position `≤ fromIdx` (negative `fromIdx` clamps to 0 but then requires
a match at position 0, as in JS). -/
def lastIndexOfLE (l pat : List Char) (fromIdx : Int) : Option Nat :=
  (List.range (fromIdx.toNat + 1)).foldl
    (fun acc k => if listHasPrefix (l.drop k) pat then some k else acc) none

/-- One emitted parser item (`{ type: 'thinking' | 'text', content }`). -/
structure PItem where
  isThinking : Bool
  content : List Char
deriving DecidableEq, Repr

/-- `ThinkingBufferParser` instance state. -/
structure ThinkingParser where
  buffer : List Char := []
  inThinkBlock : Bool := false
  pendingStartTagChars : Nat := 0
  thinkingLength : Nat := 0
  overflowWarned : Bool := false
deriving DecidableEq, Repr

/-- The `while (this.buffer.length > 0)` body of
`ThinkingBufferParser.process`, as a fueled recursion.  Every
continuing iteration consumes at least one buffered character, so
`buffer.length + 2` fuel always suffices. -/
def processLoop : Nat → ThinkingParser → List PItem → List PItem × ThinkingParser
  | 0, st, acc => (acc, st)
  | fuel + 1, st, acc =>
    if st.buffer.isEmpty then (acc, st)
    else if st.pendingStartTagChars > 0 then
      (if st.buffer.length < st.pendingStartTagChars then
        (acc, { st with pendingStartTagChars := st.pendingStartTagChars - st.buffer.length,
                        buffer := [] })
      else
        processLoop fuel
          { st with buffer := st.buffer.drop st.pendingStartTagChars,
                    pendingStartTagChars := 0 } acc)
    else if ¬ st.inThinkBlock then
      match findRealThinkingStartTag st.buffer with
      | none =>
        let pending := pendingTagSuffix st.buffer THINKING_START_TAG
        if pending = st.buffer.length ∧ pending > 0 then
          (acc, { st with pendingStartTagChars := THINKING_START_TAG.length - pending,
                          inThinkBlock := true, thinkingLength := 0, buffer := [] })
        else
          let emitLen := st.buffer.length - pending
          if emitLen = 0 then (acc, st)
          else
            processLoop fuel { st with buffer := st.buffer.drop emitLen }
              (acc ++ [⟨false, st.buffer.take emitLen⟩])
      | some start =>
        let before := st.buffer.take start
        let acc1 := if jsTrim before ≠ [] then acc ++ [⟨false, before⟩] else acc
        processLoop fuel
          { st with buffer := st.buffer.drop (start + THINKING_START_TAG.length),
                    inThinkBlock := true, thinkingLength := 0 } acc1
    else if st.thinkingLength > MAX_THINKING_CHARS then
      let acc1 := if ¬ st.buffer.isEmpty then acc ++ [⟨true, st.buffer⟩] else acc
      processLoop fuel
        { st with buffer := [], inThinkBlock := false, thinkingLength := 0,
                  overflowWarned := true } acc1
    else
      let fastLen : Option Nat :=
        if st.buffer.length > 256 then
          match lastIndexOfLE st.buffer ['<', '/']
              ((st.buffer.length : Int) - (THINKING_END_TAG.length : Int) - 2) with
          | none =>
            let safeLen := st.buffer.length - (THINKING_END_TAG.length + 2)
            if safeLen > 0 then some safeLen else none
          | some _ => none
        else none
      match fastLen with
      | some safeLen =>
        processLoop fuel
          { st with buffer := st.buffer.drop safeLen,
                    thinkingLength := st.thinkingLength + safeLen }
          (acc ++ [⟨true, st.buffer.take safeLen⟩])
      | none =>
        match findRealThinkingEndTag st.buffer with
        | none =>
          let pending := max (pendingTagSuffix st.buffer THINKING_END_TAG)
            (pendingTagSuffix st.buffer (THINKING_END_TAG ++ ['\n', '\n']))
          let emitLen := st.buffer.length - pending
          if emitLen = 0 then (acc, st)
          else
            processLoop fuel
              { st with buffer := st.buffer.drop emitLen,
                        thinkingLength := st.thinkingLength + emitLen }
              (acc ++ [⟨true, st.buffer.take emitLen⟩])
        | some endPos =>
          let thinkChunk := st.buffer.take endPos
          let acc1 := if ¬ thinkChunk.isEmpty then acc ++ [⟨true, thinkChunk⟩] else acc
          processLoop fuel
            { st with buffer := st.buffer.drop (endPos + THINKING_END_TAG.length),
                      inThinkBlock := false, thinkingLength := 0,
                      overflowWarned := false } acc1

/-- `ThinkingBufferParser.process(text)`. -/
def ThinkingParser.process (st : ThinkingParser) (text : List Char) :
    List PItem × ThinkingParser :=
  let st := { st with buffer := st.buffer ++ text }
  processLoop (st.buffer.length + 2) st []

/-- `ThinkingBufferParser.finish()` (note: the source resets every
field except `pendingStartTagChars`). -/
def ThinkingParser.finish (st : ThinkingParser) :
    List PItem × ThinkingParser :=
  let items : List PItem :=
    if st.buffer.isEmpty then []
    else if st.inThinkBlock then
      match findRealThinkingEndTagAtBufferEnd st.buffer with
      | some endPos =>
        let thinkChunk := st.buffer.take endPos
        let remaining := jsTrim (st.buffer.drop (endPos + THINKING_END_TAG.length))
        (if ¬ thinkChunk.isEmpty then [⟨true, thinkChunk⟩] else []) ++
          (if ¬ remaining.isEmpty then [⟨false, remaining⟩] else [])
      | none => [⟨true, st.buffer⟩]
    else [⟨false, st.buffer⟩]
  (items, { st with buffer := [], inThinkBlock := false, thinkingLength := 0,
                    overflowWarned := false })

/-- Feed `chunks` to a fresh parser in order, then `finish()`; collect
all emitted items. -/
def parserRun (chunks : List (List Char)) : List PItem :=
  let (items, st) := chunks.foldl
    (fun (acc : List PItem × ThinkingParser) chunk =>
      let (is, st') := acc.2.process chunk
      (acc.1 ++ is, st'))
    ([], {})
  items ++ (st.finish).1

/-- Concatenated text output of a run. -/
def textOut (items : List PItem) : List Char :=
  (items.filterMap (fun i => if i.isThinking then none else some i.content)).flatten

/-- Concatenated thinking output of a run. -/
def thinkingOut (items : List PItem) : List Char :=
  (items.filterMap (fun i => if i.isThinking then some i.content else none)).flatten

/-! ## C2 — Anthropic SSE encoder (`src/lib/stream.ts`,
`ClaudeStreamHandler`, lines 424–591, driven as in
`handleClaudeStream` of `src/main.ts` 422–477).

The event model records event kinds, block indices and block/delta
types; the JSON payloads (message ids, token counts) the events carry
do not bear on claim C2 and are omitted from the event datatype, while
the handler state still tracks them where they feed later events
(`outputTokens`, `toolCalls`, `stopReasonOverride`). -/

def MAX_RESPONSE_BUFFER_CHARS : Nat := 2 * 1024 * 1024
def MAX_TOOL_INPUT_BUFFER_CHARS : Nat := 1024 * 1024

inductive BlockType where
  | text | thinking | toolUse
deriving DecidableEq, Repr

inductive DeltaType where
  | textDelta | thinkingDelta | inputJsonDelta
deriving DecidableEq, Repr

inductive SSEEvt where
  | messageStart
  | contentBlockStart (index : Int) (btype : BlockType)
  | contentBlockDelta (index : Int) (dtype : DeltaType)
  | contentBlockStop (index : Int)
  | messageDelta (stopReason : String)
  | messageStop
  | errorEvt
deriving DecidableEq, Repr

inductive SSEPhase where
  | initial | message_started | message_ended
deriving DecidableEq, Repr

structure CurrentToolUse where
  id : String
  name : String
  inputBuffer : List String
  inputBufferSize : Nat
deriving DecidableEq, Repr

structure ClaudeHandler where
  enableThinkingParsing : Bool := true
  smPhase : SSEPhase := .initial
  smBlockOpen : Bool := false
  smIdx : Int := -1
  thinkingParser : ThinkingParser := {}
  responseBuffer : List (List Char) := []
  thinkingBuffer : List (List Char) := []
  outputTokens : Int := 0
  responseBufferSize : Nat := 0
  thinkingBufferSize : Nat := 0
  bufferOverflowWarned : Bool := false
  currentBlockType : Option BlockType := none
  contentBlockIndex : Int := -1
  contentBlockStartSent : Bool := false
  currentToolUse : Option CurrentToolUse := none
  processedToolUseIds : List String := []
  toolCalls : List KiroToolUse := []
  responseEnded : Bool := false
  stopReasonOverride : Option String := none

/-- `sendMessageStart` (guarded by `canSendMessageStart`). -/
def ClaudeHandler.sendMessageStart (h : ClaudeHandler) :
    ClaudeHandler × List SSEEvt :=
  if h.smPhase = .initial then
    ({ h with smPhase := .message_started }, [.messageStart])
  else (h, [])

/-- `startContentBlock`. -/
def ClaudeHandler.startContentBlock (h : ClaudeHandler) (bt : BlockType) :
    ClaudeHandler × List SSEEvt :=
  let idx := h.contentBlockIndex + 1
  ({ h with contentBlockIndex := idx, currentBlockType := some bt,
            contentBlockStartSent := true, smBlockOpen := true,
            smIdx := h.smIdx + 1 },
   [.contentBlockStart idx bt])

/-- `closeCurrentBlock`. -/
def ClaudeHandler.closeCurrentBlock (h : ClaudeHandler) :
    ClaudeHandler × List SSEEvt :=
  if h.currentBlockType.isSome ∧ h.contentBlockStartSent then
    ({ h with currentBlockType := none, contentBlockStartSent := false,
              smBlockOpen := false },
     [.contentBlockStop h.contentBlockIndex])
  else (h, [])

/-- `emitThinking`. -/
def ClaudeHandler.emitThinking (h : ClaudeHandler) (content : List Char) :
    ClaudeHandler × List SSEEvt :=
  if content.isEmpty then (h, [])
  else if h.thinkingBufferSize + content.length > MAX_RESPONSE_BUFFER_CHARS then
    let h := { h with bufferOverflowWarned := true }
    let (h, evts) :=
      if h.currentBlockType ≠ some .thinking then
        let (h1, e1) := h.closeCurrentBlock
        let (h2, e2) := h1.startContentBlock .thinking
        (h2, e1 ++ e2)
      else (h, [])
    (h, evts ++ [.contentBlockDelta h.contentBlockIndex .thinkingDelta])
  else
    let (h, evts) :=
      if h.currentBlockType ≠ some .thinking then
        let (h1, e1) := h.closeCurrentBlock
        let (h2, e2) := h1.startContentBlock .thinking
        (h2, e1 ++ e2)
      else (h, [])
    let h := { h with thinkingBuffer := h.thinkingBuffer ++ [content],
                      thinkingBufferSize := h.thinkingBufferSize + content.length }
    (h, evts ++ [.contentBlockDelta h.contentBlockIndex .thinkingDelta])

/-- `emitText`. -/
def ClaudeHandler.emitText (h : ClaudeHandler) (content : List Char) :
    ClaudeHandler × List SSEEvt :=
  if content.isEmpty then (h, [])
  else if h.responseBufferSize + content.length > MAX_RESPONSE_BUFFER_CHARS then
    let h := { h with bufferOverflowWarned := true }
    let (h, evts) :=
      if h.currentBlockType ≠ some .text then
        let (h1, e1) := h.closeCurrentBlock
        let (h2, e2) := h1.startContentBlock .text
        (h2, e1 ++ e2)
      else (h, [])
    (h, evts ++ [.contentBlockDelta h.contentBlockIndex .textDelta])
  else
    let (h, evts) :=
      if h.currentBlockType ≠ some .text then
        let (h1, e1) := h.closeCurrentBlock
        let (h2, e2) := h1.startContentBlock .text
        (h2, e1 ++ e2)
      else (h, [])
    let h := { h with responseBuffer := h.responseBuffer ++ [content],
                      responseBufferSize := h.responseBufferSize + content.length }
    (h, evts ++ [.contentBlockDelta h.contentBlockIndex .textDelta])

/-- Emit one parser item through `emitThinking`/`emitText`. -/
def ClaudeHandler.emitItem (h : ClaudeHandler) (it : PItem) :
    ClaudeHandler × List SSEEvt :=
  if it.isThinking then h.emitThinking it.content else h.emitText it.content

def ClaudeHandler.emitItems (h : ClaudeHandler) (items : List PItem) :
    ClaudeHandler × List SSEEvt :=
  items.foldl
    (fun (acc : ClaudeHandler × List SSEEvt) it =>
      let (h', e) := acc.1.emitItem it
      (h', acc.2 ++ e))
    (h, [])

/-- `handleContent`. -/
def ClaudeHandler.handleContent (h : ClaudeHandler) (content : List Char) :
    ClaudeHandler × List SSEEvt :=
  if h.responseEnded ∨ content.isEmpty then (h, [])
  else
    let h := { h with outputTokens :=
      h.outputTokens + countTokensStream (String.mk content) }
    if h.enableThinkingParsing then
      let (items, p') := h.thinkingParser.process content
      ({ h with thinkingParser := p' }.emitItems items)
    else h.emitText content

/-- The `toolInput: unknown` argument of `handleToolUse`:
`undefined`/`null`, a string fragment, or an object. -/
inductive ToolInputArg where
  | absent
  | strFrag (s : String)
  | objFrag (j : J)

/-- The fragment string `handleToolUse` derives from `toolInput`
(`typeof toolInput === 'string' ? toolInput : JSON.stringify(toolInput)`),
`none` when `toolInput` is `undefined`/`null`. -/
def ToolInputArg.frag : ToolInputArg → Option String
  | .absent => none
  | .strFrag s => some s
  | .objFrag j => some (jsonStringify j)

/-- The `safeAdd` closure of `handleToolUse`. -/
def ClaudeHandler.safeAdd (h : ClaudeHandler) (fragment : String) :
    ClaudeHandler × List SSEEvt :=
  match h.currentToolUse with
  | none => (h, [])
  | some ctu =>
    if ctu.inputBufferSize + fragment.length > MAX_TOOL_INPUT_BUFFER_CHARS then
      (h, [.contentBlockDelta h.contentBlockIndex .inputJsonDelta])
    else
      ({ h with currentToolUse := some { ctu with
            inputBuffer := ctu.inputBuffer ++ [fragment],
            inputBufferSize := ctu.inputBufferSize + fragment.length } },
       [.contentBlockDelta h.contentBlockIndex .inputJsonDelta])

/-- `finishToolUse` (the `catch` branch builds the
`{_error, _raw}` object). -/
def ClaudeHandler.finishToolUse (h : ClaudeHandler) :
    ClaudeHandler × List SSEEvt :=
  match h.currentToolUse with
  | none => (h, [])
  | some ctu =>
    let fullInput := String.join ctu.inputBuffer
    let parsedInput : J :=
      if fullInput = "" then J.empty
      else match jsonParse fullInput with
        | some j => j
        | none => .obj [("_error", .str "Failed to parse tool input"),
                        ("_raw", .str (String.mk (fullInput.data.take 500)))]
    let h := { h with toolCalls :=
      h.toolCalls ++ [(⟨ctu.id, ctu.name, parsedInput⟩ : KiroToolUse)] }
    let (h, evts) := h.closeCurrentBlock
    ({ h with currentToolUse := none }, evts)

/-- JS truthiness of an optional string (`undefined` and `''` falsy). -/
def optStrTruthy (o : Option String) : Bool :=
  match o with
  | none => false
  | some s => s ≠ ""

/-- `handleToolUse`. -/
def ClaudeHandler.handleToolUse (h : ClaudeHandler)
    (toolUseId toolName : Option String) (toolInput : ToolInputArg)
    (isStop : Bool) : ClaudeHandler × List SSEEvt :=
  if h.responseEnded then (h, [])
  else if ¬ optStrTruthy toolUseId ∧ ¬ optStrTruthy toolName then
    match h.currentToolUse with
    | some _ =>
      let (h, e1) := match toolInput.frag with
        | some f => if f ≠ "" then h.safeAdd f else (h, [])
        | none => (h, [])
      if isStop then
        let (h, e2) := h.finishToolUse
        (h, e1 ++ e2)
      else (h, e1)
    | none => (h, [])
  else if optStrTruthy toolUseId ∧ optStrTruthy toolName ∧
      h.currentToolUse.isNone then
    let tid := toolUseId.getD ""
    let tname := toolName.getD ""
    if tid ∈ h.processedToolUseIds then (h, [])
    else
      let (h, e1) := h.closeCurrentBlock
      let h := { h with processedToolUseIds := h.processedToolUseIds ++ [tid] }
      let (h, e2) := h.startContentBlock .toolUse
      let h := { h with currentToolUse := some ⟨tid, tname, [], 0⟩ }
      let (h, e3) := match toolInput.frag with
        | some f => if f ≠ "" then h.safeAdd f else (h, [])
        | none => (h, [])
      if isStop then
        let (h, e4) := h.finishToolUse
        (h, e1 ++ e2 ++ e3 ++ e4)
      else (h, e1 ++ e2 ++ e3)
  else
    let (h, e1) :=
      if h.currentToolUse.isSome then
        match toolInput.frag with
        | some f => if f ≠ "" then h.safeAdd f else (h, [])
        | none => (h, [])
      else (h, [])
    if isStop ∧ h.currentToolUse.isSome then
      let (h, e2) := h.finishToolUse
      (h, e1 ++ e2)
    else (h, e1)

/-- `finish(usage)` (usage token numbers do not appear in the abstract
event datatype). -/
def ClaudeHandler.finish (h : ClaudeHandler) : ClaudeHandler × List SSEEvt :=
  if h.responseEnded then (h, [])
  else
    let h := { h with responseEnded := true }
    let (h, e1) :=
      if h.enableThinkingParsing then
        let (items, p') := h.thinkingParser.finish
        ({ h with thinkingParser := p' }.emitItems items)
      else (h, [])
    let (h, e2) := h.closeCurrentBlock
    let stopReason := h.stopReasonOverride.getD
      (if h.toolCalls.length > 0 then "tool_use" else "end_turn")
    ({ h with smPhase := .message_ended },
     e1 ++ e2 ++ [.messageDelta stopReason, .messageStop])

/-- `sendError`. -/
def ClaudeHandler.sendError (h : ClaudeHandler) : ClaudeHandler × List SSEEvt :=
  (h, [.errorEvt])

/-- `handleContentLengthExceeded`. -/
def ClaudeHandler.handleContentLengthExceeded (h : ClaudeHandler) :
    ClaudeHandler × List SSEEvt :=
  ({ h with stopReasonOverride := some "max_tokens" }, [])

/-- Mid-stream operations the driver (`handleClaudeStream` in
`src/main.ts`) performs between `sendMessageStart` and
`finish`/`sendError` — `handleContent` and `handleToolUse` from
decoder callbacks, `handleContentLengthExceeded` on the synthetic
`__content_length_exceeded__` tool use.  (`handleThinkingOverflow`
has no caller in the repository.) -/
inductive HandlerOp where
  | content (s : List Char)
  | toolUse (id name : Option String) (input : ToolInputArg) (isStop : Bool)
  | contentLengthExceeded

def ClaudeHandler.stepOp (h : ClaudeHandler) : HandlerOp →
    ClaudeHandler × List SSEEvt
  | .content s => h.handleContent s
  | .toolUse id name input isStop => h.handleToolUse id name input isStop
  | .contentLengthExceeded => h.handleContentLengthExceeded

def ClaudeHandler.runOps (h : ClaudeHandler) (ops : List HandlerOp) :
    ClaudeHandler × List SSEEvt :=
  ops.foldl
    (fun (acc : ClaudeHandler × List SSEEvt) op =>
      let (h', e) := acc.1.stepOp op
      (h', acc.2 ++ e))
    (h, [])

/-- Trace of a full streamed request as `handleClaudeStream` drives it:
`sendMessageStart`, the decoder-fed operations, then `finish`. -/
def claudeTrace (enableThinking : Bool) (ops : List HandlerOp) : List SSEEvt :=
  let h0 : ClaudeHandler := { enableThinkingParsing := enableThinking }
  let (h1, e1) := h0.sendMessageStart
  let (h2, e2) := h1.runOps ops
  let (_, e3) := h2.finish
  e1 ++ e2 ++ e3

/-- Trace of the error path of `handleClaudeStream`: the `onError`
callback writes `claudeSSE.error(...)` and closes the stream, without
`message_stop`. -/
def claudeTraceError (enableThinking : Bool) (ops : List HandlerOp) :
    List SSEEvt :=
  let h0 : ClaudeHandler := { enableThinkingParsing := enableThinking }
  let (h1, e1) := h0.sendMessageStart
  let (h2, e2) := h1.runOps ops
  let (_, e3) := h2.sendError
  e1 ++ e2 ++ e3

/-! ### Trace validity automaton

`ckStep` accepts exactly the traces with: one `message_start` first,
block events only between start and stop, at most one open block,
matching stop index, strictly increasing start indices, `message_delta`
and `message_stop` only with no block open, nothing after
`message_stop`, and no `error` events. -/

structure TraceCk where
  started : Bool := false
  stopped : Bool := false
  openIdx : Option Int := none
  lastIdx : Int := -1
deriving DecidableEq, Repr

def ckStep (c : TraceCk) : SSEEvt → Option TraceCk
  | .messageStart =>
    if ¬ c.started ∧ ¬ c.stopped then some { c with started := true } else none
  | .contentBlockStart i _ =>
    if c.started ∧ ¬ c.stopped ∧ c.openIdx = none ∧ i > c.lastIdx then
      some { c with openIdx := some i, lastIdx := i }
    else none
  | .contentBlockDelta i _ =>
    if c.started ∧ ¬ c.stopped ∧ c.openIdx = some i then some c else none
  | .contentBlockStop i =>
    if c.started ∧ ¬ c.stopped ∧ c.openIdx = some i then
      some { c with openIdx := none }
    else none
  | .messageDelta _ =>
    if c.started ∧ ¬ c.stopped ∧ c.openIdx = none then some c else none
  | .messageStop =>
    if c.started ∧ ¬ c.stopped ∧ c.openIdx = none then
      some { c with stopped := true }
    else none
  | .errorEvt => none

def ckRun (c : TraceCk) : List SSEEvt → Option TraceCk
  | [] => some c
  | e :: rest =>
    match ckStep c e with
    | some c' => ckRun c' rest
    | none => none

/-- A complete well-formed trace: accepted by the automaton, ending
started-and-stopped with no open block. -/
def wfTrace (tr : List SSEEvt) : Bool :=
  match ckRun {} tr with
  | some c => c.started ∧ c.stopped ∧ c.openIdx = none
  | none => false

/-! ## C1 — conversation sanitization
(`src/lib/types.ts`: `sanitizeConversation` 937–968,
`removeOrphanedToolUses` 847–877, `validateToolResults` 896–911, and
the conversation assembly of `buildKiroPayload` 975–1039).

A `KiroHistoryMessage` is a union of `userInputMessage` and
`assistantResponseMessage`; the translators construct exactly one of
the two, always with a string `content`, so the type is modelled as a
two-constructor sum.  Empty `toolUses`/`toolResults` lists are
interchangeable with absent ones everywhere this code reads them
(`?.length` guards), and are modelled as `[]`. -/

structure KToolResult where
  toolUseId : String
  text : String := ""
  status : String := "success"
deriving DecidableEq, Repr

inductive KMsg where
  | user (content : String) (toolResults : List KToolResult)
  | assistant (content : String) (toolUses : List KiroToolUse)

def KMsg.isUser : KMsg → Bool
  | .user _ _ => true
  | .assistant _ _ => false

def KMsg.isAssistant : KMsg → Bool
  | .user _ _ => false
  | .assistant _ _ => true

def KMsg.toolResults : KMsg → List KToolResult
  | .user _ trs => trs
  | .assistant _ _ => []

def KMsg.toolUses : KMsg → List KiroToolUse
  | .user _ _ => []
  | .assistant _ tus => tus

def KMsg.content : KMsg → String
  | .user c _ => c
  | .assistant c _ => c

def KMsg.hasToolResults (m : KMsg) : Bool := ¬ m.toolResults.isEmpty

def KMsg.hasToolUses (m : KMsg) : Bool :=
  m.isAssistant ∧ ¬ m.toolUses.isEmpty

def HELLO_MESSAGE : KMsg := .user "Hello" []
def CONTINUE_MESSAGE : KMsg := .user "Continue" []
def UNDERSTOOD_MESSAGE : KMsg := .assistant "understood" []

/-- `createFailedToolUseMessage` (every modelled tool use carries a
string id, so the `?? toolUse_${idx+1}` fallback is the identity). -/
def createFailedToolUseMessage (toolUseIds : List String) : KMsg :=
  .user "" (toolUseIds.map (fun id => ⟨id, "Tool execution failed", "error"⟩))

/-- `hasMatchingToolResults`. -/
def hasMatchingToolResults (toolUses : List KiroToolUse)
    (toolResults : List KToolResult) : Bool :=
  if toolUses.isEmpty then true
  else if toolResults.isEmpty then false
  else toolUses.all (fun tu => toolResults.any (fun r => r.toolUseId = tu.toolUseId))

/-- The single-pass loop of `sanitizeConversation` (lines 941–964),
with the output accumulated in reverse. -/
def sanLoop : List KMsg → Bool → List KMsg → List KMsg
  | [], _, acc => acc
  | msg :: rest, firstUserSeen, acc =>
    if msg.isUser ∧ firstUserSeen ∧ jsTrim msg.content.data = [] ∧
        ¬ msg.hasToolResults then
      sanLoop rest firstUserSeen acc
    else
      let fus := firstUserSeen ∨ msg.isUser
      let acc1 := match acc with
        | prev :: _ =>
          if prev.isUser ∧ msg.isUser then UNDERSTOOD_MESSAGE :: acc
          else if prev.isAssistant ∧ msg.isAssistant then CONTINUE_MESSAGE :: acc
          else acc
        | [] => acc
      let acc2 := msg :: acc1
      let acc3 :=
        if msg.isAssistant ∧ msg.hasToolUses then
          let nextOk : Bool := match rest with
            | next :: _ =>
              next.isUser ∧ next.hasToolResults ∧
                hasMatchingToolResults msg.toolUses next.toolResults
            | [] => false
          if nextOk then acc2
          else createFailedToolUseMessage (msg.toolUses.map (fun tu => tu.toolUseId)) :: acc2
        else acc2
      sanLoop rest fus acc3

/-- `findOrphanedToolUseIds`: result ids present anywhere. -/
def collectResultIds (messages : List KMsg) : List String :=
  messages.flatMap (fun m => m.toolResults.map (fun r => r.toolUseId))

/-- Orphaned tool-use ids: unmatched ids of assistant messages other
than the last message. -/
def orphanIdsAux (resultIds : List String) : List KMsg → List String
  | [] => []
  | [_] => []
  | m :: rest =>
    (m.toolUses.map (fun tu => tu.toolUseId)).filter
      (fun id => ¬ resultIds.contains id) ++ orphanIdsAux resultIds rest

/-- `removeOrphanedToolUses` (lines 867–877). -/
def removeOrphanedToolUses (messages : List KMsg) : List KMsg :=
  let orphans := orphanIdsAux (collectResultIds messages) messages
  if orphans.isEmpty then messages
  else messages.map (fun m => match m with
    | .assistant c tus =>
      .assistant c (tus.filter (fun tu => ¬ orphans.contains tu.toolUseId))
    | u => u)

/-- Lines 957–959 of `sanitizeConversation`: prepend `HELLO_MESSAGE`
when the sanitized list is empty or starts with a non-user message. -/
def headFix (r : List KMsg) : List KMsg :=
  match r with
  | [] => [HELLO_MESSAGE]
  | m :: _ => if ¬ m.isUser then HELLO_MESSAGE :: r else r

/-- Lines 961–963 of `sanitizeConversation`: append `CONTINUE_MESSAGE`
when the sanitized list ends with a non-user message. -/
def tailFix (r : List KMsg) : List KMsg :=
  match r.getLast? with
  | some m => if ¬ m.isUser then r ++ [CONTINUE_MESSAGE] else r
  | none => r

/-- `sanitizeConversation` (lines 937–968). -/
def sanitizeConversation (messages : List KMsg) : List KMsg :=
  if messages.isEmpty then [HELLO_MESSAGE]
  else removeOrphanedToolUses (tailFix (headFix (sanLoop messages false []).reverse))

/-- `validateToolResults` (lines 896–911): drop the current message's
tool results that match no historical tool use or duplicate an already
paired result. -/
def validateToolResults (toolResults : List KToolResult)
    (history : List KMsg) : List KToolResult :=
  if toolResults.isEmpty then toolResults
  else
    let allToolUseIds := history.flatMap
      (fun m => m.toolUses.map (fun tu => tu.toolUseId))
    let pairedResultIds := history.flatMap
      (fun m => m.toolResults.map (fun r => r.toolUseId))
    toolResults.filter (fun r =>
      allToolUseIds.contains r.toolUseId ∧ ¬ pairedResultIds.contains r.toolUseId)

/-- The conversation component of the payload `buildKiroPayload`
assembles: history plus current message, sanitized and split.
`finalContent` is never empty in the source (`injectSystemPrompts`
always prepends a `Current time:` line), so the
`!finalCurrentMessage.userInputMessage` fallback is unreachable and the
shape below is exactly `conversationState.history` /
`conversationState.currentMessage`. -/
structure KiroConversationShape where
  history : List KMsg
  currentMessage : KMsg

def buildKiroConversation (finalContent : String) (history : List KMsg)
    (toolResults : List KToolResult) : KiroConversationShape :=
  let validated := validateToolResults toolResults history
  let currentMessage : KMsg := .user finalContent validated
  let sanitized := sanitizeConversation (history ++ [currentMessage])
  { history := sanitized.dropLast,
    currentMessage := (sanitized.getLast?).getD HELLO_MESSAGE }

/-! ### Conversation invariant checkers (claim-side, from the spec's
payload invariants) -/

/-- Adjacent-pair checker. -/
def chainB {α : Type} (R : α → α → Bool) : List α → Bool
  | [] => true
  | [_] => true
  | a :: b :: rest => R a b && chainB R (b :: rest)

/-- Strict user/assistant alternation. -/
def roleFlip (a b : KMsg) : Bool := a.isUser ≠ b.isUser

def alternatingB (l : List KMsg) : Bool := chainB roleFlip l

/-- Adjacent tool pairing: an assistant message with tool uses must be
immediately followed by a user message whose tool results cover every
tool-use id. -/
def pairOK (a b : KMsg) : Bool :=
  if a.hasToolUses then
    b.isUser ∧ a.toolUses.all
      (fun tu => b.toolResults.any (fun r => r.toolUseId = tu.toolUseId))
  else true

def pairingB (l : List KMsg) : Bool :=
  chainB pairOK l && (match l.getLast? with
    | some m => ¬ m.hasToolUses
    | none => true)

/-- An orphan tool result: a tool-result id with no tool use anywhere
in the list. -/
def hasOrphanToolResult (l : List KMsg) : Bool :=
  let useIds := l.flatMap (fun m => m.toolUses.map (fun tu => tu.toolUseId))
  l.any (fun m => m.toolResults.any (fun r => ¬ useIds.contains r.toolUseId))

/-! ## C4 — end-of-stream flushing in the binary event-stream decoder
(`src/lib/types.ts`: `parseEventStream` 1606–1621, tool-stop path
1530–1539, `tryRepairTruncatedJson` 1308–1336). -/

/-- One entry of the `ToolBufferManager` (`ToolUseState`), the
`startTime` field only feeds stale pruning and is omitted. -/
structure ToolUseState where
  toolUseId : String
  name : String
  inputBuffer : String

/-- Usage accumulator of `parseEventStream`. -/
structure KUsage where
  inputTokens : Int := 0
  outputTokens : Int := 0
  credits : ℚ := 0
  cacheReadTokens : Int := 0
  cacheWriteTokens : Int := 0
  reasoningTokens : Int := 0
  contextWindowExceeded : Bool := false

/-- Decoder callbacks as events: text chunks (`onChunk(text, …)`),
tool-use completions (`onChunk('', toolUse)`), and `onComplete`. -/
inductive DecoderCB where
  | chunkText (text : String) (isThinking : Bool)
  | chunkToolUse (tu : KiroToolUse)
  | complete (usage : KUsage)

/-- Brace/bracket/string-state counting loop of
`tryRepairTruncatedJson`. -/
def countBalance : List Char → Int → Int → Bool → Bool → Int × Int × Bool
  | [], brace, bracket, inStr, _ => (brace, bracket, inStr)
  | c :: rest, brace, bracket, inStr, esc =>
    if esc then countBalance rest brace bracket inStr false
    else if c = '\\' then countBalance rest brace bracket inStr true
    else if c = '"' then countBalance rest brace bracket (¬ inStr) false
    else if ¬ inStr then
      if c = '{' then countBalance rest (brace + 1) bracket inStr false
      else if c = '}' then countBalance rest (brace - 1) bracket inStr false
      else if c = '[' then countBalance rest brace (bracket + 1) inStr false
      else if c = ']' then countBalance rest brace (bracket - 1) inStr false
      else countBalance rest brace bracket inStr false
    else countBalance rest brace bracket inStr false

/-- `_repaired = true` on the reparsed value: visible on objects; on
arrays the JS property assignment does not change the JSON content. -/
def addRepairedFlag : J → J
  | .obj fields => .obj (fields ++ [("_repaired", .bool true)])
  | v => v

def isObjOrArr : J → Bool
  | .obj _ => true
  | .arr _ => true
  | _ => false

/-- `tryRepairTruncatedJson` (lines 1308–1336).  The loop stripping
trailing UTF-16 high surrogates is the identity on any text
representable as a Lean string (which cannot hold lone surrogates) and
is modelled as such. -/
def tryRepairTruncatedJson (truncated : String) : Option J :=
  if truncated = "" ∨ (utf16Codes truncated).length < 2 then none
  else match jsonParse truncated with
  | some j => some j
  | none =>
    let repaired := jsTrimStr truncated
    let (brace, bracket, inStr) := countBalance repaired.data 0 0 false false
    let result := repaired ++ (if inStr then "\"" else "") ++
      String.mk (List.replicate bracket.toNat ']') ++
      String.mk (List.replicate brace.toNat '}')
    match jsonParse result with
    | some j => if isObjOrArr j then some (addRepairedFlag j) else none
    | none => none

/-- Tool input computed on the `stop` path (lines 1530–1538):
`JSON.parse`, then the repair, then `{}`. -/
def stopPathFinalInput (inputBuffer : String) : J :=
  if inputBuffer = "" then J.empty
  else match jsonParse inputBuffer with
  | some j => j
  | none => (tryRepairTruncatedJson inputBuffer).getD J.empty

/-- Tool input computed when flushing at end of stream (lines
1608–1610): `JSON.parse`, then `{}` — no repair. -/
def eosFlushInput (inputBuffer : String) : J :=
  if inputBuffer = "" then J.empty
  else (jsonParse inputBuffer).getD J.empty

/-- The end-of-stream flush of still-open tool buffers (lines
1607–1614), skipping already-processed ids and extending the processed
set as it goes. -/
def flushIncompleteTools : List ToolUseState → List String → List DecoderCB
  | [], _ => []
  | st :: rest, processed =>
    if processed.contains st.toolUseId then flushIncompleteTools rest processed
    else
      .chunkToolUse ⟨st.toolUseId, st.name, eosFlushInput st.inputBuffer⟩ ::
        flushIncompleteTools rest (processed ++ [st.toolUseId])

/-- The normal end-of-stream epilogue of `parseEventStream` (lines
1606–1618): flush open tool buffers, flush the thinking-parser
residue, estimate `outputTokens` when the upstream reported none, and
fire `onComplete(usage)` once. -/
def eosEpilogue (buffers : List ToolUseState) (processed : List String)
    (thinkingBuf : String) (thinkingInThinking : Bool)
    (thinkingEnabled : Bool) (usage : KUsage) (totalOutputText : String) :
    List DecoderCB :=
  let toolEvts := flushIncompleteTools buffers processed
  let thinkEvts := if thinkingBuf ≠ "" then
      [DecoderCB.chunkText thinkingBuf (thinkingInThinking ∧ thinkingEnabled)]
    else []
  let usage' := if usage.outputTokens = 0 ∧ totalOutputText ≠ "" then
      { usage with outputTokens := countTokensKiro totalOutputText }
    else usage
  toolEvts ++ thinkEvts ++ [DecoderCB.complete usage']

/-- Derived: a completions projection used by the C4 statement. -/
def completionsOf (evts : List DecoderCB) : List KUsage :=
  evts.filterMap (fun e => match e with
    | .complete u => some u
    | _ => none)

/-! ### Concrete fixtures used by counterexamples and witnesses -/

/-- Two one-message batches for the C8 counterexample, summarized by an
upstream that answers `"S<index>"`; `15/100` is the default
`compressionRatio`. -/
def c8ExampleGen : Nat → Option String → String :=
  fun idx prev =>
    generateBatchSummary (15 / 100)
      (fun i _ => some ("S" ++ toString i))
      (([[(⟨"user", "alpha"⟩ : CMsg)], [⟨"user", "beta"⟩]]).getD idx []) idx prev

/-- A fallback `choose` function for exercising `getNextAccount`. -/
def chooseHead : List ProxyAccount → ProxyAccount :=
  fun l => l.headD { id := "none" }

/-- Two-account pool for the C7 counterexample: both unavailable
(flagged as needing refresh), error counts 4 and 6. -/
def c7ExamplePool : AccountPool :=
  { accounts := [{ id := "a1", errorCount := 4, isAvailable := false },
                 { id := "a2", errorCount := 6, isAvailable := false }] }

/-- Translator-reachable history for the C1 counterexample: a user turn
carrying a tool result whose id `X` matches no tool use, then an
assistant answer, then the current user turn. -/
def c1ExampleMessages : List KMsg :=
  [.user "r" [⟨"X", "ok", "success"⟩], .assistant "ok" [], .user "hi" []]

/-- Abstraction of a handler state to an automaton state: phase flags,
the open block's index (`smBlockOpen` tracks "a `content_block_start`
was written and not yet stopped"), and the last index used. -/
def ckOf (h : ClaudeHandler) : TraceCk :=
  { started := h.smPhase ≠ .initial,
    stopped := h.smPhase = .message_ended,
    openIdx := if h.smBlockOpen then some h.contentBlockIndex else none,
    lastIdx := h.contentBlockIndex }

/-- Mid-stream handler invariant: the message is started and not ended,
the three block-tracking fields agree, and while a tool use is being
accumulated its block is open. -/
def HInv (h : ClaudeHandler) : Prop :=
  h.smPhase = .message_started ∧
  h.responseEnded = false ∧
  h.smBlockOpen = h.contentBlockStartSent ∧
  h.smBlockOpen = h.currentBlockType.isSome ∧
  (h.currentToolUse.isSome = true → h.smBlockOpen = true)

/-! # Theorems -/

/-! ## C5 — circuit breaker -/

/-- **C5** (confirmed).  In `CLOSED` and `HALF_OPEN`, `canExecute`
returns true and changes nothing.  In `OPEN`, every call made before
`resetTimeout` has elapsed since the last recorded failure returns
false and leaves the state (including `lastFailTime`) unchanged — so
the same holds for every such call until the deadline — and a call at
or after the deadline returns true and moves the breaker to
`HALF_OPEN`.  `recordFailure` stamps `lastFailTime` with the failure
time, so the deadline is measured from the last recorded failure. -/
theorem circuitBreaker_canExecute_spec (cb : CircuitBreaker) (now : Int) :
    ((cb.state = .CLOSED ∨ cb.state = .HALF_OPEN) →
      cb.canExecute now = (true, cb)) ∧
    (cb.state = .OPEN → now - cb.lastFailTime < cb.resetTimeoutMs →
      cb.canExecute now = (false, cb)) ∧
    (cb.state = .OPEN → cb.resetTimeoutMs ≤ now - cb.lastFailTime →
      cb.canExecute now =
        (true, { cb with state := .HALF_OPEN, successCount := 0 })) ∧
    (cb.recordFailure now).lastFailTime = now := by
  refine ⟨?_, ?_, ?_, ?_⟩
  · rintro (h | h) <;> simp [CircuitBreaker.canExecute, h]
  · intro h hlt
    simp [CircuitBreaker.canExecute, h]
    omega
  · intro h hge
    simp [CircuitBreaker.canExecute, h]
    omega
  · unfold CircuitBreaker.recordFailure
    cases h : cb.state
    · simp [h]; split <;> rfl
    · simp [h]
    · simp [h]

/-- Witness for C5 at a concrete breaker: one call just before the
deadline is refused, the call at the deadline flips to `HALF_OPEN`. -/
theorem circuitBreaker_canExecute_spec_witness :
    CircuitBreaker.canExecute { state := .OPEN, lastFailTime := 100 } 30099 =
      (false, { state := .OPEN, lastFailTime := 100 }) ∧
    CircuitBreaker.canExecute { state := .OPEN, lastFailTime := 100 } 30100 =
      (true, { state := .HALF_OPEN, lastFailTime := 100, successCount := 0 }) := by
  constructor
  · exact (circuitBreaker_canExecute_spec { state := .OPEN, lastFailTime := 100 }
      30099).2.1 rfl (by norm_num)
  · exact (circuitBreaker_canExecute_spec { state := .OPEN, lastFailTime := 100 }
      30100).2.2.1 rfl (by norm_num)

/-! ## C10 — non-streaming OpenAI inverse transform -/

/-- **C10** (confirmed).  With at least one tool use, `message.content`
is `null` (accumulated text dropped) and `finish_reason` is
`"tool_calls"`; with none, the content is the accumulated text and the
reason `"stop"`; `usage.total_tokens` is always
`prompt_tokens + completion_tokens`. -/
theorem kiroToOpenaiResponse_spec (content : String)
    (toolUses : List KiroToolUse) (usage : KiroUsageIn)
    (model uuid : String) (nowSec : Int) :
    let r := kiroToOpenaiResponse content toolUses usage model uuid nowSec
    r.choices.map (fun c => (c.message.content, c.finish_reason)) =
      [(if toolUses.isEmpty then some content else none,
        if toolUses.isEmpty then "stop" else "tool_calls")] ∧
    r.usage.total_tokens = r.usage.prompt_tokens + r.usage.completion_tokens := by
  cases toolUses <;>
    simp [kiroToOpenaiResponse, List.isEmpty]

/-! ## C6 — token estimators -/

theorem countTokensKiroLoop_eq (l : List Nat) (acc : ℚ) :
    countTokensKiroLoop l acc = acc + (l.map kiroCharWeight).sum := by
  induction l generalizing acc with
  | nil => simp [countTokensKiroLoop]
  | cons c rest ih =>
    simp only [List.map_cons, List.sum_cons]
    by_cases h1 : 0x4E00 < c ∧ c < 0x9FFF
    · rw [countTokensKiroLoop, if_pos h1, ih, kiroCharWeight, if_pos h1]; ring
    · by_cases h2 : 127 < c
      · rw [countTokensKiroLoop, if_neg h1, if_pos h2, ih,
          kiroCharWeight, if_neg h1, if_pos h2]
        ring
      · rw [countTokensKiroLoop, if_neg h1, if_neg h2, ih,
          kiroCharWeight, if_neg h1, if_neg h2]
        ring

/-- **C6** (corrected; amended claim).  The estimator `parseEventStream`
applies when the upstream reported no `outputTokens` is the
per-code-unit one of `src/lib/types.ts`: the ceiling of the sum that
weighs each UTF-16 unit 2 if it lies strictly inside the CJK range
`(0x4E00, 0x9FFF)`, 1.5 for any other non-ASCII unit, and 0.25 for an
ASCII unit — not the CJK-segment/word formula of the claim. -/
theorem countTokensKiro_is_charWeightSum (text : String) :
    countTokensKiro text = countTokensKiroSpec text := by
  unfold countTokensKiro countTokensKiroSpec
  split
  · rfl
  · rw [countTokensKiroLoop_eq]
    simp

/-- Counterexample to C6 as stated: on the one-character text `"、"`
(ideographic comma, U+3001) the claimed formula yields
`max(1, round(0.5)) = 1` — one non-Han character inside a CJK segment —
while the estimator applied on the missing-`outputTokens` path yields
`ceil(1.5) = 2`. -/
theorem countTokensKiro_ne_claim :
    countTokensKiro "、" = 2 ∧ countTokensClaim "、" = 1 ∧ (2 : ℤ) ≠ 1 := by
  refine ⟨?_, ?_, by decide⟩
  · rw [countTokensKiro_is_charWeightSum]
    rw [countTokensKiroSpec, if_neg (by decide),
      show utf16Codes "、" = [0x3001] from by decide]
    rw [show ((([0x3001] : List ℕ).map kiroCharWeight).sum : ℚ) = 3 / 2 from by
      simp [kiroCharWeight]]
    rw [jsCeil, show ⌈(3 : ℚ) / 2⌉ = 2 from by
      rw [Int.ceil_eq_iff]; norm_num]
  · rw [countTokensClaim, if_neg (by decide),
      show ("、".data) = ['、'] from by decide]
    rw [show splitRuns isCJKClass ['、'] = [['、']] from by decide]
    simp only [List.map_cons, List.map_nil, List.sum_cons, List.sum_nil]
    rw [show claimSegTokens ['、'] = 1 / 2 from ?_]
    · norm_num [jsRound]
    · rw [claimSegTokens]
      simp only [if_pos (show isCJKClass '、' = true from by decide)]
      rw [show (['、'].filter isHanzi) = [] from by decide]
      norm_num

/-! ## C8 — compressor batch chaining -/

theorem getD_set_eq {α : Type} (l : List α) (n : Nat) (v d : α)
    (h : n < l.length) : (l.set n v).getD n d = v := by
  simp [List.getD, List.getElem?_set_self', h]

theorem getD_set_ne {α : Type} (l : List α) (n m : Nat) (v d : α)
    (h : m ≠ n) : (l.set n v).getD m d = l.getD m d := by
  simp [List.getD, List.getElem?_set_ne (Ne.symm h)]

theorem getD_replicate_lt {α : Type} (n k : Nat) (d e : α) (h : k < n) :
    (List.replicate n d).getD k e = d := by
  simp [List.getD, List.getElem?_replicate, h]

theorem getD_of_le_length {α : Type} (l : List α) (k : Nat) (d : α)
    (h : l.length ≤ k) : l.getD k d = d := by
  simp [List.getD, List.getElem?_eq_none h]

theorem applyChunk_succ (gen : Nat → Option String → String)
    (s : List String) (p : List (Option (Option String))) (i c : Nat) :
    applyChunk gen s p i (c + 1) =
      ((applyChunk gen s p i c).1.set (i + c)
          (gen (i + c) (chunkLaunchPrev s (i + c))),
       (applyChunk gen s p i c).2.set (i + c)
          (some (chunkLaunchPrev s (i + c)))) := by
  unfold applyChunk
  rw [List.range_succ, List.foldl_append]
  simp

theorem applyChunk_length (gen : Nat → Option String → String)
    (s : List String) (p : List (Option (Option String))) (i c : Nat) :
    (applyChunk gen s p i c).1.length = s.length ∧
      (applyChunk gen s p i c).2.length = p.length := by
  induction c with
  | zero => simp [applyChunk]
  | succ c ih => rw [applyChunk_succ]; simp [ih.1, ih.2]

theorem applyChunk_getD_out (gen : Nat → Option String → String)
    (s : List String) (p : List (Option (Option String))) (i c k : Nat)
    (h : k < i ∨ i + c ≤ k) :
    (applyChunk gen s p i c).1.getD k "" = s.getD k "" ∧
      (applyChunk gen s p i c).2.getD k none = p.getD k none := by
  induction c with
  | zero => simp [applyChunk]
  | succ c ih =>
    have hne : k ≠ i + c := by omega
    have ih' := ih (by omega)
    rw [applyChunk_succ]
    exact ⟨(getD_set_ne _ _ _ _ _ hne).trans ih'.1,
           (getD_set_ne _ _ _ _ _ hne).trans ih'.2⟩

theorem applyChunk_getD2_in (gen : Nat → Option String → String)
    (s : List String) (p : List (Option (Option String))) (i c k : Nat)
    (hk1 : i ≤ k) (hk2 : k < i + c) (hlen : k < p.length) :
    (applyChunk gen s p i c).2.getD k none = some (chunkLaunchPrev s k) := by
  induction c with
  | zero => omega
  | succ c ih =>
    rw [applyChunk_succ]
    by_cases hke : k = i + c
    · have hlt : i + c < (applyChunk gen s p i c).2.length := by
        rw [(applyChunk_length gen s p i c).2]; omega
      rw [hke, getD_set_eq _ _ _ _ hlt]
    · rw [getD_set_ne _ _ _ _ _ hke]
      exact ih (by omega)

theorem runChunksAux_bounded (gen : Nat → Option String → String) (n : Nat) :
    ∀ (fuel i : Nat) (st : List String × List (Option (Option String))),
      (runChunksAux gen n fuel i st).1.length = st.1.length ∧
      (runChunksAux gen n fuel i st).2.length = st.2.length ∧
      ∀ k, k < i →
        (runChunksAux gen n fuel i st).1.getD k "" = st.1.getD k "" ∧
        (runChunksAux gen n fuel i st).2.getD k none = st.2.getD k none := by
  intro fuel
  induction fuel with
  | zero =>
    intro i st
    exact ⟨rfl, rfl, fun k _ => ⟨rfl, rfl⟩⟩
  | succ fuel ih =>
    intro i st
    by_cases hin : i < n
    · simp only [runChunksAux, if_pos hin]
      have hrec := ih (i + 3) (applyChunk gen st.1 st.2 i (min 3 (n - i)))
      have hlen := applyChunk_length gen st.1 st.2 i (min 3 (n - i))
      refine ⟨hrec.1.trans hlen.1, hrec.2.1.trans hlen.2, fun k hk => ?_⟩
      have h1 := hrec.2.2 k (by omega)
      have h2 := applyChunk_getD_out gen st.1 st.2 i (min 3 (n - i)) k
        (Or.inl hk)
      exact ⟨h1.1.trans h2.1, h1.2.trans h2.2⟩
    · simp [runChunksAux, hin]

theorem runChunksAux_prevArg (gen : Nat → Option String → String) (n : Nat) :
    ∀ (fuel i : Nat) (st : List String × List (Option (Option String))),
      n ≤ i + fuel → i % 3 = 0 →
      st.1.length = n → st.2.length = n →
      (∀ k, i ≤ k → st.1.getD k "" = "") →
      (∀ k, i ≤ k → st.2.getD k none = none) →
      ∀ idx, i ≤ idx → idx < n →
      (runChunksAux gen n fuel i st).2.getD idx none =
        some (if idx = 0 then none
              else if idx % 3 = 0 then
                some ((runChunksAux gen n fuel i st).1.getD (idx - 1) "")
              else some "") := by
  intro fuel
  induction fuel with
  | zero => intro i st h _ _ _ _ _ idx hi hn; omega
  | succ fuel ih =>
    intro i st h h3 hlen1 hlen2 hempty1 hempty2 idx hi hn
    have hin : i < n := by omega
    simp only [runChunksAux, if_pos hin]
    set st' := applyChunk gen st.1 st.2 i (min 3 (n - i)) with hst'
    have hlenA := applyChunk_length gen st.1 st.2 i (min 3 (n - i))
    have hlen1' : st'.1.length = n := by rw [hst', hlenA.1]; exact hlen1
    have hlen2' : st'.2.length = n := by rw [hst', hlenA.2]; exact hlen2
    by_cases hcase : idx < i + 3
    · -- `idx` is set by this chunk; later chunks leave it alone.
      have hidxlt : idx < i + min 3 (n - i) := by omega
      have hin2 : st'.2.getD idx none = some (chunkLaunchPrev st.1 idx) := by
        rw [hst']
        exact applyChunk_getD2_in gen st.1 st.2 i (min 3 (n - i)) idx hi hidxlt
          (by omega)
      have hpres := (runChunksAux_bounded gen n fuel (i + 3) st').2.2
        idx (by omega)
      rw [hpres.2, hin2]
      by_cases h0 : idx = 0
      · rw [if_pos h0, h0]
        simp [chunkLaunchPrev]
      · by_cases hmod : idx % 3 = 0
        · -- chunk leader: `idx = i`, and `summaries[idx-1]` is already final.
          have hidx_i : idx = i := by omega
          have hfin : (runChunksAux gen n fuel (i + 3) st').1.getD (idx - 1) "" =
              st.1.getD (idx - 1) "" := by
            have hp := (runChunksAux_bounded gen n fuel (i + 3) st').2.2
              (idx - 1) (by omega)
            rw [hp.1, hst']
            exact (applyChunk_getD_out gen st.1 st.2 i (min 3 (n - i)) (idx - 1)
              (Or.inl (by omega))).1
          rw [if_neg h0, if_pos hmod]
          rw [chunkLaunchPrev, if_pos (by omega : idx > 0), hfin]
        · -- inside a chunk: the read slot still holds the `''` prefill.
          have hgt : i < idx := by
            rcases Nat.lt_or_ge i idx with hlt | hge
            · exact hlt
            · omega
          rw [if_neg h0, if_neg hmod]
          rw [chunkLaunchPrev, if_pos (by omega : idx > 0),
            hempty1 (idx - 1) (by omega)]
    · -- `idx` belongs to a later chunk: use the induction hypothesis.
      refine ih (i + 3) st' (by omega) (by omega) hlen1' hlen2' ?_ ?_ idx
        (by omega) hn
      · intro k hk
        rw [hst']
        rw [(applyChunk_getD_out gen st.1 st.2 i (min 3 (n - i)) k
          (Or.inr (by omega))).1]
        exact hempty1 k (by omega)
      · intro k hk
        rw [hst']
        rw [(applyChunk_getD_out gen st.1 st.2 i (min 3 (n - i)) k
          (Or.inr (by omega))).2]
        exact hempty2 k (by omega)

/-- **C8** (corrected; amended claim).  In the concurrency-capped batch
loop, only the first batch of each chunk of three is launched with the
previous batch's computed summary: batch 0 gets no previous context,
batch `idx` with `idx % 3 = 0` is launched with the final summary of
batch `idx − 1`, and every other batch is launched with the empty
prefill of the summaries array — which `generateBatchSummary` treats
as "no previous context", dropping the `Previous context:` section
from its prompt. -/
theorem batchLoop_prevArg_spec (gen : Nat → Option String → String)
    (n idx : Nat) (h : idx < n) :
    (runBatchLoop gen n).2.getD idx none =
      some (if idx = 0 then none
            else if idx % 3 = 0 then
              some ((runBatchLoop gen n).1.getD (idx - 1) "")
            else some "") := by
  unfold runBatchLoop
  refine runChunksAux_prevArg gen n (n + 1) 0
    (List.replicate n "", List.replicate n none)
    (by omega) (by omega) (by simp) (by simp) ?_ ?_ idx (by omega) h
  · intro k _
    rcases Nat.lt_or_ge k n with hk | hk
    · exact getD_replicate_lt n k "" "" hk
    · exact getD_of_le_length _ k "" (by simpa using hk)
  · intro k _
    rcases Nat.lt_or_ge k n with hk | hk
    · exact getD_replicate_lt n k none none hk
    · exact getD_of_le_length _ k none (by simpa using hk)

/-- Witness for the amended C8 at the two-batch fixture: batch 1 is
launched with `some ""`, not with batch 0's summary. -/
theorem batchLoop_prevArg_spec_witness :
    (runBatchLoop c8ExampleGen 2).2.getD 1 none = some (some "") := by
  have h := batchLoop_prevArg_spec c8ExampleGen 2 1 (by norm_num)
  simpa using h

/-- Counterexample to C8 as stated: with two batches, batch 0's summary
is `"S0"` (non-empty), yet batch 1 is launched while the shared
summaries array still holds the `''` prefill, so its prompt carries no
previous-context section — identical to the prompt built with no
previous summary at all. -/
theorem batchLoop_chaining_counterexample :
    (runBatchLoop c8ExampleGen 2).1.getD 0 "" = "S0" ∧
    (runBatchLoop c8ExampleGen 2).2.getD 1 none = some (some "") ∧
    (some (some "") : Option (Option String)) ≠ some (some "S0") ∧
    buildSummaryPrompt (15 / 100) (batchTextOf [⟨"user", "beta"⟩]) (some "") =
      buildSummaryPrompt (15 / 100) (batchTextOf [⟨"user", "beta"⟩]) none := by
  refine ⟨by decide, by decide, by decide, ?_⟩
  simp [buildSummaryPrompt]

/-! ## C9 — `recordSuccess` frame conditions -/

theorem alGet_mapSet_same {α : Type} (l : List (String × α)) (k : String)
    (v : α) (h : (l.find? (fun p => p.1 = k)).isSome) :
    alGet (l.map (fun p => if p.1 = k then (k, v) else p)) k = some v := by
  induction l with
  | nil => simp [List.find?] at h
  | cons p t ih =>
    by_cases hp : p.1 = k
    · unfold alGet
      rw [List.map_cons, if_pos hp, List.find?_cons_of_pos _ (by simp)]
      rfl
    · rw [List.find?_cons_of_neg _ (by simp [hp])] at h
      unfold alGet at ih ⊢
      rw [List.map_cons, if_neg hp, List.find?_cons_of_neg _ (by simp [hp])]
      exact ih h

theorem alGet_mapSet_ne {α : Type} (l : List (String × α)) (k k' : String)
    (v : α) (h : k' ≠ k) :
    alGet (l.map (fun p => if p.1 = k then (k, v) else p)) k' = alGet l k' := by
  induction l with
  | nil => simp
  | cons p t ih =>
    unfold alGet at ih ⊢
    by_cases hp : p.1 = k
    · have hpk' : ¬ p.1 = k' := by rw [hp]; exact fun hc => h hc.symm
      rw [List.map_cons, if_pos hp,
        List.find?_cons_of_neg _ (by simp; exact fun hc => h hc.symm),
        List.find?_cons_of_neg _ (by simp [hpk'])]
      exact ih
    · by_cases hp' : p.1 = k'
      · rw [List.map_cons, if_neg hp,
          List.find?_cons_of_pos _ (by simp [hp']),
          List.find?_cons_of_pos _ (by simp [hp'])]
      · rw [List.map_cons, if_neg hp,
          List.find?_cons_of_neg _ (by simp [hp']),
          List.find?_cons_of_neg _ (by simp [hp'])]
        exact ih

theorem alGet_append_single_ne {α : Type} (l : List (String × α))
    (k k' : String) (v : α) (h : k' ≠ k) :
    alGet (l ++ [(k, v)]) k' = alGet l k' := by
  unfold alGet
  rw [List.find?_append]
  rw [List.find?_cons_of_neg _ (by simp; exact fun hc => h hc.symm),
    List.find?_nil, Option.or_none]

theorem alGet_append_single_same {α : Type} (l : List (String × α))
    (k : String) (v : α) (h : (l.find? (fun p => p.1 = k)) = none) :
    alGet (l ++ [(k, v)]) k = some v := by
  unfold alGet
  rw [List.find?_append, h, Option.none_or,
    List.find?_cons_of_pos _ (by simp)]
  rfl

theorem alGet_alSet_same {α : Type} (l : List (String × α)) (k : String)
    (v : α) : alGet (alSet l k v) k = some v := by
  unfold alSet
  split
  · exact alGet_mapSet_same l k v (by assumption)
  · rename_i hfind
    exact alGet_append_single_same l k v
      (Option.not_isSome_iff_eq_none.mp hfind)

theorem alGet_alSet_ne {α : Type} (l : List (String × α)) (k k' : String)
    (v : α) (h : k' ≠ k) : alGet (alSet l k v) k' = alGet l k' := by
  unfold alSet
  split
  · exact alGet_mapSet_ne l k k' v h
  · exact alGet_append_single_ne l k k' v h

/-! The accounts map is keyed by `account.id`; the corresponding
lemmas for `getAccount`/`setAccount`. -/

theorem getAccount_mapSet_same (l : List ProxyAccount) (a' : ProxyAccount)
    (h : (l.find? (fun a => a.id = a'.id)).isSome) :
    getAccount (l.map (fun a => if a.id = a'.id then a' else a)) a'.id =
      some a' := by
  induction l with
  | nil => simp [List.find?] at h
  | cons p t ih =>
    by_cases hp : p.id = a'.id
    · unfold getAccount
      rw [List.map_cons, if_pos hp, List.find?_cons_of_pos _ (by simp)]
    · rw [List.find?_cons_of_neg _ (by simp [hp])] at h
      unfold getAccount at ih ⊢
      rw [List.map_cons, if_neg hp, List.find?_cons_of_neg _ (by simp [hp])]
      exact ih h

theorem getAccount_setAccount_same (l : List ProxyAccount)
    (a' : ProxyAccount) (h : (l.find? (fun a => a.id = a'.id)).isSome) :
    getAccount (setAccount l a') a'.id = some a' := by
  unfold setAccount
  rw [if_pos h]
  exact getAccount_mapSet_same l a' h

theorem mem_setAccount_of_ne (l : List ProxyAccount) (a' b : ProxyAccount)
    (hb : b ∈ l) (hne : b.id ≠ a'.id) : b ∈ setAccount l a' := by
  unfold setAccount
  split
  · refine List.mem_map.mpr ⟨b, hb, ?_⟩
    rw [if_neg hne]
  · exact List.mem_append_left _ hb

theorem getAccount_isSome_iff (l : List ProxyAccount) (id : String) :
    (getAccount l id).isSome ↔ (l.find? (fun a => a.id = id)).isSome := by
  unfold getAccount
  exact Iff.rfl

theorem recordSuccess_proj (pool : AccountPool) (id : String) (tokens : Nat)
    (rt : ℚ) (now : Int) :
    (recordSuccess pool id tokens rt now).inflightRequests =
      alSet pool.inflightRequests id ((alGet pool.inflightRequests id).getD 0 - 1) ∧
    (recordSuccess pool id tokens rt now).accounts =
      (match getAccount pool.accounts id with
       | some account => setAccount pool.accounts
           { account with requestCount := account.requestCount + 1,
                          errorCount := 0, lastUsed := now,
                          isAvailable := true, cooldownUntil := none }
       | none => pool.accounts) := by
  simp only [recordSuccess, releaseAccount]
  cases h : getAccount pool.accounts id <;>
    simp only [h] <;>
      cases h2 : alGet pool.accountStats id <;>
        simp only [h2] <;>
          cases h3 : alGet pool.accountHealth id <;>
            simp only [h3] <;> simp

theorem recordSuccess_frames (pool : AccountPool) (id : String) (tokens : Nat)
    (rt : ℚ) (now : Int) (k : String) (hk : k ≠ id) :
    alGet (recordSuccess pool id tokens rt now).inflightRequests k =
      alGet pool.inflightRequests k ∧
    alGet (recordSuccess pool id tokens rt now).accountStats k =
      alGet pool.accountStats k ∧
    alGet (recordSuccess pool id tokens rt now).accountHealth k =
      alGet pool.accountHealth k := by
  simp only [recordSuccess, releaseAccount]
  cases h : getAccount pool.accounts id <;>
    simp only [h] <;>
      cases h2 : alGet pool.accountStats id <;>
        simp only [h2] <;>
          cases h3 : alGet pool.accountHealth id <;>
            simp only [h3] <;>
              refine ⟨?_, ?_, ?_⟩ <;>
                first
                  | rfl
                  | trivial
                  | exact alGet_alSet_ne _ _ _ _ hk

/-- **C9** (confirmed).  After `recordSuccess(id, tokens, latency)` on a
credential present in the pool: that credential's `errorCount` is 0,
its `cooldownUntil` is cleared, `isAvailable` is true, and its inflight
counter is decremented by one, never below zero (`Nat` truncated
subtraction); every other credential record is untouched, as are the
inflight, stats and health entries of every other id. -/
theorem recordSuccess_spec (pool : AccountPool) (id : String) (tokens : Nat)
    (rt : ℚ) (now : Int)
    (hmem : (getAccount pool.accounts id).isSome) :
    (∃ a', getAccount (recordSuccess pool id tokens rt now).accounts id = some a' ∧
      a'.errorCount = 0 ∧ a'.cooldownUntil = none ∧ a'.isAvailable = true) ∧
    (alGet (recordSuccess pool id tokens rt now).inflightRequests id).getD 0 =
      (alGet pool.inflightRequests id).getD 0 - 1 ∧
    (∀ b ∈ pool.accounts, b.id ≠ id →
      b ∈ (recordSuccess pool id tokens rt now).accounts) ∧
    (∀ k, k ≠ id →
      alGet (recordSuccess pool id tokens rt now).inflightRequests k =
        alGet pool.inflightRequests k ∧
      alGet (recordSuccess pool id tokens rt now).accountStats k =
        alGet pool.accountStats k ∧
      alGet (recordSuccess pool id tokens rt now).accountHealth k =
        alGet pool.accountHealth k) := by
  obtain ⟨account, hacc⟩ := Option.isSome_iff_exists.mp hmem
  have hid : account.id = id := by
    have := List.find?_some hacc
    simpa using this
  have hproj := recordSuccess_proj pool id tokens rt now
  refine ⟨?_, ?_, ?_, ?_⟩
  · set a' : ProxyAccount :=
      { account with requestCount := account.requestCount + 1,
                     errorCount := 0, lastUsed := now,
                     isAvailable := true, cooldownUntil := none } with ha'
    refine ⟨a', ?_, rfl, rfl, rfl⟩
    rw [hproj.2, hacc]
    have hid' : a'.id = id := hid
    rw [← hid']
    apply getAccount_setAccount_same
    rw [hid']
    exact hmem
  · rw [hproj.1, alGet_alSet_same]
    rfl
  · intro b hb hbne
    rw [hproj.2, hacc]
    exact mem_setAccount_of_ne _ _ _ hb (by simpa [hid] using hbne)
  · intro k hk
    have hf := recordSuccess_frames pool id tokens rt now k hk
    exact ⟨(hproj.1 ▸ alGet_alSet_ne _ _ _ _ hk), hf.2.1, hf.2.2⟩

/-- Witness for C9 at a one-credential pool with two requests in
flight and a pending cooldown. -/
theorem recordSuccess_spec_witness :
    (∃ a', getAccount (recordSuccess
        { accounts := [{ id := "w1", errorCount := 2, cooldownUntil := some 99,
                         isAvailable := false }],
          inflightRequests := [("w1", 2)] } "w1" 5 0 999).accounts "w1" =
        some a' ∧
      a'.errorCount = 0 ∧ a'.cooldownUntil = none ∧ a'.isAvailable = true) ∧
    (alGet (recordSuccess
        { accounts := [{ id := "w1", errorCount := 2, cooldownUntil := some 99,
                         isAvailable := false }],
          inflightRequests := [("w1", 2)] } "w1" 5 0 999).inflightRequests
        "w1").getD 0 = 1 := by
  have h := recordSuccess_spec
    { accounts := [{ id := "w1", errorCount := 2, cooldownUntil := some 99,
                     isAvailable := false }],
      inflightRequests := [("w1", 2)] } "w1" 5 0 999 (by decide)
  exact ⟨h.1, h.2.1.trans (by decide)⟩

/-! ## C7 — zero-downtime fallback in `getNextAccount` -/

theorem foldl_shortest_isSome (now : Int) (t : List ProxyAccount)
    (b : Option (ProxyAccount × Int)) (hb : b.isSome) :
    (t.foldl
      (fun (best : Option (ProxyAccount × Int)) a =>
        let wait := max 0 (a.cooldownUntil.getD 0 - now)
        match best with
        | none => some (a, wait)
        | some (_, w) => if wait < w then some (a, wait) else best)
      b).isSome := by
  induction t generalizing b with
  | nil => exact hb
  | cons a t ih =>
    obtain ⟨p, hp⟩ := Option.isSome_iff_exists.mp hb
    rw [List.foldl_cons, hp]
    apply ih
    obtain ⟨_, _⟩ := p
    dsimp only
    split <;> simp

theorem shortestCooldown_isSome (accounts : List ProxyAccount) (now : Int)
    (h : accounts ≠ []) :
    (getAccountWithShortestCooldown accounts now).isSome := by
  cases accounts with
  | nil => exact absurd rfl h
  | cons a t =>
    unfold getAccountWithShortestCooldown
    rw [List.foldl_cons]
    dsimp only
    obtain ⟨p, hp⟩ := Option.isSome_iff_exists.mp
      (foldl_shortest_isSome now t
        (some (a, max 0 (a.cooldownUntil.getD 0 - now))) (by simp))
    rw [hp]
    simp

theorem foldl_stableMin_isSome {α : Type} (key : α → Nat) (t : List α)
    (b : Option α) (hb : b.isSome) :
    (t.foldl
      (fun best a =>
        match best with
        | none => some a
        | some b => if key a < key b then some a else best)
      b).isSome := by
  induction t generalizing b with
  | nil => exact hb
  | cons a t ih =>
    obtain ⟨x, hx⟩ := Option.isSome_iff_exists.mp hb
    rw [List.foldl_cons, hx]
    apply ih
    dsimp only
    split <;> simp

theorem stableMinBy_isSome {α : Type} (key : α → Nat) (l : List α)
    (h : l ≠ []) : (stableMinBy key l).isSome := by
  cases l with
  | nil => exact absurd rfl h
  | cons a t =>
    unfold stableMinBy
    rw [List.foldl_cons]
    exact foldl_stableMin_isSome key t _ (by simp)

theorem zdf_fst_isSome (cfg : AccountPoolConfig)
    (accountList : List ProxyAccount) (pool : AccountPool) (now : Int)
    (h : accountList ≠ []) :
    (zeroDowntimeFallback cfg accountList pool now).1.isSome := by
  unfold zeroDowntimeFallback
  obtain ⟨sc, hsc⟩ := Option.isSome_iff_exists.mp
    (shortestCooldown_isSome accountList now h)
  rw [hsc]
  dsimp only
  split
  · simp
  · split
    · simp
    · rename_i hmin
      cases hu : accountList.filter
          (fun a => ¬ a.disabled ∧ ¬ a.quotaExhausted) with
      | nil =>
        cases accountList with
        | nil => exact absurd rfl h
        | cons a t => simp
      | cons f fs => simp

theorem foldl_shortest_mem (now : Int) (L : List ProxyAccount) :
    ∀ (t : List ProxyAccount) (b : Option (ProxyAccount × Int))
      (p : ProxyAccount × Int),
      (∀ q, b = some q → q.1 ∈ L) → (∀ y ∈ t, y ∈ L) →
      t.foldl
        (fun (best : Option (ProxyAccount × Int)) a =>
          let wait := max 0 (a.cooldownUntil.getD 0 - now)
          match best with
          | none => some (a, wait)
          | some (_, w) => if wait < w then some (a, wait) else best)
        b = some p → p.1 ∈ L := by
  intro t
  induction t with
  | nil => intro b p hb _ hfold; exact hb p hfold
  | cons a t ih =>
    intro b p hb ht hfold
    rw [List.foldl_cons] at hfold
    refine ih _ p ?_ (fun y hy => ht y (List.mem_cons_of_mem a hy)) hfold
    intro q hq
    dsimp only at hq
    rcases b with _ | ⟨z, w⟩
    · cases hq; exact ht a (List.mem_cons_self a t)
    · dsimp only at hq
      split at hq
      · cases hq; exact ht a (List.mem_cons_self a t)
      · cases hq; exact hb (z, w) rfl

theorem shortestCooldown_mem (accounts : List ProxyAccount) (now : Int)
    (x : ProxyAccount)
    (h : getAccountWithShortestCooldown accounts now = some x) : x ∈ accounts := by
  unfold getAccountWithShortestCooldown at h
  rcases hfold : accounts.foldl
      (fun (best : Option (ProxyAccount × Int)) a =>
        let wait := max 0 (a.cooldownUntil.getD 0 - now)
        match best with
        | none => some (a, wait)
        | some (_, w) => if wait < w then some (a, wait) else best)
      none with _ | p
  · rw [hfold] at h; cases h
  · rw [hfold] at h
    cases h
    exact foldl_shortest_mem now accounts accounts none p
      (fun q hq => by cases hq) (fun y hy => hy) hfold

theorem foldl_stableMin_mem {α : Type} (key : α → Nat) (L : List α) :
    ∀ (t : List α) (b : Option α) (x : α),
      (∀ y, b = some y → y ∈ L) → (∀ y ∈ t, y ∈ L) →
      t.foldl
        (fun best a =>
          match best with
          | none => some a
          | some b => if key a < key b then some a else best)
        b = some x → x ∈ L := by
  intro t
  induction t with
  | nil => intro b x hb _ hfold; exact hb x hfold
  | cons a t ih =>
    intro b x hb ht hfold
    rw [List.foldl_cons] at hfold
    refine ih _ x ?_ (fun y hy => ht y (List.mem_cons_of_mem a hy)) hfold
    intro y hy
    rcases b with _ | z
    · cases hy; exact ht a (List.mem_cons_self a t)
    · dsimp only at hy
      split at hy
      · cases hy; exact ht a (List.mem_cons_self a t)
      · cases hy; exact hb y rfl

theorem stableMinBy_mem {α : Type} (key : α → Nat) (l : List α) (x : α)
    (h : stableMinBy key l = some x) : x ∈ l :=
  foldl_stableMin_mem key l l none x (fun y hy => by cases hy)
    (fun y hy => hy) h

theorem zdf_fst_mem (cfg : AccountPoolConfig)
    (accountList : List ProxyAccount) (pool : AccountPool) (now : Int)
    (x : ProxyAccount)
    (h : (zeroDowntimeFallback cfg accountList pool now).1 = some x) :
    x ∈ accountList := by
  by_cases hnil : accountList = []
  · subst hnil
    have hz : (zeroDowntimeFallback cfg [] pool now).1 = none := rfl
    rw [hz] at h
    cases h
  · obtain ⟨sc, hsc⟩ := Option.isSome_iff_exists.mp
      (shortestCooldown_isSome accountList now hnil)
    unfold zeroDowntimeFallback at h
    rw [hsc] at h
    dsimp only at h
    split at h
    · cases h
      exact shortestCooldown_mem accountList now x hsc
    · split at h
      · rename_i le hle
        cases h
        exact List.mem_of_mem_filter (stableMinBy_mem _ _ _ hle)
      · cases hu : accountList.filter
            (fun a => ¬ a.disabled ∧ ¬ a.quotaExhausted) with
        | nil =>
          rw [hu] at h
          cases haccts : accountList with
          | nil => exact absurd haccts hnil
          | cons a t =>
            rw [haccts] at h
            dsimp only [List.head?] at h
            cases h
            simp
        | cons f fs =>
          rw [hu] at h
          dsimp only at h
          cases h
          exact List.mem_of_mem_filter
            (show x ∈ accountList.filter _ from by
              rw [hu]; exact List.mem_cons_self _ _)

/-- **C7** (corrected; amended claim).  When the pool is non-empty and
every credential fails the availability check, `getNextAccount`
returns exactly the credential the zero-downtime fallback order picks
— soonest-ending truthy cooldown under 5 s (cooldown cleared), else
the non-disabled, non-quota-exhausted credential with
`errorCount < maxErrorCount + 2` having the fewest errors (its error
count decremented by one, not halved), else the first non-disabled,
non-quota-exhausted credential, else the first credential — and
`getNextAccount` returns `null` exactly when the pool is empty. -/
theorem getNextAccount_fallback_spec (pool : AccountPool)
    (model : Option String) (now : Int)
    (choose : List ProxyAccount → ProxyAccount) :
    (pool.accounts ≠ [] →
      (∀ a ∈ pool.accounts, checkAccountAvailability pool.config a now = false) →
      (getNextAccount pool model now choose).1 =
        (zeroDowntimeFallback pool.config pool.accounts
          (checkAutoReset pool now) now).1) ∧
    ((getNextAccount pool model now choose).1 = none ↔ pool.accounts = []) := by
  constructor
  · intro hne hall
    cases haccts : pool.accounts with
    | nil => exact absurd haccts hne
    | cons a t =>
      cases t with
      | nil =>
        have hLHS : (getNextAccount pool model now choose).1 = some a := by
          unfold getNextAccount
          rw [haccts]
          dsimp only
          split <;> rfl
        obtain ⟨x, hx⟩ := Option.isSome_iff_exists.mp
          (zdf_fst_isSome pool.config [a] (checkAutoReset pool now) now (by simp))
        have hmem := zdf_fst_mem _ _ _ _ _ hx
        simp only [List.mem_singleton] at hmem
        rw [hLHS, hx, hmem]
      | cons b t2 =>
        unfold getNextAccount
        rw [haccts]
        dsimp only
        split
        · rcases hz : zeroDowntimeFallback pool.config (a :: b :: t2)
              (checkAutoReset pool now) now with ⟨ofb, pool2⟩
          cases ofb with
          | some fb => rfl
          | none =>
            exfalso
            have hs := zdf_fst_isSome pool.config (a :: b :: t2)
              (checkAutoReset pool now) now (by simp)
            rw [hz] at hs
            simp at hs
        · rename_i hns
          exfalso
          refine hns ?_
          simp only [List.isEmpty_eq_true, List.filter_eq_nil_iff]
          intro x hx
          have hfail := hall x (by rw [haccts]; exact hx)
          simp [hfail]
  · cases haccts : pool.accounts with
    | nil =>
      have hL : (getNextAccount pool model now choose).1 = none := by
        unfold getNextAccount
        rw [haccts]
      rw [hL]
      simp
    | cons a t =>
      have hsome : (getNextAccount pool model now choose).1.isSome := by
        unfold getNextAccount
        rw [haccts]
        cases t with
        | nil => dsimp only; split <;> rfl
        | cons b t2 =>
          dsimp only
          split
          · rcases hz : zeroDowntimeFallback pool.config (a :: b :: t2)
                (checkAutoReset pool now) now with ⟨ofb, pool2⟩
            cases ofb with
            | some fb => rfl
            | none =>
              exfalso
              have hs := zdf_fst_isSome pool.config (a :: b :: t2)
                (checkAutoReset pool now) now (by simp)
              rw [hz] at hs
              simp at hs
          · rfl
      constructor
      · intro h0
        exact absurd h0 (Option.isSome_iff_ne_none.mp hsome)
      · intro h0
        cases h0

/-- Witness for C7: the two-account fixture pool is non-empty, both of
its credentials fail the availability check at `now = 1000`, and
`getNextAccount` hands back exactly the zero-downtime fallback's
pick. -/
theorem getNextAccount_fallback_spec_witness :
    c7ExamplePool.accounts ≠ [] ∧
    (∀ a ∈ c7ExamplePool.accounts,
      checkAccountAvailability c7ExamplePool.config a 1000 = false) ∧
    (getNextAccount c7ExamplePool none 1000 chooseHead).1 =
      (zeroDowntimeFallback c7ExamplePool.config c7ExamplePool.accounts
        (checkAutoReset c7ExamplePool 1000) 1000).1 :=
  ⟨by decide, by decide,
    (getNextAccount_fallback_spec c7ExamplePool none 1000 chooseHead).1
      (by decide) (by decide)⟩

/-- **C7 counterexample** to the claim's "halving its error count": on
the fixture pool the fallback picks the account with 4 errors and
stores error count `4 - 1 = 3`, not `4 / 2 = 2` (the halving the
claim describes is what `selfHeal` does, not `zeroDowntimeFallback`,
which decrements by one at line 277). -/
theorem getNextAccount_fallback_counterexample :
    (getNextAccount c7ExamplePool none 1000 chooseHead).1 =
      some { id := "a1", errorCount := 4, isAvailable := false } ∧
    (getAccount (getNextAccount c7ExamplePool none 1000 chooseHead).2.accounts
        "a1").map (fun a => a.errorCount) = some 3 ∧
    (3 : Nat) ≠ 4 / 2 := by decide

/-! ## C4 — end-of-stream flushing -/

theorem flushIncompleteTools_congr (rest : List ToolUseState) :
    ∀ p1 p2 : List String,
      (∀ x ∈ rest, p1.contains x.toolUseId = p2.contains x.toolUseId) →
      flushIncompleteTools rest p1 = flushIncompleteTools rest p2 := by
  induction rest with
  | nil => intro p1 p2 _; rfl
  | cons st rest ih =>
    intro p1 p2 hp
    unfold flushIncompleteTools
    rw [hp st (List.mem_cons_self st rest)]
    split
    · exact ih p1 p2 (fun x hx => hp x (List.mem_cons_of_mem st hx))
    · rw [ih (p1 ++ [st.toolUseId]) (p2 ++ [st.toolUseId]) ?_]
      intro x hx
      simp only [List.contains_eq_any_beq, List.any_append]
      rw [show p1.any (x.toolUseId == ·) = p2.any (x.toolUseId == ·) from by
        simpa only [List.contains_eq_any_beq] using
          hp x (List.mem_cons_of_mem st hx)]

theorem flushIncompleteTools_eq (buffers : List ToolUseState) :
    ∀ processed : List String,
      (buffers.map ToolUseState.toolUseId).Nodup →
      flushIncompleteTools buffers processed =
        (buffers.filter (fun st => ¬ processed.contains st.toolUseId)).map
          (fun st => DecoderCB.chunkToolUse
            ⟨st.toolUseId, st.name, eosFlushInput st.inputBuffer⟩) := by
  induction buffers with
  | nil => intro processed _; rfl
  | cons st rest ih =>
    intro processed hnd
    rw [List.map_cons, List.nodup_cons] at hnd
    obtain ⟨hni, hnd⟩ := hnd
    unfold flushIncompleteTools
    by_cases hc : processed.contains st.toolUseId
    · rw [if_pos hc, List.filter_cons_of_neg (by simpa using hc), ih processed hnd]
    · rw [if_neg hc, List.filter_cons_of_pos (by simpa using hc), List.map_cons]
      refine congrArg _ ?_
      rw [flushIncompleteTools_congr rest (processed ++ [st.toolUseId]) processed
        ?_, ih processed hnd]
      intro x hx
      have hne : ¬ (x.toolUseId == st.toolUseId) = true := by
        rw [beq_iff_eq]
        exact fun h => hni (h ▸ List.mem_map_of_mem ToolUseState.toolUseId hx)
      simp only [List.contains_eq_any_beq, List.any_append, List.any_cons,
        List.any_nil]
      rw [Bool.eq_false_iff.mpr hne]
      simp

/-- **C4** (corrected; amended claim).  On a normal end-of-stream,
every still-open tool buffer whose id has not already been processed
is flushed, in buffer order, as a tool-use event whose input is
`JSON.parse` of the buffered fragments with `{}` on parse failure —
*without* the brace/bracket-balancing repair the stop path applies —
then the thinking-parser residue is flushed when non-empty, and
`onComplete(usage)` fires exactly once (with `outputTokens`
re-estimated from the accumulated text when the upstream reported
none). -/
theorem eosEpilogue_spec (buffers : List ToolUseState) (processed : List String)
    (thinkingBuf : String) (thinkingInThinking thinkingEnabled : Bool)
    (usage : KUsage) (totalOutputText : String)
    (hnd : (buffers.map ToolUseState.toolUseId).Nodup) :
    eosEpilogue buffers processed thinkingBuf thinkingInThinking thinkingEnabled
        usage totalOutputText =
      (buffers.filter (fun st => ¬ processed.contains st.toolUseId)).map
        (fun st => DecoderCB.chunkToolUse
          ⟨st.toolUseId, st.name, eosFlushInput st.inputBuffer⟩) ++
      (if thinkingBuf ≠ "" then
        [DecoderCB.chunkText thinkingBuf (thinkingInThinking ∧ thinkingEnabled)]
       else []) ++
      [DecoderCB.complete (if usage.outputTokens = 0 ∧ totalOutputText ≠ "" then
          { usage with outputTokens := countTokensKiro totalOutputText }
        else usage)] ∧
    completionsOf (eosEpilogue buffers processed thinkingBuf thinkingInThinking
        thinkingEnabled usage totalOutputText) =
      [if usage.outputTokens = 0 ∧ totalOutputText ≠ "" then
          { usage with outputTokens := countTokensKiro totalOutputText }
        else usage] := by
  constructor
  · unfold eosEpilogue
    rw [flushIncompleteTools_eq buffers processed hnd]
  · unfold completionsOf eosEpilogue
    rw [flushIncompleteTools_eq buffers processed hnd]
    simp only [List.filterMap_append, List.filterMap_map, List.filterMap_cons,
      List.filterMap_nil]
    split <;> simp

/-- Witness for C4 on a one-buffer stream: the single open buffer has
a fresh id, and the epilogue fires `onComplete` exactly once. -/
theorem eosEpilogue_spec_witness :
    (([⟨"t1", "w", ""⟩] : List ToolUseState).map ToolUseState.toolUseId).Nodup ∧
    completionsOf (eosEpilogue [⟨"t1", "w", ""⟩] [] "tail" true true {} "") =
      [{}] :=
  ⟨by decide,
    by simpa using
      (eosEpilogue_spec [⟨"t1", "w", ""⟩] [] "tail" true true {} ""
        (by decide)).2⟩

/-- **C4 counterexample** to "with the … repair applied on parse
failure (the same repair used on the stop path)": flushing the
truncated buffer `{"x":"y` at end of stream yields input `{}`, while
the stop path repairs it to `{"x":"y","_repaired":true}`. -/
theorem eosFlush_no_repair_counterexample :
    flushIncompleteTools [⟨"t1", "write", "\x7b\"x\":\"y"⟩] [] =
      [.chunkToolUse ⟨"t1", "write", J.empty⟩] ∧
    stopPathFinalInput "\x7b\"x\":\"y" =
      .obj [("x", .str "y"), ("_repaired", .bool true)] ∧
    J.empty ≠ .obj [("x", .str "y"), ("_repaired", .bool true)] := by
  refine ⟨rfl, rfl, ?_⟩
  intro h
  injection h with h2
  exact List.noConfusion h2

/-! ## C3 — thinking-parser chunking -/

theorem listIndexOfFrom_none_head (h : Char) (ps : List Char) :
    ∀ (l : List Char) (k : Nat), h ∉ l → listIndexOfFrom (h :: ps) l k = none := by
  intro l
  induction l with
  | nil => intro k _; rfl
  | cons c cs ih =>
    intro k hmem
    have hne : ¬ c = h := fun he => hmem (he ▸ List.mem_cons_self c cs)
    simp only [listIndexOfFrom]
    rw [if_neg ?_]
    · exact ih (k + 1) (fun hm => hmem (List.mem_cons_of_mem c hm))
    · simp only [listHasPrefix]
      simp [hne]

theorem findRealStartAux_none (buffer : List Char) (hlt : '<' ∉ buffer) :
    ∀ (fuel s : Nat), findRealStartAux buffer fuel s = none := by
  intro fuel
  cases fuel with
  | zero => intro s; rfl
  | succ fuel =>
    intro s
    simp only [findRealStartAux, indexOfFrom]
    rw [show THINKING_START_TAG = '<' :: "thinking>".data from rfl,
      listIndexOfFrom_none_head '<' "thinking>".data (buffer.drop s) 0
        (fun hm => hlt (List.drop_subset s buffer hm))]
    rfl

theorem findRealThinkingStartTag_none (buffer : List Char)
    (hlt : '<' ∉ buffer) : findRealThinkingStartTag buffer = none :=
  findRealStartAux_none buffer hlt (buffer.length + 2) 0

theorem pendingTagSuffixAux_zero (buffer : List Char) (ps : List Char)
    (hlt : '<' ∉ buffer) :
    ∀ n : Nat, pendingTagSuffixAux buffer ('<' :: ps) n = 0 := by
  intro n
  induction n with
  | zero => rfl
  | succ len ih =>
    simp only [pendingTagSuffixAux]
    rw [if_neg ?_]
    · exact ih
    · intro he
      have hmem : '<' ∈ buffer.drop (buffer.length - (len + 1)) := by
        rw [he, List.take_succ_cons]
        exact List.mem_cons_self _ _
      exact hlt (List.drop_subset _ buffer hmem)

theorem pendingTagSuffix_start_zero (buffer : List Char) (hlt : '<' ∉ buffer) :
    pendingTagSuffix buffer THINKING_START_TAG = 0 := by
  unfold pendingTagSuffix
  split
  · rfl
  · exact pendingTagSuffixAux_zero buffer "thinking>".data hlt _

theorem processLoop_no_lt :
    ∀ (fuel : Nat) (st : ThinkingParser) (acc : List PItem),
      st.inThinkBlock = false → st.pendingStartTagChars = 0 →
      '<' ∉ st.buffer → st.buffer.length + 1 ≤ fuel →
      processLoop fuel st acc =
        ((if st.buffer.isEmpty then acc else acc ++ [⟨false, st.buffer⟩]),
         { st with buffer := [] }) := by
  intro fuel
  induction fuel with
  | zero => intro st acc _ _ _ hf; exact absurd hf (by omega)
  | succ fuel ih =>
    intro st acc hth hp hlt hf
    by_cases hempty : st.buffer.isEmpty
    · have hb : st.buffer = [] := by simpa using hempty
      simp only [processLoop, if_pos hempty, if_pos hempty]
      cases st
      simp only at hb
      simp [hb]
    · simp only [processLoop]
      rw [if_neg (by simpa using hempty)]
      rw [hp, if_neg (by omega : ¬ (0 : Nat) > 0)]
      rw [hth, if_pos (by simp)]
      rw [findRealThinkingStartTag_none st.buffer hlt]
      dsimp only
      rw [pendingTagSuffix_start_zero st.buffer hlt]
      rw [if_neg (by rintro ⟨-, h⟩; omega)]
      rw [Nat.sub_zero]
      rw [if_neg (by simpa [List.length_eq_zero] using hempty)]
      rw [List.drop_length, List.take_length]
      have hlen1 : 1 ≤ fuel := by
        have hne : st.buffer.length ≠ 0 := by
          simpa [List.length_eq_zero] using hempty
        omega
      have hrec := ih ⟨[], false, 0, st.thinkingLength, st.overflowWarned⟩
        (acc ++ [⟨false, st.buffer⟩]) rfl rfl (by simp) (by simpa using hlen1)
      exact hrec.trans (by simp [hempty])

theorem process_no_lt (st : ThinkingParser) (t : List Char)
    (hb : st.buffer = []) (hth : st.inThinkBlock = false)
    (hp : st.pendingStartTagChars = 0) (hlt : '<' ∉ t) :
    st.process t =
      ((if t.isEmpty then [] else [⟨false, t⟩]), { st with buffer := [] }) := by
  unfold ThinkingParser.process
  rw [hb]
  simp only [List.nil_append]
  rw [processLoop_no_lt (t.length + 2) { st with buffer := t } []
    (by simpa using hth) (by simpa using hp) (by simpa using hlt)
    (by simp)]
  simp

theorem parserRun_foldl_no_lt (chunks : List (List Char)) :
    (∀ c ∈ chunks, '<' ∉ c) →
    ∀ acc : List PItem,
      chunks.foldl
        (fun (a : List PItem × ThinkingParser) chunk =>
          let (is, st') := a.2.process chunk
          (a.1 ++ is, st'))
        (acc, {}) =
      (acc ++ chunks.filterMap
        (fun c => if c.isEmpty then none else some ⟨false, c⟩), {}) := by
  induction chunks with
  | nil => intro _ acc; simp
  | cons c cs ih =>
    intro h acc
    rw [List.foldl_cons]
    dsimp only
    rw [process_no_lt {} c rfl rfl rfl (h c (List.mem_cons_self c cs))]
    dsimp only
    rw [ih (fun x hx => h x (List.mem_cons_of_mem c hx)) _]
    by_cases hc : c.isEmpty
    · have hce : c = [] := by simpa using hc
      simp [List.filterMap_cons, hc, hce]
    · have hce : ¬ c = [] := by simpa using hc
      simp [List.filterMap_cons, hc, hce, List.append_assoc]

theorem parserRun_no_lt (chunks : List (List Char))
    (h : ∀ c ∈ chunks, '<' ∉ c) :
    parserRun chunks =
      chunks.filterMap (fun c => if c.isEmpty then none else some ⟨false, c⟩) := by
  unfold parserRun
  rw [parserRun_foldl_no_lt chunks h []]
  dsimp only
  simp [ThinkingParser.finish]

theorem textOut_nil : textOut [] = [] := rfl

theorem textOut_cons_false (c : List Char) (rest : List PItem) :
    textOut (⟨false, c⟩ :: rest) = c ++ textOut rest := by
  simp [textOut]

theorem thinkingOut_cons_false (c : List Char) (rest : List PItem) :
    thinkingOut (⟨false, c⟩ :: rest) = thinkingOut rest := by
  simp [thinkingOut]

theorem textOut_filterMap (chunks : List (List Char)) :
    textOut (chunks.filterMap
      (fun c => if c.isEmpty then none else some ⟨false, c⟩)) =
      chunks.flatten := by
  induction chunks with
  | nil => rfl
  | cons c cs ih =>
    simp only [List.filterMap_cons]
    by_cases hc : c.isEmpty
    · rw [if_pos hc, ih]
      have hce : c = [] := by simpa using hc
      rw [hce, List.flatten_cons, List.nil_append]
    · rw [if_neg hc, textOut_cons_false, ih, List.flatten_cons]

theorem thinkingOut_filterMap (chunks : List (List Char)) :
    thinkingOut (chunks.filterMap
      (fun c => if c.isEmpty then none else some ⟨false, c⟩)) = [] := by
  induction chunks with
  | nil => rfl
  | cons c cs ih =>
    simp only [List.filterMap_cons]
    by_cases hc : c.isEmpty
    · rw [if_pos hc, ih]
    · rw [if_neg hc, thinkingOut_cons_false, ih]

/-- **C3** (corrected; amended claim).  The parser is *not*
chunking-invariant in general; invariance holds on the tag-free
fragment: for every way of splitting an input containing no `<`
character into chunks, the chunked run and the single-call run emit
the same text (the whole input) and the same thinking output
(nothing). -/
theorem thinkingParser_chunking_spec (chunks : List (List Char))
    (h : ∀ c ∈ chunks, '<' ∉ c) :
    textOut (parserRun chunks) = textOut (parserRun [chunks.flatten]) ∧
    thinkingOut (parserRun chunks) = thinkingOut (parserRun [chunks.flatten]) ∧
    textOut (parserRun chunks) = chunks.flatten ∧
    thinkingOut (parserRun chunks) = [] := by
  have hflat : '<' ∉ chunks.flatten := by
    intro hm
    obtain ⟨c, hc, hmc⟩ := List.mem_flatten.mp hm
    exact h c hc hmc
  have h1 := parserRun_no_lt chunks h
  have h2 := parserRun_no_lt [chunks.flatten]
    (by intro c hc; rw [List.mem_singleton] at hc; subst hc; exact hflat)
  refine ⟨?_, ?_, ?_, ?_⟩
  · rw [h1, h2, textOut_filterMap, textOut_filterMap]
    simp
  · rw [h1, h2, thinkingOut_filterMap, thinkingOut_filterMap]
  · rw [h1, textOut_filterMap]
  · rw [h1, thinkingOut_filterMap]

/-- Witness for C3: the split `["ab", "c."]` of the tag-free input
`"ab c."` behaves exactly like the joined call. -/
theorem thinkingParser_chunking_spec_witness :
    (∀ c ∈ ["ab".data, "c.".data], '<' ∉ c) ∧
    textOut (parserRun ["ab".data, "c.".data]) =
      textOut (parserRun [(["ab".data, "c.".data] : List (List Char)).flatten]) ∧
    textOut (parserRun ["ab".data, "c.".data]) = "abc.".data :=
  ⟨by decide,
    (thinkingParser_chunking_spec ["ab".data, "c.".data] (by decide)).1,
    by
      rw [(thinkingParser_chunking_spec ["ab".data, "c.".data] (by decide)).2.2.1]
      decide⟩

/-- **C3 counterexample** to full chunking invariance: split
`"a.<thinking>"` as `"a." ++ "<thinking>"`.  Fed whole, the `'.'`
preceding the tag is a quote character, the tag is dismissed as fake
and everything is text; fed in two chunks the tag opens a thinking
block whose content never arrives, so the chunked run emits only
`"a."`. -/
theorem thinkingParser_chunking_counterexample :
    textOut (parserRun ["a.".data, "<thinking>".data]) ≠
      textOut (parserRun [("a." ++ "<thinking>").data]) := by decide

/-! ## C2 — SSE trace well-formedness -/

theorem ckRun_append (l1 : List SSEEvt) :
    ∀ (l2 : List SSEEvt) (c : TraceCk),
      ckRun c (l1 ++ l2) = (ckRun c l1).bind (fun c' => ckRun c' l2) := by
  induction l1 with
  | nil => intro l2 c; rfl
  | cons e l1 ih =>
    intro l2 c
    rw [List.cons_append]
    cases hs : ckStep c e
    · simp [ckRun, hs]
    · simp only [ckRun, hs]
      exact ih l2 _

theorem closeCurrentBlock_sim (h : ClaudeHandler)
    (hb1 : h.smBlockOpen = h.contentBlockStartSent)
    (hb2 : h.smBlockOpen = h.currentBlockType.isSome)
    (hph : h.smPhase = .message_started) :
    ckRun (ckOf h) (h.closeCurrentBlock).2 = some (ckOf (h.closeCurrentBlock).1) ∧
    (h.closeCurrentBlock).1 =
      { h with currentBlockType := none, contentBlockStartSent := false,
               smBlockOpen := false } := by
  unfold ClaudeHandler.closeCurrentBlock
  by_cases hc : h.currentBlockType.isSome = true ∧ h.contentBlockStartSent = true
  · rw [if_pos (by exact_mod_cast hc)]
    have hopen : h.smBlockOpen = true := hb2.trans hc.1
    constructor
    · simp only [ckRun, ckStep, ckOf, hph, hopen]
      simp
    · rfl
  · rw [if_neg (by exact_mod_cast hc)]
    have hopen : h.smBlockOpen = false := by
      by_contra hx
      have : h.smBlockOpen = true := by revert hx; cases h.smBlockOpen <;> simp
      exact hc ⟨hb2 ▸ this, hb1 ▸ this⟩
    constructor
    · rfl
    · have h1 : h.currentBlockType = none := by
        have := hb2 ▸ hopen
        cases hcb : h.currentBlockType
        · rfl
        · rw [hcb] at this; cases this
      have h2 : h.contentBlockStartSent = false := hb1 ▸ hopen
      cases h
      simp only at hopen h1 h2
      simp [hopen, h1, h2]

theorem startContentBlock_sim (h : ClaudeHandler) (bt : BlockType)
    (hopen : h.smBlockOpen = false)
    (hph : h.smPhase = .message_started) :
    ckRun (ckOf h) (h.startContentBlock bt).2 =
      some (ckOf (h.startContentBlock bt).1) := by
  unfold ClaudeHandler.startContentBlock
  simp only [ckRun, ckStep, ckOf, hph, hopen]
  have : h.contentBlockIndex + 1 > h.contentBlockIndex := by omega
  simp [this]

theorem emitText_sim (h : ClaudeHandler) (content : List Char)
    (hb1 : h.smBlockOpen = h.contentBlockStartSent)
    (hb2 : h.smBlockOpen = h.currentBlockType.isSome)
    (hph : h.smPhase = .message_started) :
    ckRun (ckOf h) (h.emitText content).2 = some (ckOf (h.emitText content).1) ∧
    ((h.emitText content).1.smBlockOpen =
        (h.emitText content).1.contentBlockStartSent ∧
      (h.emitText content).1.smBlockOpen =
        (h.emitText content).1.currentBlockType.isSome) ∧
    (h.emitText content).1.smPhase = .message_started ∧
    (h.emitText content).1.currentToolUse = h.currentToolUse ∧
    (h.emitText content).1.responseEnded = h.responseEnded ∧
    ((h.emitText content).1.smBlockOpen = true ∨ (h.emitText content).1 = h) := by
  unfold ClaudeHandler.emitText
  by_cases hce : content.isEmpty
  · rw [if_pos hce]
    exact ⟨rfl, ⟨hb1, hb2⟩, hph, rfl, rfl, Or.inr rfl⟩
  · rw [if_neg hce]
    by_cases hov : h.responseBufferSize + content.length >
        MAX_RESPONSE_BUFFER_CHARS
    · rw [if_pos hov]
      dsimp only
      by_cases hbt : h.currentBlockType ≠ some BlockType.text
      · rw [if_pos hbt]
        obtain ⟨hclsim, hcleq⟩ := closeCurrentBlock_sim
          { h with bufferOverflowWarned := true } hb1 hb2 hph
        rcases hcl : ClaudeHandler.closeCurrentBlock
            { h with bufferOverflowWarned := true } with ⟨h1, e1⟩
        rw [hcl] at hclsim hcleq
        dsimp only at hclsim hcleq
        have hsbsim := startContentBlock_sim h1 BlockType.text
          (by rw [hcleq]) (by rw [hcleq]; exact hph)
        rcases hsb : ClaudeHandler.startContentBlock h1 BlockType.text
          with ⟨h2, e2⟩
        rw [hsb] at hsbsim
        have h2eq : h2 =
            { h1 with
                contentBlockIndex := h1.contentBlockIndex + 1,
                currentBlockType := some BlockType.text,
                contentBlockStartSent := true, smBlockOpen := true,
                smIdx := h1.smIdx + 1 } := by
          have h' := congrArg Prod.fst hsb
          unfold ClaudeHandler.startContentBlock at h'
          dsimp only at h'
          exact h'.symm
        dsimp only
        refine ⟨?_, ?_, ?_, ?_, ?_, ?_⟩
        · rw [show ckOf h = ckOf { h with bufferOverflowWarned := true } from rfl,
            ckRun_append, ckRun_append, hclsim]
          dsimp only [Option.bind]
          rw [hsbsim]
          dsimp only [Option.bind]
          simp only [ckRun, ckStep, ckOf, h2eq, hcleq, hph]
          simp
        · rw [h2eq]; exact ⟨rfl, rfl⟩
        · rw [h2eq, hcleq]; exact hph
        · rw [h2eq, hcleq]
        · rw [h2eq, hcleq]
        · left; rw [h2eq]
      · rw [if_neg hbt]
        dsimp only
        have hsome : h.currentBlockType = some BlockType.text := by
          by_contra hx; exact hbt hx
        have hopen : h.smBlockOpen = true := by rw [hb2, hsome]; rfl
        refine ⟨?_, ⟨hb1, hb2⟩, hph, rfl, rfl, Or.inl hopen⟩
        simp only [ckRun, ckStep, ckOf, hph, hopen]
        simp
    · rw [if_neg hov]
      dsimp only
      by_cases hbt : h.currentBlockType ≠ some BlockType.text
      · rw [if_pos hbt]
        obtain ⟨hclsim, hcleq⟩ := closeCurrentBlock_sim h hb1 hb2 hph
        rcases hcl : ClaudeHandler.closeCurrentBlock h with ⟨h1, e1⟩
        rw [hcl] at hclsim hcleq
        dsimp only at hclsim hcleq
        have hsbsim := startContentBlock_sim h1 BlockType.text
          (by rw [hcleq]) (by rw [hcleq]; exact hph)
        rcases hsb : ClaudeHandler.startContentBlock h1 BlockType.text
          with ⟨h2, e2⟩
        rw [hsb] at hsbsim
        have h2eq : h2 =
            { h1 with
                contentBlockIndex := h1.contentBlockIndex + 1,
                currentBlockType := some BlockType.text,
                contentBlockStartSent := true, smBlockOpen := true,
                smIdx := h1.smIdx + 1 } := by
          have h' := congrArg Prod.fst hsb
          unfold ClaudeHandler.startContentBlock at h'
          dsimp only at h'
          exact h'.symm
        dsimp only
        refine ⟨?_, ?_, ?_, ?_, ?_, ?_⟩
        · rw [ckRun_append, ckRun_append, hclsim]
          dsimp only [Option.bind]
          rw [hsbsim]
          dsimp only [Option.bind]
          simp only [ckRun, ckStep, ckOf, h2eq, hcleq, hph]
          simp
        · rw [h2eq]; exact ⟨rfl, rfl⟩
        · rw [h2eq, hcleq]; exact hph
        · rw [h2eq, hcleq]
        · rw [h2eq, hcleq]
        · left; rw [h2eq]
      · rw [if_neg hbt]
        dsimp only
        have hsome : h.currentBlockType = some BlockType.text := by
          by_contra hx; exact hbt hx
        have hopen : h.smBlockOpen = true := by rw [hb2, hsome]; rfl
        refine ⟨?_, ⟨hb1, hb2⟩, hph, rfl, rfl, Or.inl hopen⟩
        simp only [ckRun, ckStep, ckOf, hph, hopen]
        simp

theorem emitThinking_sim (h : ClaudeHandler) (content : List Char)
    (hb1 : h.smBlockOpen = h.contentBlockStartSent)
    (hb2 : h.smBlockOpen = h.currentBlockType.isSome)
    (hph : h.smPhase = .message_started) :
    ckRun (ckOf h) (h.emitThinking content).2 = some (ckOf (h.emitThinking content).1) ∧
    ((h.emitThinking content).1.smBlockOpen =
        (h.emitThinking content).1.contentBlockStartSent ∧
      (h.emitThinking content).1.smBlockOpen =
        (h.emitThinking content).1.currentBlockType.isSome) ∧
    (h.emitThinking content).1.smPhase = .message_started ∧
    (h.emitThinking content).1.currentToolUse = h.currentToolUse ∧
    (h.emitThinking content).1.responseEnded = h.responseEnded ∧
    ((h.emitThinking content).1.smBlockOpen = true ∨ (h.emitThinking content).1 = h) := by
  unfold ClaudeHandler.emitThinking
  by_cases hce : content.isEmpty
  · rw [if_pos hce]
    exact ⟨rfl, ⟨hb1, hb2⟩, hph, rfl, rfl, Or.inr rfl⟩
  · rw [if_neg hce]
    by_cases hov : h.thinkingBufferSize + content.length >
        MAX_RESPONSE_BUFFER_CHARS
    · rw [if_pos hov]
      dsimp only
      by_cases hbt : h.currentBlockType ≠ some BlockType.thinking
      · rw [if_pos hbt]
        obtain ⟨hclsim, hcleq⟩ := closeCurrentBlock_sim
          { h with bufferOverflowWarned := true } hb1 hb2 hph
        rcases hcl : ClaudeHandler.closeCurrentBlock
            { h with bufferOverflowWarned := true } with ⟨h1, e1⟩
        rw [hcl] at hclsim hcleq
        dsimp only at hclsim hcleq
        have hsbsim := startContentBlock_sim h1 BlockType.thinking
          (by rw [hcleq]) (by rw [hcleq]; exact hph)
        rcases hsb : ClaudeHandler.startContentBlock h1 BlockType.thinking
          with ⟨h2, e2⟩
        rw [hsb] at hsbsim
        have h2eq : h2 =
            { h1 with
                contentBlockIndex := h1.contentBlockIndex + 1,
                currentBlockType := some BlockType.thinking,
                contentBlockStartSent := true, smBlockOpen := true,
                smIdx := h1.smIdx + 1 } := by
          have h' := congrArg Prod.fst hsb
          unfold ClaudeHandler.startContentBlock at h'
          dsimp only at h'
          exact h'.symm
        dsimp only
        refine ⟨?_, ?_, ?_, ?_, ?_, ?_⟩
        · rw [show ckOf h = ckOf { h with bufferOverflowWarned := true } from rfl,
            ckRun_append, ckRun_append, hclsim]
          dsimp only [Option.bind]
          rw [hsbsim]
          dsimp only [Option.bind]
          simp only [ckRun, ckStep, ckOf, h2eq, hcleq, hph]
          simp
        · rw [h2eq]; exact ⟨rfl, rfl⟩
        · rw [h2eq, hcleq]; exact hph
        · rw [h2eq, hcleq]
        · rw [h2eq, hcleq]
        · left; rw [h2eq]
      · rw [if_neg hbt]
        dsimp only
        have hsome : h.currentBlockType = some BlockType.thinking := by
          by_contra hx; exact hbt hx
        have hopen : h.smBlockOpen = true := by rw [hb2, hsome]; rfl
        refine ⟨?_, ⟨hb1, hb2⟩, hph, rfl, rfl, Or.inl hopen⟩
        simp only [ckRun, ckStep, ckOf, hph, hopen]
        simp
    · rw [if_neg hov]
      dsimp only
      by_cases hbt : h.currentBlockType ≠ some BlockType.thinking
      · rw [if_pos hbt]
        obtain ⟨hclsim, hcleq⟩ := closeCurrentBlock_sim h hb1 hb2 hph
        rcases hcl : ClaudeHandler.closeCurrentBlock h with ⟨h1, e1⟩
        rw [hcl] at hclsim hcleq
        dsimp only at hclsim hcleq
        have hsbsim := startContentBlock_sim h1 BlockType.thinking
          (by rw [hcleq]) (by rw [hcleq]; exact hph)
        rcases hsb : ClaudeHandler.startContentBlock h1 BlockType.thinking
          with ⟨h2, e2⟩
        rw [hsb] at hsbsim
        have h2eq : h2 =
            { h1 with
                contentBlockIndex := h1.contentBlockIndex + 1,
                currentBlockType := some BlockType.thinking,
                contentBlockStartSent := true, smBlockOpen := true,
                smIdx := h1.smIdx + 1 } := by
          have h' := congrArg Prod.fst hsb
          unfold ClaudeHandler.startContentBlock at h'
          dsimp only at h'
          exact h'.symm
        dsimp only
        refine ⟨?_, ?_, ?_, ?_, ?_, ?_⟩
        · rw [ckRun_append, ckRun_append, hclsim]
          dsimp only [Option.bind]
          rw [hsbsim]
          dsimp only [Option.bind]
          simp only [ckRun, ckStep, ckOf, h2eq, hcleq, hph]
          simp
        · rw [h2eq]; exact ⟨rfl, rfl⟩
        · rw [h2eq, hcleq]; exact hph
        · rw [h2eq, hcleq]
        · rw [h2eq, hcleq]
        · left; rw [h2eq]
      · rw [if_neg hbt]
        dsimp only
        have hsome : h.currentBlockType = some BlockType.thinking := by
          by_contra hx; exact hbt hx
        have hopen : h.smBlockOpen = true := by rw [hb2, hsome]; rfl
        refine ⟨?_, ⟨hb1, hb2⟩, hph, rfl, rfl, Or.inl hopen⟩
        simp only [ckRun, ckStep, ckOf, hph, hopen]
        simp

theorem emitItem_sim (h : ClaudeHandler) (it : PItem)
    (hb1 : h.smBlockOpen = h.contentBlockStartSent)
    (hb2 : h.smBlockOpen = h.currentBlockType.isSome)
    (hph : h.smPhase = .message_started) :
    ckRun (ckOf h) (h.emitItem it).2 = some (ckOf (h.emitItem it).1) ∧
    ((h.emitItem it).1.smBlockOpen = (h.emitItem it).1.contentBlockStartSent ∧
      (h.emitItem it).1.smBlockOpen = (h.emitItem it).1.currentBlockType.isSome) ∧
    (h.emitItem it).1.smPhase = .message_started ∧
    (h.emitItem it).1.currentToolUse = h.currentToolUse ∧
    (h.emitItem it).1.responseEnded = h.responseEnded ∧
    ((h.emitItem it).1.smBlockOpen = true ∨ (h.emitItem it).1 = h) := by
  unfold ClaudeHandler.emitItem
  by_cases hit : it.isThinking
  · rw [if_pos hit]
    exact emitThinking_sim h it.content hb1 hb2 hph
  · rw [if_neg hit]
    exact emitText_sim h it.content hb1 hb2 hph

theorem emitItems_foldl_shift (items : List PItem) :
    ∀ (h : ClaudeHandler) (es : List SSEEvt),
      items.foldl
        (fun (acc : ClaudeHandler × List SSEEvt) it =>
          ((acc.1.emitItem it).1, acc.2 ++ (acc.1.emitItem it).2))
        (h, es) =
      ((items.foldl
        (fun (acc : ClaudeHandler × List SSEEvt) it =>
          ((acc.1.emitItem it).1, acc.2 ++ (acc.1.emitItem it).2))
        (h, [])).1,
       es ++ (items.foldl
        (fun (acc : ClaudeHandler × List SSEEvt) it =>
          ((acc.1.emitItem it).1, acc.2 ++ (acc.1.emitItem it).2))
        (h, [])).2) := by
  induction items with
  | nil => intro h es; simp
  | cons it rest ih =>
    intro h es
    rw [List.foldl_cons, List.foldl_cons]
    dsimp only
    rcases he : h.emitItem it with ⟨h1, e⟩
    dsimp only
    rw [ih h1 (es ++ e), ih h1 ([] ++ e)]
    simp

theorem emitItems_cons (h : ClaudeHandler) (it : PItem) (rest : List PItem) :
    h.emitItems (it :: rest) =
      (((h.emitItem it).1.emitItems rest).1,
        (h.emitItem it).2 ++ ((h.emitItem it).1.emitItems rest).2) := by
  unfold ClaudeHandler.emitItems
  rw [List.foldl_cons]
  dsimp only
  rw [emitItems_foldl_shift rest _ _]
  simp

theorem emitItems_sim (items : List PItem) :
    ∀ h : ClaudeHandler,
      h.smBlockOpen = h.contentBlockStartSent →
      h.smBlockOpen = h.currentBlockType.isSome →
      h.smPhase = .message_started →
      ckRun (ckOf h) (h.emitItems items).2 =
        some (ckOf (h.emitItems items).1) ∧
      ((h.emitItems items).1.smBlockOpen =
          (h.emitItems items).1.contentBlockStartSent ∧
        (h.emitItems items).1.smBlockOpen =
          (h.emitItems items).1.currentBlockType.isSome) ∧
      (h.emitItems items).1.smPhase = .message_started ∧
      (h.emitItems items).1.currentToolUse = h.currentToolUse ∧
      (h.emitItems items).1.responseEnded = h.responseEnded ∧
      ((h.emitItems items).1.smBlockOpen = true ∨ (h.emitItems items).1 = h) := by
  induction items with
  | nil =>
    intro h hb1 hb2 hph
    exact ⟨rfl, ⟨hb1, hb2⟩, hph, rfl, rfl, Or.inr rfl⟩
  | cons it rest ih =>
    intro h hb1 hb2 hph
    obtain ⟨hsim1, ⟨hb1', hb2'⟩, hph', hctu', hre', hop'⟩ :=
      emitItem_sim h it hb1 hb2 hph
    rcases he : h.emitItem it with ⟨h1, e⟩
    rw [he] at hsim1 hb1' hb2' hph' hctu' hre' hop'
    dsimp only at hsim1 hb1' hb2' hph' hctu' hre' hop'
    obtain ⟨hsim2, ⟨hb1r, hb2r⟩, hphr, hctur, hrer, hopr⟩ := ih h1 hb1' hb2' hph'
    have hsplit := emitItems_cons h it rest
    rw [he] at hsplit
    dsimp only at hsplit
    rw [hsplit]
    refine ⟨?_, ⟨hb1r, hb2r⟩, hphr, hctur.trans hctu', hrer.trans hre', ?_⟩
    · dsimp only
      rw [ckRun_append, hsim1]
      exact hsim2
    · dsimp only
      rcases hopr with hopr | hopr
      · exact Or.inl hopr
      · rcases hop' with hop' | hop'
        · exact Or.inl (by rw [hopr]; exact hop')
        · exact Or.inr (by rw [hopr, hop'])

theorem handleContent_sim (h : ClaudeHandler) (content : List Char)
    (hinv : HInv h) :
    ckRun (ckOf h) (h.handleContent content).2 =
      some (ckOf (h.handleContent content).1) ∧
    HInv (h.handleContent content).1 := by
  obtain ⟨hph, hre, hb1, hb2, htu⟩ := hinv
  by_cases hcase : h.responseEnded = true ∨ content.isEmpty = true
  · have heq : h.handleContent content = (h, []) := by
      unfold ClaudeHandler.handleContent
      rw [if_pos hcase]
    rw [heq]
    exact ⟨rfl, hph, hre, hb1, hb2, htu⟩
  · by_cases hep : h.enableThinkingParsing = true
    · rcases hpr : h.thinkingParser.process content with ⟨items, p'⟩
      have heq : h.handleContent content =
          ClaudeHandler.emitItems
            { h with
                outputTokens := h.outputTokens +
                  countTokensStream (String.mk content),
                thinkingParser := p' } items := by
        unfold ClaudeHandler.handleContent
        rw [if_neg hcase]
        dsimp only
        rw [if_pos hep, hpr]
      rw [heq]
      obtain ⟨hsim, ⟨b1, b2⟩, hph', hctu, hre', hop⟩ :=
        emitItems_sim items
          { h with
              outputTokens := h.outputTokens +
                countTokensStream (String.mk content),
              thinkingParser := p' } (by exact hb1) (by exact hb2) (by exact hph)
      refine ⟨by exact hsim, by exact hph', by exact hre'.trans hre,
        by exact b1, by exact b2, ?_⟩
      intro hsome
      have hc : h.currentToolUse.isSome = true := by
        rw [hctu] at hsome
        exact hsome
      have hopen := htu hc
      rcases hop with hop | hop
      · exact hop
      · rw [hop]
        exact hopen
    · have heq : h.handleContent content =
          ClaudeHandler.emitText
            { h with
                outputTokens := h.outputTokens +
                  countTokensStream (String.mk content) } content := by
        unfold ClaudeHandler.handleContent
        rw [if_neg hcase]
        dsimp only
        rw [if_neg hep]
      rw [heq]
      obtain ⟨hsim, ⟨b1, b2⟩, hph', hctu, hre', hop⟩ :=
        emitText_sim
          { h with
              outputTokens := h.outputTokens +
                countTokensStream (String.mk content) } content
          (by exact hb1) (by exact hb2) (by exact hph)
      refine ⟨by exact hsim, by exact hph', by exact hre'.trans hre,
        by exact b1, by exact b2, ?_⟩
      intro hsome
      have hc : h.currentToolUse.isSome = true := by
        rw [hctu] at hsome
        exact hsome
      have hopen := htu hc
      rcases hop with hop | hop
      · exact hop
      · rw [hop]
        exact hopen

theorem safeAdd_sim (h : ClaudeHandler) (fragment : String)
    (hph : h.smPhase = .message_started)
    (htu : h.currentToolUse.isSome = true → h.smBlockOpen = true) :
    ckRun (ckOf h) (h.safeAdd fragment).2 = some (ckOf (h.safeAdd fragment).1) ∧
    (h.safeAdd fragment).1.smPhase = h.smPhase ∧
    (h.safeAdd fragment).1.responseEnded = h.responseEnded ∧
    (h.safeAdd fragment).1.smBlockOpen = h.smBlockOpen ∧
    (h.safeAdd fragment).1.contentBlockStartSent = h.contentBlockStartSent ∧
    (h.safeAdd fragment).1.currentBlockType = h.currentBlockType ∧
    (h.safeAdd fragment).1.currentToolUse.isSome = h.currentToolUse.isSome := by
  unfold ClaudeHandler.safeAdd
  cases hct : h.currentToolUse with
  | none => exact ⟨rfl, rfl, rfl, rfl, rfl, rfl, by rw [hct]⟩
  | some ctu =>
    dsimp only
    have hopen : h.smBlockOpen = true := htu (by rw [hct]; rfl)
    by_cases hsz : ctu.inputBufferSize + fragment.length >
        MAX_TOOL_INPUT_BUFFER_CHARS
    · rw [if_pos hsz]
      refine ⟨?_, rfl, rfl, rfl, rfl, rfl, by rw [hct]⟩
      simp only [ckRun, ckStep, ckOf, hph, hopen]
      simp
    · rw [if_neg hsz]
      refine ⟨?_, rfl, rfl, rfl, rfl, rfl, rfl⟩
      simp only [ckRun, ckStep, ckOf, hph, hopen]
      simp

theorem finishToolUse_sim (h : ClaudeHandler)
    (hb1 : h.smBlockOpen = h.contentBlockStartSent)
    (hb2 : h.smBlockOpen = h.currentBlockType.isSome)
    (hph : h.smPhase = .message_started)
    (htu : h.currentToolUse.isSome = true → h.smBlockOpen = true) :
    ckRun (ckOf h) (h.finishToolUse).2 = some (ckOf (h.finishToolUse).1) ∧
    ((h.finishToolUse).1.smBlockOpen =
        (h.finishToolUse).1.contentBlockStartSent ∧
      (h.finishToolUse).1.smBlockOpen =
        (h.finishToolUse).1.currentBlockType.isSome) ∧
    ((h.finishToolUse).1.currentToolUse.isSome = true →
      (h.finishToolUse).1.smBlockOpen = true) ∧
    (h.finishToolUse).1.smPhase = h.smPhase ∧
    (h.finishToolUse).1.responseEnded = h.responseEnded := by
  rcases hct : h.currentToolUse with _ | ctu
  · unfold ClaudeHandler.finishToolUse
    rw [hct]
    exact ⟨rfl, ⟨hb1, hb2⟩, htu, rfl, rfl⟩
  · unfold ClaudeHandler.finishToolUse
    rw [hct]
    dsimp only
    obtain ⟨hclsim, hcleq⟩ := closeCurrentBlock_sim
      { h with currentToolUse := some ctu, toolCalls := h.toolCalls ++
          [(⟨ctu.id, ctu.name,
            if String.join ctu.inputBuffer = "" then J.empty
            else match jsonParse (String.join ctu.inputBuffer) with
              | some j => j
              | none => J.obj [("_error", J.str "Failed to parse tool input"),
                  ("_raw", J.str (String.mk
                    ((String.join ctu.inputBuffer).data.take 500)))]⟩ :
            KiroToolUse)] }
      (by exact hb1) (by exact hb2) (by exact hph)
    rcases hcl : ClaudeHandler.closeCurrentBlock
        { h with currentToolUse := some ctu, toolCalls := h.toolCalls ++
            [(⟨ctu.id, ctu.name,
              if String.join ctu.inputBuffer = "" then J.empty
              else match jsonParse (String.join ctu.inputBuffer) with
                | some j => j
                | none => J.obj [("_error", J.str "Failed to parse tool input"),
                    ("_raw", J.str (String.mk
                      ((String.join ctu.inputBuffer).data.take 500)))]⟩ :
              KiroToolUse)] } with ⟨h1, e1⟩
    rw [hcl] at hclsim hcleq
    dsimp only at hclsim hcleq
    refine ⟨by exact hclsim, ⟨?_, ?_⟩, ?_, ?_, ?_⟩
    · rw [hcleq]
    · rw [hcleq]; rfl
    · intro hx
      simp at hx
    · show h1.smPhase = h.smPhase
      rw [hcleq]
    · show h1.responseEnded = h.responseEnded
      rw [hcleq]

theorem handleToolUse_sim (h : ClaudeHandler) (toolUseId toolName : Option String)
    (toolInput : ToolInputArg) (isStop : Bool) (hinv : HInv h) :
    ckRun (ckOf h) (h.handleToolUse toolUseId toolName toolInput isStop).2 =
      some (ckOf (h.handleToolUse toolUseId toolName toolInput isStop).1) ∧
    HInv (h.handleToolUse toolUseId toolName toolInput isStop).1 := by
  obtain ⟨hph, hre, hb1, hb2, htu⟩ := hinv
  unfold ClaudeHandler.handleToolUse
  rw [if_neg (by rw [hre]; simp)]
  by_cases hq : ¬ optStrTruthy toolUseId = true ∧ ¬ optStrTruthy toolName = true
  · rw [if_pos hq]
    rcases hct : h.currentToolUse with _ | ctu
    · exact ⟨rfl, hph, hre, hb1, hb2, htu⟩
    · dsimp only
      rcases hfr : toolInput.frag with _ | f
      · dsimp only
        by_cases hstop : isStop = true
        · rw [if_pos hstop]
          obtain ⟨hfs, ⟨fb1, fb2⟩, ftu, fph, fre⟩ :=
            finishToolUse_sim h hb1 hb2 hph htu
          rcases hfi : h.finishToolUse with ⟨h2, e2⟩
          rw [hfi] at hfs fb1 fb2 ftu fph fre
          dsimp only at hfs fb1 fb2 ftu fph fre ⊢
          exact ⟨by rw [List.nil_append]; exact hfs,
            fph.trans hph, fre.trans hre, fb1, fb2, ftu⟩
        · rw [if_neg hstop]
          exact ⟨rfl, hph, hre, hb1, hb2, htu⟩
      · dsimp only
        by_cases hfe : f ≠ ""
        · rw [if_pos hfe]
          obtain ⟨sadd, sph, sre, sob, scb, sct, sts⟩ :=
            safeAdd_sim h f hph htu
          rcases hsa : h.safeAdd f with ⟨hA, e1⟩
          rw [hsa] at sadd sph sre sob scb sct sts
          dsimp only at sadd sph sre sob scb sct sts ⊢
          have b1A : hA.smBlockOpen = hA.contentBlockStartSent := by
            rw [sob, scb]; exact hb1
          have b2A : hA.smBlockOpen = hA.currentBlockType.isSome := by
            rw [sob, sct]; exact hb2
          have phA : hA.smPhase = .message_started := by rw [sph]; exact hph
          have tuA : hA.currentToolUse.isSome = true → hA.smBlockOpen = true := by
            intro hx
            rw [sob]
            exact htu (by rw [← sts]; exact hx)
          by_cases hstop : isStop = true
          · rw [if_pos hstop]
            obtain ⟨hfs, ⟨fb1, fb2⟩, ftu, fph, fre⟩ :=
              finishToolUse_sim hA b1A b2A phA tuA
            rcases hfi : hA.finishToolUse with ⟨h2, e2⟩
            rw [hfi] at hfs fb1 fb2 ftu fph fre
            dsimp only at hfs fb1 fb2 ftu fph fre ⊢
            refine ⟨?_, fph.trans phA, fre.trans (sre.trans hre), fb1, fb2, ftu⟩
            rw [ckRun_append, sadd]
            exact hfs
          · rw [if_neg hstop]
            exact ⟨sadd, phA, sre.trans hre, b1A, b2A, tuA⟩
        · rw [if_neg hfe]
          dsimp only
          by_cases hstop : isStop = true
          · rw [if_pos hstop]
            obtain ⟨hfs, ⟨fb1, fb2⟩, ftu, fph, fre⟩ :=
              finishToolUse_sim h hb1 hb2 hph htu
            rcases hfi : h.finishToolUse with ⟨h2, e2⟩
            rw [hfi] at hfs fb1 fb2 ftu fph fre
            dsimp only at hfs fb1 fb2 ftu fph fre ⊢
            exact ⟨by rw [List.nil_append]; exact hfs,
              fph.trans hph, fre.trans hre, fb1, fb2, ftu⟩
          · rw [if_neg hstop]
            exact ⟨rfl, hph, hre, hb1, hb2, htu⟩
  · rw [if_neg hq]
    by_cases hq2 : optStrTruthy toolUseId = true ∧ optStrTruthy toolName = true ∧
        h.currentToolUse.isNone = true
    · rw [if_pos hq2]
      dsimp only
      by_cases hmem : toolUseId.getD "" ∈ h.processedToolUseIds
      · rw [if_pos hmem]
        exact ⟨rfl, hph, hre, hb1, hb2, htu⟩
      · rw [if_neg hmem]
        obtain ⟨hclsim, hcleq⟩ := closeCurrentBlock_sim h hb1 hb2 hph
        rcases hcl : h.closeCurrentBlock with ⟨h1, e1⟩
        rw [hcl] at hclsim hcleq
        dsimp only at hclsim hcleq ⊢
        have hsbsim := startContentBlock_sim
          { h1 with processedToolUseIds :=
              h1.processedToolUseIds ++ [toolUseId.getD ""] }
          BlockType.toolUse (by rw [hcleq]) (by rw [hcleq]; exact hph)
        rcases hsb : ClaudeHandler.startContentBlock
            { h1 with processedToolUseIds :=
                h1.processedToolUseIds ++ [toolUseId.getD ""] }
            BlockType.toolUse with ⟨h2, e2⟩
        rw [hsb] at hsbsim
        have h2eq : h2 =
            { h1 with
                processedToolUseIds :=
                  h1.processedToolUseIds ++ [toolUseId.getD ""],
                contentBlockIndex := h1.contentBlockIndex + 1,
                currentBlockType := some BlockType.toolUse,
                contentBlockStartSent := true, smBlockOpen := true,
                smIdx := h1.smIdx + 1 } := by
          have h' := congrArg Prod.fst hsb
          unfold ClaudeHandler.startContentBlock at h'
          dsimp only at h'
          exact h'.symm
        dsimp only
        set hC : ClaudeHandler :=
          { h2 with
              currentToolUse :=
                some ⟨toolUseId.getD "", toolName.getD "", [], 0⟩ }
          with hCdef
        have phC : hC.smPhase = .message_started := by
          show h2.smPhase = _
          rw [h2eq, hcleq]
          exact hph
        have tuC : hC.currentToolUse.isSome = true → hC.smBlockOpen = true := by
          intro _
          show h2.smBlockOpen = true
          rw [h2eq]
        have b1C : hC.smBlockOpen = hC.contentBlockStartSent := by
          show h2.smBlockOpen = h2.contentBlockStartSent
          rw [h2eq]
        have b2C : hC.smBlockOpen = hC.currentBlockType.isSome := by
          show h2.smBlockOpen = h2.currentBlockType.isSome
          rw [h2eq]
          rfl
        have reC : hC.responseEnded = false := by
          show h2.responseEnded = false
          rw [h2eq, hcleq]
          exact hre
        have s2 : ckRun (ckOf h1) e2 = some (ckOf h2) := by exact hsbsim
        rcases hfr : toolInput.frag with _ | f
        · dsimp only
          by_cases hstop : isStop = true
          · rw [if_pos hstop]
            obtain ⟨hfs, ⟨fb1, fb2⟩, ftu, fph, fre⟩ :=
              finishToolUse_sim hC b1C b2C phC tuC
            rcases hfi : hC.finishToolUse with ⟨h3, e4⟩
            rw [hfi] at hfs fb1 fb2 ftu fph fre
            dsimp only at hfs fb1 fb2 ftu fph fre ⊢
            refine ⟨?_, fph.trans phC, fre.trans reC, fb1, fb2, ftu⟩
            rw [ckRun_append, ckRun_append, ckRun_append, hclsim]
            dsimp only [Option.bind]
            rw [s2]
            dsimp only [Option.bind, ckRun]
            exact hfs
          · rw [if_neg hstop]
            refine ⟨?_, phC, reC, b1C, b2C, tuC⟩
            rw [ckRun_append, ckRun_append, hclsim]
            dsimp only [Option.bind]
            rw [s2]
            dsimp only [Option.bind, ckRun]
            rfl
        · dsimp only
          by_cases hfe : f ≠ ""
          · rw [if_pos hfe]
            obtain ⟨sadd, sph, sre, sob, scb, sct, sts⟩ :=
              safeAdd_sim hC f phC tuC
            rcases hsa : hC.safeAdd f with ⟨hA, e3⟩
            rw [hsa] at sadd sph sre sob scb sct sts
            dsimp only at sadd sph sre sob scb sct sts ⊢
            have b1A : hA.smBlockOpen = hA.contentBlockStartSent := by
              rw [sob, scb]; exact b1C
            have b2A : hA.smBlockOpen = hA.currentBlockType.isSome := by
              rw [sob, sct]; exact b2C
            have phA : hA.smPhase = .message_started := by rw [sph]; exact phC
            have tuA : hA.currentToolUse.isSome = true →
                hA.smBlockOpen = true := by
              intro _
              rw [sob]
              show h2.smBlockOpen = true
              rw [h2eq]
            have reA : hA.responseEnded = false := by
              rw [sre]
              exact reC
            have sA : ckRun (ckOf h2) e3 = some (ckOf hA) := by exact sadd
            by_cases hstop : isStop = true
            · rw [if_pos hstop]
              obtain ⟨hfs, ⟨fb1, fb2⟩, ftu, fph, fre⟩ :=
                finishToolUse_sim hA b1A b2A phA tuA
              rcases hfi : hA.finishToolUse with ⟨h3, e4⟩
              rw [hfi] at hfs fb1 fb2 ftu fph fre
              dsimp only at hfs fb1 fb2 ftu fph fre ⊢
              refine ⟨?_, fph.trans phA, fre.trans reA, fb1, fb2, ftu⟩
              rw [ckRun_append, ckRun_append, ckRun_append, hclsim]
              dsimp only [Option.bind]
              rw [s2]
              dsimp only [Option.bind]
              rw [sA]
              dsimp only [Option.bind]
              exact hfs
            · rw [if_neg hstop]
              refine ⟨?_, phA, reA, b1A, b2A, tuA⟩
              rw [ckRun_append, ckRun_append, hclsim]
              dsimp only [Option.bind]
              rw [s2]
              dsimp only [Option.bind]
              exact sA
          · rw [if_neg hfe]
            dsimp only
            by_cases hstop : isStop = true
            · rw [if_pos hstop]
              obtain ⟨hfs, ⟨fb1, fb2⟩, ftu, fph, fre⟩ :=
                finishToolUse_sim hC b1C b2C phC tuC
              rcases hfi : hC.finishToolUse with ⟨h3, e4⟩
              rw [hfi] at hfs fb1 fb2 ftu fph fre
              dsimp only at hfs fb1 fb2 ftu fph fre ⊢
              refine ⟨?_, fph.trans phC, fre.trans reC, fb1, fb2, ftu⟩
              rw [ckRun_append, ckRun_append, ckRun_append, hclsim]
              dsimp only [Option.bind]
              rw [s2]
              dsimp only [Option.bind, ckRun]
              exact hfs
            · rw [if_neg hstop]
              refine ⟨?_, phC, reC, b1C, b2C, tuC⟩
              rw [ckRun_append, ckRun_append, hclsim]
              dsimp only [Option.bind]
              rw [s2]
              dsimp only [Option.bind, ckRun]
              rfl
    · rw [if_neg hq2]
      dsimp only
      by_cases hcs : h.currentToolUse.isSome = true
      · rw [if_pos hcs]
        rcases hfr : toolInput.frag with _ | f
        · dsimp only
          by_cases hsx : isStop = true ∧ h.currentToolUse.isSome = true
          · rw [if_pos hsx]
            obtain ⟨hfs, ⟨fb1, fb2⟩, ftu, fph, fre⟩ :=
              finishToolUse_sim h hb1 hb2 hph htu
            rcases hfi : h.finishToolUse with ⟨h2, e2⟩
            rw [hfi] at hfs fb1 fb2 ftu fph fre
            dsimp only at hfs fb1 fb2 ftu fph fre ⊢
            exact ⟨by rw [List.nil_append]; exact hfs,
              fph.trans hph, fre.trans hre, fb1, fb2, ftu⟩
          · rw [if_neg hsx]
            exact ⟨rfl, hph, hre, hb1, hb2, htu⟩
        · dsimp only
          by_cases hfe : f ≠ ""
          · rw [if_pos hfe]
            obtain ⟨sadd, sph, sre, sob, scb, sct, sts⟩ :=
              safeAdd_sim h f hph htu
            rcases hsa : h.safeAdd f with ⟨hA, e1⟩
            rw [hsa] at sadd sph sre sob scb sct sts
            dsimp only at sadd sph sre sob scb sct sts ⊢
            have b1A : hA.smBlockOpen = hA.contentBlockStartSent := by
              rw [sob, scb]; exact hb1
            have b2A : hA.smBlockOpen = hA.currentBlockType.isSome := by
              rw [sob, sct]; exact hb2
            have phA : hA.smPhase = .message_started := by rw [sph]; exact hph
            have tuA : hA.currentToolUse.isSome = true →
                hA.smBlockOpen = true := by
              intro hx
              rw [sob]
              exact htu (by rw [← sts]; exact hx)
            by_cases hsx : isStop = true ∧ hA.currentToolUse.isSome = true
            · rw [if_pos hsx]
              obtain ⟨hfs, ⟨fb1, fb2⟩, ftu, fph, fre⟩ :=
                finishToolUse_sim hA b1A b2A phA tuA
              rcases hfi : hA.finishToolUse with ⟨h2, e2⟩
              rw [hfi] at hfs fb1 fb2 ftu fph fre
              dsimp only at hfs fb1 fb2 ftu fph fre ⊢
              refine ⟨?_, fph.trans phA, fre.trans (sre.trans hre),
                fb1, fb2, ftu⟩
              rw [ckRun_append, sadd]
              exact hfs
            · rw [if_neg hsx]
              exact ⟨sadd, phA, sre.trans hre, b1A, b2A, tuA⟩
          · rw [if_neg hfe]
            dsimp only
            by_cases hsx : isStop = true ∧ h.currentToolUse.isSome = true
            · rw [if_pos hsx]
              obtain ⟨hfs, ⟨fb1, fb2⟩, ftu, fph, fre⟩ :=
                finishToolUse_sim h hb1 hb2 hph htu
              rcases hfi : h.finishToolUse with ⟨h2, e2⟩
              rw [hfi] at hfs fb1 fb2 ftu fph fre
              dsimp only at hfs fb1 fb2 ftu fph fre ⊢
              exact ⟨by rw [List.nil_append]; exact hfs,
                fph.trans hph, fre.trans hre, fb1, fb2, ftu⟩
            · rw [if_neg hsx]
              exact ⟨rfl, hph, hre, hb1, hb2, htu⟩
      · rw [if_neg hcs]
        dsimp only
        by_cases hsx : isStop = true ∧ h.currentToolUse.isSome = true
        · exact absurd hsx.2 hcs
        · rw [if_neg hsx]
          exact ⟨rfl, hph, hre, hb1, hb2, htu⟩

theorem stepOp_sim (h : ClaudeHandler) (op : HandlerOp) (hinv : HInv h) :
    ckRun (ckOf h) (h.stepOp op).2 = some (ckOf (h.stepOp op).1) ∧
    HInv (h.stepOp op).1 := by
  cases op with
  | content s => exact handleContent_sim h s hinv
  | toolUse id name input isStop =>
    exact handleToolUse_sim h id name input isStop hinv
  | contentLengthExceeded =>
    obtain ⟨hph, hre, hb1, hb2, htu⟩ := hinv
    exact ⟨rfl, hph, hre, hb1, hb2, htu⟩

theorem runOps_foldl_shift (ops : List HandlerOp) :
    ∀ (h : ClaudeHandler) (es : List SSEEvt),
      ops.foldl
        (fun (acc : ClaudeHandler × List SSEEvt) op =>
          ((acc.1.stepOp op).1, acc.2 ++ (acc.1.stepOp op).2))
        (h, es) =
      ((ops.foldl
        (fun (acc : ClaudeHandler × List SSEEvt) op =>
          ((acc.1.stepOp op).1, acc.2 ++ (acc.1.stepOp op).2))
        (h, [])).1,
       es ++ (ops.foldl
        (fun (acc : ClaudeHandler × List SSEEvt) op =>
          ((acc.1.stepOp op).1, acc.2 ++ (acc.1.stepOp op).2))
        (h, [])).2) := by
  induction ops with
  | nil => intro h es; simp
  | cons op rest ih =>
    intro h es
    rw [List.foldl_cons, List.foldl_cons]
    dsimp only
    rcases he : h.stepOp op with ⟨h1, e⟩
    dsimp only
    rw [ih h1 (es ++ e), ih h1 ([] ++ e)]
    simp

theorem runOps_cons (h : ClaudeHandler) (op : HandlerOp) (rest : List HandlerOp) :
    h.runOps (op :: rest) =
      (((h.stepOp op).1.runOps rest).1,
        (h.stepOp op).2 ++ ((h.stepOp op).1.runOps rest).2) := by
  unfold ClaudeHandler.runOps
  rw [List.foldl_cons]
  dsimp only
  rw [runOps_foldl_shift rest _ _]
  simp

theorem runOps_sim (ops : List HandlerOp) :
    ∀ h : ClaudeHandler, HInv h →
      ckRun (ckOf h) (h.runOps ops).2 = some (ckOf (h.runOps ops).1) ∧
      HInv (h.runOps ops).1 := by
  induction ops with
  | nil => intro h hinv; exact ⟨rfl, hinv⟩
  | cons op rest ih =>
    intro h hinv
    obtain ⟨s1, hinv1⟩ := stepOp_sim h op hinv
    rcases he : h.stepOp op with ⟨h1, e⟩
    rw [he] at s1 hinv1
    dsimp only at s1 hinv1
    obtain ⟨s2, hinv2⟩ := ih h1 hinv1
    have hsplit := runOps_cons h op rest
    rw [he] at hsplit
    dsimp only at hsplit
    rw [hsplit]
    refine ⟨?_, hinv2⟩
    dsimp only
    rw [ckRun_append, s1]
    exact s2

theorem finish_sim (h : ClaudeHandler) (hinv : HInv h) :
    ∃ c', ckRun (ckOf h) (h.finish).2 = some c' ∧
      c'.started = true ∧ c'.stopped = true ∧ c'.openIdx = none := by
  obtain ⟨hph, hre, hb1, hb2, htu⟩ := hinv
  unfold ClaudeHandler.finish
  rw [if_neg (by rw [hre]; simp)]
  dsimp only
  by_cases hep : h.enableThinkingParsing = true
  · rw [if_pos hep]
    rcases hpf : h.thinkingParser.finish with ⟨items, p'⟩
    dsimp only
    set hE : ClaudeHandler :=
      { h with responseEnded := true, thinkingParser := p' } with hEdef
    obtain ⟨esim, ⟨eb1, eb2⟩, eph, ectu, ere, eop⟩ :=
      emitItems_sim items hE (by exact hb1) (by exact hb2) (by exact hph)
    rcases hei : hE.emitItems items with ⟨h1, e1⟩
    rw [hei] at esim eb1 eb2 eph ectu ere eop
    dsimp only at esim eb1 eb2 eph ectu ere eop ⊢
    obtain ⟨hclsim, hcleq⟩ := closeCurrentBlock_sim h1 eb1 eb2 eph
    rcases hcl : h1.closeCurrentBlock with ⟨h2, e2⟩
    rw [hcl] at hclsim hcleq
    dsimp only at hclsim hcleq ⊢
    have ph2 : h2.smPhase = .message_started := by
      rw [hcleq]
      exact eph
    have hopen2 : h2.smBlockOpen = false := by rw [hcleq]
    refine ⟨⟨true, true, none, h2.contentBlockIndex⟩, ?_, rfl, rfl, rfl⟩
    rw [ckRun_append, ckRun_append,
      show ckOf h = ckOf hE from rfl, esim]
    dsimp only [Option.bind]
    rw [hclsim]
    dsimp only [Option.bind]
    simp only [ckRun, ckStep, ckOf, ph2, hopen2]
    simp
  · rw [if_neg hep]
    dsimp only
    obtain ⟨hclsim, hcleq⟩ := closeCurrentBlock_sim
      { h with responseEnded := true } (by exact hb1) (by exact hb2)
      (by exact hph)
    rcases hcl : ClaudeHandler.closeCurrentBlock
        { h with responseEnded := true } with ⟨h2, e2⟩
    rw [hcl] at hclsim hcleq
    dsimp only at hclsim hcleq ⊢
    have ph2 : h2.smPhase = .message_started := by
      rw [hcleq]
      exact hph
    have hopen2 : h2.smBlockOpen = false := by rw [hcleq]
    refine ⟨⟨true, true, none, h2.contentBlockIndex⟩, ?_, rfl, rfl, rfl⟩
    rw [ckRun_append, ckRun_append]
    dsimp only [ckRun, Option.bind]
    rw [show ckOf h = ckOf { h with responseEnded := true } from rfl, hclsim]
    dsimp only [Option.bind]
    simp only [ckRun, ckStep, ckOf, ph2, hopen2]
    simp

theorem ckStep_pre_not_stopped (c : TraceCk) (e : SSEEvt) (c' : TraceCk)
    (h : ckStep c e = some c') : c.stopped = false := by
  cases e with
  | messageStart =>
    simp only [ckStep] at h
    split at h
    · rename_i hc; simpa using hc.2
    · cases h
  | contentBlockStart i bt =>
    simp only [ckStep] at h
    split at h
    · rename_i hc; simpa using hc.2.1
    · cases h
  | contentBlockDelta i dt =>
    simp only [ckStep] at h
    split at h
    · rename_i hc; simpa using hc.2.1
    · cases h
  | contentBlockStop i =>
    simp only [ckStep] at h
    split at h
    · rename_i hc; simpa using hc.2.1
    · cases h
  | messageDelta sr =>
    simp only [ckStep] at h
    split at h
    · rename_i hc; simpa using hc.2.1
    · cases h
  | messageStop =>
    simp only [ckStep] at h
    split at h
    · rename_i hc; simpa using hc.2.1
    · cases h
  | errorEvt => cases h

theorem ckStep_started_of_ne (c : TraceCk) (e : SSEEvt) (c' : TraceCk)
    (h : ckStep c e = some c') (hne : e ≠ SSEEvt.messageStart) :
    c'.started = c.started := by
  cases e with
  | messageStart => exact absurd rfl hne
  | contentBlockStart i bt =>
    simp only [ckStep] at h
    split at h
    · cases h; rfl
    · cases h
  | contentBlockDelta i dt =>
    simp only [ckStep] at h
    split at h
    · cases h; rfl
    · cases h
  | contentBlockStop i =>
    simp only [ckStep] at h
    split at h
    · cases h; rfl
    · cases h
  | messageDelta sr =>
    simp only [ckStep] at h
    split at h
    · cases h; rfl
    · cases h
  | messageStop =>
    simp only [ckStep] at h
    split at h
    · cases h; rfl
    · cases h
  | errorEvt => cases h

theorem ckStep_messageStart (c : TraceCk) (c' : TraceCk)
    (h : ckStep c SSEEvt.messageStart = some c') :
    c.started = false ∧ c'.started = true := by
  simp only [ckStep] at h
  split at h
  · rename_i hc
    cases h
    exact ⟨by simpa using hc.1, rfl⟩
  · cases h

theorem ckStep_stopped_of_ne (c : TraceCk) (e : SSEEvt) (c' : TraceCk)
    (h : ckStep c e = some c') (hne : e ≠ SSEEvt.messageStop) :
    c'.stopped = c.stopped := by
  cases e with
  | messageStop => exact absurd rfl hne
  | messageStart =>
    simp only [ckStep] at h
    split at h
    · cases h; rfl
    · cases h
  | contentBlockStart i bt =>
    simp only [ckStep] at h
    split at h
    · cases h; rfl
    · cases h
  | contentBlockDelta i dt =>
    simp only [ckStep] at h
    split at h
    · cases h; rfl
    · cases h
  | contentBlockStop i =>
    simp only [ckStep] at h
    split at h
    · cases h; rfl
    · cases h
  | messageDelta sr =>
    simp only [ckStep] at h
    split at h
    · cases h; rfl
    · cases h
  | errorEvt => cases h

theorem ckStep_messageStop (c : TraceCk) (c' : TraceCk)
    (h : ckStep c SSEEvt.messageStop = some c') : c'.stopped = true := by
  simp only [ckStep] at h
  split at h
  · cases h; rfl
  · cases h

theorem ckRun_stopped_halts :
    ∀ (tr : List SSEEvt) (c c' : TraceCk),
      ckRun c tr = some c' → c.stopped = true → tr = [] ∧ c' = c := by
  intro tr c c' h hstop
  cases tr with
  | nil =>
    refine ⟨rfl, ?_⟩
    unfold ckRun at h
    cases h
    rfl
  | cons e rest =>
    exfalso
    unfold ckRun at h
    rcases hs : ckStep c e with _ | c1
    · rw [hs] at h; cases h
    · have := ckStep_pre_not_stopped c e c1 hs
      rw [hstop] at this
      cases this

theorem ckRun_started_mono :
    ∀ (tr : List SSEEvt) (c c' : TraceCk),
      ckRun c tr = some c' → c.started = true → c'.started = true := by
  intro tr
  induction tr with
  | nil =>
    intro c c' h hst
    unfold ckRun at h
    cases h
    exact hst
  | cons e rest ih =>
    intro c c' h hst
    unfold ckRun at h
    rcases hs : ckStep c e with _ | c1
    · rw [hs] at h; cases h
    · rw [hs] at h
      refine ih c1 c' h ?_
      by_cases he : e = SSEEvt.messageStart
      · subst he
        exact (ckStep_messageStart c c1 hs).2
      · rw [ckStep_started_of_ne c e c1 hs he]
        exact hst

theorem ckRun_count_messageStart :
    ∀ (tr : List SSEEvt) (c c' : TraceCk),
      ckRun c tr = some c' →
      tr.count SSEEvt.messageStart =
        (if c'.started = true ∧ c.started = false then 1 else 0) := by
  intro tr
  induction tr with
  | nil =>
    intro c c' h
    unfold ckRun at h
    cases h
    cases hs : c.started <;> simp [hs]
  | cons e rest ih =>
    intro c c' h
    unfold ckRun at h
    rcases hs : ckStep c e with _ | c1
    · rw [hs] at h; cases h
    · rw [hs] at h
      by_cases he : e = SSEEvt.messageStart
      · subst he
        obtain ⟨hpre, hpost⟩ := ckStep_messageStart c c1 hs
        have hc' := ckRun_started_mono rest c1 c' h hpost
        rw [List.count_cons_self, ih c1 c' h]
        rw [if_neg (by rw [hpost]; rintro ⟨-, hx⟩; cases hx)]
        rw [if_pos ⟨hc', hpre⟩]
      · rw [List.count_cons_of_ne (Ne.symm he), ih c1 c' h,
          ckStep_started_of_ne c e c1 hs he]

theorem ckRun_count_messageStop :
    ∀ (tr : List SSEEvt) (c c' : TraceCk),
      ckRun c tr = some c' → c.stopped = false →
      tr.count SSEEvt.messageStop =
        (if c'.stopped = true then 1 else 0) := by
  intro tr
  induction tr with
  | nil =>
    intro c c' h hstop
    unfold ckRun at h
    cases h
    simp [hstop]
  | cons e rest ih =>
    intro c c' h hstop
    unfold ckRun at h
    rcases hs : ckStep c e with _ | c1
    · rw [hs] at h; cases h
    · rw [hs] at h
      dsimp only at h
      by_cases he : e = SSEEvt.messageStop
      · subst he
        have hc1 := ckStep_messageStop c c1 hs
        obtain ⟨hrest, hc'⟩ := ckRun_stopped_halts rest c1 c' h hc1
        subst hrest
        rw [List.count_cons_self]
        simp [hc', hc1]
      · rw [List.count_cons_of_ne (Ne.symm he), ih c1 c' h
          (by rw [ckStep_stopped_of_ne c e c1 hs he]; exact hstop)]

theorem ckRun_last_messageStop :
    ∀ (tr : List SSEEvt) (c c' : TraceCk),
      ckRun c tr = some c' → c.stopped = false → c'.stopped = true →
      tr.getLast? = some SSEEvt.messageStop := by
  intro tr
  induction tr with
  | nil =>
    intro c c' h hstop hstop'
    unfold ckRun at h
    cases h
    rw [hstop] at hstop'
    cases hstop'
  | cons e rest ih =>
    intro c c' h hstop hstop'
    unfold ckRun at h
    rcases hs : ckStep c e with _ | c1
    · rw [hs] at h; cases h
    · rw [hs] at h
      dsimp only at h
      by_cases he : e = SSEEvt.messageStop
      · subst he
        have hc1 := ckStep_messageStop c c1 hs
        obtain ⟨hrest, -⟩ := ckRun_stopped_halts rest c1 c' h hc1
        subst hrest
        rfl
      · have hc1 : c1.stopped = false := by
          rw [ckStep_stopped_of_ne c e c1 hs he]
          exact hstop
        have hlast := ih c1 c' h hc1 hstop'
        cases rest with
        | nil =>
          rw [show ([] : List SSEEvt).getLast? = none from rfl] at hlast
          cases hlast
        | cons r rs =>
          rw [List.getLast?_cons_cons]
          exact hlast

theorem claudeTrace_ckRun (et : Bool) (ops : List HandlerOp) :
    ∃ c', ckRun {} (claudeTrace et ops) = some c' ∧
      c'.started = true ∧ c'.stopped = true ∧ c'.openIdx = none := by
  unfold claudeTrace
  dsimp only
  rw [show ClaudeHandler.sendMessageStart { enableThinkingParsing := et } =
    ({ enableThinkingParsing := et, smPhase := .message_started },
      [SSEEvt.messageStart]) from rfl]
  dsimp only
  have hinv1 :
      HInv { enableThinkingParsing := et, smPhase := .message_started } := by
    refine ⟨rfl, rfl, rfl, rfl, ?_⟩
    intro hx
    simp at hx
  obtain ⟨rsim, rinv⟩ := runOps_sim ops _ hinv1
  rcases hro : ClaudeHandler.runOps
      { enableThinkingParsing := et, smPhase := .message_started } ops
      with ⟨h2, e2⟩
  rw [hro] at rsim rinv
  dsimp only at rsim rinv ⊢
  obtain ⟨c', fsim, fst, fsp, fop⟩ := finish_sim h2 rinv
  rcases hfi : h2.finish with ⟨h3, e3⟩
  rw [hfi] at fsim
  dsimp only at fsim ⊢
  refine ⟨c', ?_, fst, fsp, fop⟩
  rw [ckRun_append, ckRun_append,
    show ckRun {} [SSEEvt.messageStart] = some (ckOf
      { enableThinkingParsing := et, smPhase := .message_started }) from rfl]
  dsimp only [Option.bind]
  rw [rsim]
  dsimp only [Option.bind]
  exact fsim

/-- **C2** (corrected; amended claim).  Every *successful* stream —
`sendMessageStart`, any sequence of decoder-driven handler operations,
then `finish` — yields a well-formed SSE trace: accepted by the trace
automaton (message framing, balanced blocks with at most one open,
strictly increasing block indices, nothing after `message_stop`, no
error events), with exactly one `message_start`, exactly one
`message_stop`, and `message_stop` last.  The claim's inclusion of
"the error path" is refuted separately: `onError` emits an error event
and closes without `message_stop`. -/
theorem claudeTrace_wellFormed (et : Bool) (ops : List HandlerOp) :
    wfTrace (claudeTrace et ops) = true ∧
    (claudeTrace et ops).count SSEEvt.messageStart = 1 ∧
    (claudeTrace et ops).count SSEEvt.messageStop = 1 ∧
    (claudeTrace et ops).getLast? = some SSEEvt.messageStop := by
  obtain ⟨c', hck, hst, hsp, hop⟩ := claudeTrace_ckRun et ops
  refine ⟨?_, ?_, ?_, ?_⟩
  · unfold wfTrace
    rw [hck]
    simp [hst, hsp, hop]
  · rw [ckRun_count_messageStart _ {} c' hck, if_pos ⟨hst, rfl⟩]
  · rw [ckRun_count_messageStop _ {} c' hck rfl, if_pos hsp]
  · exact ckRun_last_messageStop _ {} c' hck rfl hsp

/-- **C2 counterexample** to the claim's "and the error path": the
upstream-error trace carries no `message_stop` at all — the `onError`
callback writes the error event and closes the stream — so its last
event is not `message_stop` and the trace is not well-formed. -/
theorem claudeTraceError_not_wellFormed :
    claudeTraceError false [] = [SSEEvt.messageStart, SSEEvt.errorEvt] ∧
    (claudeTraceError false []).count SSEEvt.messageStop = 0 ∧
    (claudeTraceError false []).getLast? ≠ some SSEEvt.messageStop ∧
    wfTrace (claudeTraceError false []) = false := by decide

/-! ## C1 — conversation sanitization -/

theorem chainB_concat {α : Type} (R : α → α → Bool) :
    ∀ (l : List α) (e : α), chainB R l = true →
      (∀ a, l.getLast? = some a → R a e = true) →
      chainB R (l ++ [e]) = true := by
  intro l
  induction l with
  | nil => intro e _ _; rfl
  | cons a l ih =>
    intro e h he
    cases l with
    | nil =>
      show chainB R [a, e] = true
      simp only [chainB]
      rw [he a rfl]
      rfl
    | cons b t =>
      simp only [chainB, Bool.and_eq_true] at h
      obtain ⟨hab, hbt⟩ := h
      have hres := ih e hbt
        (fun x hx => he x (by rw [List.getLast?_cons_cons]; exact hx))
      simp only [List.cons_append] at hres ⊢
      simp only [chainB, Bool.and_eq_true]
      exact ⟨hab, by simpa [List.cons_append] using hres⟩

theorem hasMatching_to_all (tus : List KiroToolUse) (trs : List KToolResult)
    (hne : tus.isEmpty = false)
    (h : hasMatchingToolResults tus trs = true) :
    tus.all (fun tu => trs.any (fun r => r.toolUseId = tu.toolUseId)) = true := by
  unfold hasMatchingToolResults at h
  rw [if_neg (by rw [hne]; simp)] at h
  by_cases hre : trs.isEmpty = true
  · rw [if_pos hre] at h; cases h
  · rw [if_neg hre] at h; exact h

theorem failed_covers (tus : List KiroToolUse) :
    tus.all (fun tu =>
      ((tus.map (fun tu => tu.toolUseId)).map
        (fun id => (⟨id, "Tool execution failed", "error"⟩ : KToolResult))).any
        (fun r => r.toolUseId = tu.toolUseId)) = true := by
  rw [List.all_eq_true]
  intro tu htu
  rw [List.any_eq_true]
  refine ⟨⟨tu.toolUseId, "Tool execution failed", "error"⟩, ?_, by simp⟩
  exact List.mem_map_of_mem _ (List.mem_map_of_mem _ htu)

theorem pairOK_of_no_uses (a b : KMsg) (h : a.hasToolUses = false) :
    pairOK a b = true := by
  unfold pairOK
  rw [if_neg (by rw [h]; simp)]

theorem user_no_uses (m : KMsg) (h : m.isUser = true) :
    m.hasToolUses = false := by
  cases m with
  | user c trs => rfl
  | assistant c tus => cases h

theorem assistant_not_user (m : KMsg) (h : m.isAssistant = true) :
    m.isUser = false := by
  cases m with
  | user c trs => cases h
  | assistant c tus => rfl

theorem uses_assistant (m : KMsg) (h : m.hasToolUses = true) :
    m.isAssistant = true := by
  cases m with
  | user c trs => simp [KMsg.hasToolUses, KMsg.isAssistant] at h
  | assistant c tus => rfl

theorem uses_nonempty (m : KMsg) (h : m.hasToolUses = true) :
    m.toolUses.isEmpty = false := by
  unfold KMsg.hasToolUses at h
  cases hval : m.toolUses.isEmpty
  · rfl
  · exfalso
    rw [hval] at h
    simp at h

theorem roleFlip_tf (a b : KMsg) (ha : a.isUser = true) (hb : b.isUser = false) :
    roleFlip a b = true := by
  simp [roleFlip, ha, hb]

theorem roleFlip_ft (a b : KMsg) (ha : a.isUser = false) (hb : b.isUser = true) :
    roleFlip a b = true := by
  simp [roleFlip, ha, hb]

theorem pairOK_failed (msg : KMsg) (h : msg.hasToolUses = true) :
    pairOK msg (createFailedToolUseMessage
      (msg.toolUses.map (fun tu => tu.toolUseId))) = true := by
  unfold pairOK
  rw [if_pos h]
  simp only [createFailedToolUseMessage, KMsg.isUser, KMsg.toolResults]
  simp
  intro x hx
  exact ⟨x, hx, rfl⟩

theorem chainB_concat_cons {α : Type} (R : α → α → Bool) (x : α) (l : List α)
    (e : α) (h : chainB R (x :: l).reverse = true) (hre : R x e = true) :
    chainB R (e :: x :: l).reverse = true := by
  rw [List.reverse_cons]
  refine chainB_concat R (x :: l).reverse e h ?_
  intro a ha
  rw [List.getLast?_reverse] at ha
  cases ha
  exact hre

theorem sanLoop_step3 (rest : List KMsg)
    (IH : ∀ (fus : Bool) (acc : List KMsg),
      alternatingB acc.reverse = true →
      chainB pairOK acc.reverse = true →
      (∀ a, acc.head? = some a → a.hasToolUses = true →
        ∃ n rest', rest = n :: rest' ∧ n.isUser = true ∧
          n.hasToolResults = true ∧
          hasMatchingToolResults a.toolUses n.toolResults = true) →
      alternatingB (sanLoop rest fus acc).reverse = true ∧
      chainB pairOK (sanLoop rest fus acc).reverse = true ∧
      (∀ a, (sanLoop rest fus acc).head? = some a → a.hasToolUses = false))
    (fus' : Bool) (msg : KMsg) (acc1 : List KMsg)
    (halt2 : alternatingB (msg :: acc1).reverse = true)
    (hch2 : chainB pairOK (msg :: acc1).reverse = true)
    (nextOk : Bool)
    (hnok : nextOk = true →
      ∃ n rest', rest = n :: rest' ∧ n.isUser = true ∧
        n.hasToolResults = true ∧
        hasMatchingToolResults msg.toolUses n.toolResults = true)
    (acc3 : List KMsg)
    (hacc3 : acc3 =
      if msg.isAssistant = true ∧ msg.hasToolUses = true then
        (if nextOk = true then msg :: acc1
         else createFailedToolUseMessage
           (msg.toolUses.map (fun tu => tu.toolUseId)) :: msg :: acc1)
      else msg :: acc1) :
    alternatingB (sanLoop rest fus' acc3).reverse = true ∧
    chainB pairOK (sanLoop rest fus' acc3).reverse = true ∧
    (∀ a, (sanLoop rest fus' acc3).head? = some a →
      a.hasToolUses = false) := by
  by_cases hmau : msg.isAssistant = true ∧ msg.hasToolUses = true
  · rw [if_pos hmau] at hacc3
    have hfA : alternatingB (createFailedToolUseMessage
        (msg.toolUses.map (fun tu => tu.toolUseId)) :: msg :: acc1).reverse
        = true := by
      refine chainB_concat_cons roleFlip msg acc1 _ halt2 ?_
      exact roleFlip_ft _ _ (assistant_not_user msg hmau.1) rfl
    have hfC : chainB pairOK (createFailedToolUseMessage
        (msg.toolUses.map (fun tu => tu.toolUseId)) :: msg :: acc1).reverse
        = true := by
      refine chainB_concat_cons pairOK msg acc1 _ hch2 ?_
      exact pairOK_failed msg hmau.2
    have hfH : ∀ a, (createFailedToolUseMessage
        (msg.toolUses.map (fun tu => tu.toolUseId)) :: msg :: acc1).head? =
        some a → a.hasToolUses = true →
        ∃ n rest', rest = n :: rest' ∧ n.isUser = true ∧
          n.hasToolResults = true ∧
          hasMatchingToolResults a.toolUses n.toolResults = true := by
      intro a ha hx
      rw [show (createFailedToolUseMessage
        (msg.toolUses.map (fun tu => tu.toolUseId)) :: msg :: acc1).head? =
        some (createFailedToolUseMessage
          (msg.toolUses.map (fun tu => tu.toolUseId))) from rfl] at ha
      cases ha
      simp [createFailedToolUseMessage, KMsg.hasToolUses,
        KMsg.isAssistant] at hx
    cases hval : nextOk
    · rw [if_neg (by rw [hval]; simp)] at hacc3
      subst hacc3
      exact IH fus' _ hfA hfC hfH
    · rw [if_pos hval] at hacc3
      subst hacc3
      refine IH fus' _ halt2 hch2 ?_
      intro a ha hx
      rw [show (msg :: acc1).head? = some msg from rfl] at ha
      cases ha
      exact hnok hval
  · rw [if_neg hmau] at hacc3
    subst hacc3
    refine IH fus' _ halt2 hch2 ?_
    intro a ha hx
    rw [show (msg :: acc1).head? = some msg from rfl] at ha
    cases ha
    exact absurd ⟨uses_assistant _ hx, hx⟩ hmau

theorem not_user_assistant (m : KMsg) (h : m.isUser = false) :
    m.isAssistant = true := by
  cases m with
  | user c trs => cases h
  | assistant c tus => rfl

theorem sanLoop_inv :
    ∀ (msgs : List KMsg) (fus : Bool) (acc : List KMsg),
      alternatingB acc.reverse = true →
      chainB pairOK acc.reverse = true →
      (∀ a, acc.head? = some a → a.hasToolUses = true →
        ∃ n rest', msgs = n :: rest' ∧ n.isUser = true ∧
          n.hasToolResults = true ∧
          hasMatchingToolResults a.toolUses n.toolResults = true) →
      alternatingB (sanLoop msgs fus acc).reverse = true ∧
      chainB pairOK (sanLoop msgs fus acc).reverse = true ∧
      (∀ a, (sanLoop msgs fus acc).head? = some a → a.hasToolUses = false) := by
  intro msgs
  induction msgs with
  | nil =>
    intro fus acc halt hch hp
    refine ⟨halt, hch, ?_⟩
    intro a ha
    cases hx : a.hasToolUses
    · rfl
    · obtain ⟨n, r', hnil, -, -, -⟩ := hp a ha hx
      cases hnil
  | cons msg rest ih =>
    intro fus acc halt hch hp
    by_cases hskip : msg.isUser = true ∧ fus = true ∧
        jsTrim msg.content.data = [] ∧ ¬ msg.hasToolResults = true
    · simp only [sanLoop, if_pos hskip]
      refine ih fus acc halt hch ?_
      intro a ha hx
      obtain ⟨n, r', heq, hu, hres, hm⟩ := hp a ha hx
      injection heq with h1 h2
      subst h1
      exact absurd hres hskip.2.2.2
    · simp only [sanLoop, if_neg hskip]
      cases acc with
      | nil =>
        dsimp only
        refine sanLoop_step3 rest ih _ msg [] ?_ ?_ _ ?_ _ rfl
        · rfl
        · rfl
        · intro hok
          cases rest with
          | nil => simp at hok
          | cons nxt rrest =>
            dsimp only at hok
            simp only [decide_eq_true_eq] at hok
            exact ⟨nxt, rrest, rfl, by simpa using hok.1,
              by simpa using hok.2.1, by simpa using hok.2.2⟩
      | cons prev accT =>
        dsimp only
        by_cases huu : prev.isUser = true ∧ msg.isUser = true
        · simp only [if_pos huu]
          refine sanLoop_step3 rest ih _ msg
            (UNDERSTOOD_MESSAGE :: prev :: accT) ?_ ?_ _ ?_ _ rfl
          · refine chainB_concat_cons roleFlip UNDERSTOOD_MESSAGE
              (prev :: accT) msg ?_ ?_
            · refine chainB_concat_cons roleFlip prev accT
                UNDERSTOOD_MESSAGE halt ?_
              exact roleFlip_tf prev _ huu.1 rfl
            · exact roleFlip_ft _ msg rfl huu.2
          · refine chainB_concat_cons pairOK UNDERSTOOD_MESSAGE
              (prev :: accT) msg ?_ ?_
            · refine chainB_concat_cons pairOK prev accT
                UNDERSTOOD_MESSAGE hch ?_
              exact pairOK_of_no_uses prev _ (user_no_uses prev huu.1)
            · exact pairOK_of_no_uses _ msg rfl
          · intro hok
            cases rest with
            | nil => simp at hok
            | cons nxt rrest =>
              dsimp only at hok
              simp only [decide_eq_true_eq] at hok
              exact ⟨nxt, rrest, rfl, by simpa using hok.1,
                by simpa using hok.2.1, by simpa using hok.2.2⟩
        · simp only [if_neg huu]
          by_cases haa : prev.isAssistant = true ∧ msg.isAssistant = true
          · simp only [if_pos haa]
            have hpu : prev.hasToolUses = false := by
              cases hval : prev.hasToolUses
              · rfl
              · obtain ⟨n, r', heq, hu, -, -⟩ := hp prev rfl hval
                injection heq with h1 h2
                rw [← h1] at hu
                rw [assistant_not_user msg haa.2] at hu
                cases hu
            refine sanLoop_step3 rest ih _ msg
              (CONTINUE_MESSAGE :: prev :: accT) ?_ ?_ _ ?_ _ rfl
            · refine chainB_concat_cons roleFlip CONTINUE_MESSAGE
                (prev :: accT) msg ?_ ?_
              · refine chainB_concat_cons roleFlip prev accT
                  CONTINUE_MESSAGE halt ?_
                exact roleFlip_ft prev _ (assistant_not_user prev haa.1) rfl
              · exact roleFlip_tf _ msg rfl (assistant_not_user msg haa.2)
            · refine chainB_concat_cons pairOK CONTINUE_MESSAGE
                (prev :: accT) msg ?_ ?_
              · refine chainB_concat_cons pairOK prev accT
                  CONTINUE_MESSAGE hch ?_
                exact pairOK_of_no_uses prev _ hpu
              · exact pairOK_of_no_uses _ msg rfl
            · intro hok
              cases rest with
              | nil => simp at hok
              | cons nxt rrest =>
                dsimp only at hok
                simp only [decide_eq_true_eq] at hok
                exact ⟨nxt, rrest, rfl, by simpa using hok.1,
                  by simpa using hok.2.1, by simpa using hok.2.2⟩
          · simp only [if_neg haa]
            have hflip : roleFlip prev msg = true := by
              cases hpu : prev.isUser
              · cases hmu : msg.isUser
                · exact absurd ⟨not_user_assistant prev hpu,
                    not_user_assistant msg hmu⟩ haa
                · exact roleFlip_ft prev msg hpu hmu
              · cases hmu : msg.isUser
                · exact roleFlip_tf prev msg hpu hmu
                · exact absurd ⟨hpu, hmu⟩ huu
            have hpOK : pairOK prev msg = true := by
              cases hval : prev.hasToolUses
              · exact pairOK_of_no_uses prev msg hval
              · obtain ⟨n, r', heq, hu, hres, hm⟩ := hp prev rfl hval
                injection heq with h1 h2
                subst h1
                unfold pairOK
                rw [if_pos hval]
                have hall := hasMatching_to_all prev.toolUses msg.toolResults
                  (uses_nonempty prev hval) hm
                simp [hu, hall]
            refine sanLoop_step3 rest ih _ msg (prev :: accT) ?_ ?_ _ ?_ _ rfl
            · exact chainB_concat_cons roleFlip prev accT msg halt hflip
            · exact chainB_concat_cons pairOK prev accT msg hch hpOK
            · intro hok
              cases rest with
              | nil => simp at hok
              | cons nxt rrest =>
                dsimp only at hok
                simp only [decide_eq_true_eq] at hok
                exact ⟨nxt, rrest, rfl, by simpa using hok.1,
                  by simpa using hok.2.1, by simpa using hok.2.2⟩

theorem chainB_cons_front {α : Type} (R : α → α → Bool) (l : List α) (e : α)
    (h : chainB R l = true)
    (he : ∀ m, l.head? = some m → R e m = true) : chainB R (e :: l) = true := by
  cases l with
  | nil => rfl
  | cons m t =>
    show (R e m && chainB R (m :: t)) = true
    rw [he m rfl, h]
    rfl

theorem chainB_map {α β : Type} (R : α → α → Bool) (S : β → β → Bool)
    (f : α → β) (hRS : ∀ a b, R a b = true → S (f a) (f b) = true) :
    ∀ l, chainB R l = true → chainB S (l.map f) = true := by
  intro l
  induction l with
  | nil => intro _; rfl
  | cons a t ih =>
    intro h
    cases t with
    | nil => rfl
    | cons b t2 =>
      simp only [List.map_cons]
      show (S (f a) (f b) && chainB S (f b :: t2.map f)) = true
      simp only [chainB, Bool.and_eq_true] at h
      obtain ⟨hab, hrest⟩ := h
      have hm := ih hrest
      simp only [List.map_cons] at hm
      rw [hRS a b hab, hm]
      rfl

theorem getLast?_isSome_of_ne_nil {α : Type} :
    ∀ (l : List α), l ≠ [] → l.getLast?.isSome = true := by
  intro l
  induction l with
  | nil => intro h; exact absurd rfl h
  | cons a t ih =>
    intro _
    cases t with
    | nil => rfl
    | cons b t2 =>
      rw [List.getLast?_cons_cons]
      exact ih (by simp)

theorem sanHeadFix_spec (r0 : List KMsg)
    (hA : alternatingB r0 = true) (hC : chainB pairOK r0 = true)
    (hL : ∀ a, r0.getLast? = some a → a.hasToolUses = false) :
    headFix r0 ≠ [] ∧ (∀ a, (headFix r0).head? = some a → a.isUser = true) ∧
    alternatingB (headFix r0) = true ∧ chainB pairOK (headFix r0) = true ∧
    (∀ a, (headFix r0).getLast? = some a → a.hasToolUses = false) := by
  cases r0 with
  | nil =>
    have he : headFix [] = [HELLO_MESSAGE] := rfl
    rw [he]
    refine ⟨by simp, ?_, rfl, rfl, ?_⟩
    · intro a ha
      cases ha
      rfl
    · intro a ha
      rw [show [HELLO_MESSAGE].getLast? = some HELLO_MESSAGE from rfl] at ha
      cases ha
      rfl
  | cons m t =>
    by_cases hmu : m.isUser = true
    · have he : headFix (m :: t) = m :: t := by
        show (if ¬ m.isUser then HELLO_MESSAGE :: m :: t else m :: t) = m :: t
        rw [if_neg (fun hc => hc hmu)]
      rw [he]
      refine ⟨by simp, ?_, hA, hC, hL⟩
      intro a ha
      cases ha
      exact hmu
    · have he : headFix (m :: t) = HELLO_MESSAGE :: m :: t := by
        show (if ¬ m.isUser then HELLO_MESSAGE :: m :: t else m :: t) =
          HELLO_MESSAGE :: m :: t
        rw [if_pos hmu]
      rw [he]
      have hmf : m.isUser = false := by simpa using hmu
      refine ⟨by simp, ?_, ?_, ?_, ?_⟩
      · intro a ha
        cases ha
        rfl
      · exact chainB_cons_front roleFlip (m :: t) HELLO_MESSAGE hA
          (fun x hx => by cases hx; exact roleFlip_tf _ _ rfl hmf)
      · exact chainB_cons_front pairOK (m :: t) HELLO_MESSAGE hC
          (fun x hx => by cases hx; exact pairOK_of_no_uses _ _ rfl)
      · intro a ha
        rw [List.getLast?_cons_cons] at ha
        exact hL a ha

theorem sanTailFix_spec (r1 : List KMsg) (hne : r1 ≠ [])
    (hHead : ∀ a, r1.head? = some a → a.isUser = true)
    (hA : alternatingB r1 = true) (hC : chainB pairOK r1 = true)
    (hL : ∀ a, r1.getLast? = some a → a.hasToolUses = false) :
    tailFix r1 ≠ [] ∧ (∀ a, (tailFix r1).head? = some a → a.isUser = true) ∧
    (∀ a, (tailFix r1).getLast? = some a → a.isUser = true) ∧
    alternatingB (tailFix r1) = true ∧ chainB pairOK (tailFix r1) = true ∧
    (∀ a, (tailFix r1).getLast? = some a → a.hasToolUses = false) := by
  rcases hlast : r1.getLast? with _ | m
  · exfalso
    have hs := getLast?_isSome_of_ne_nil r1 hne
    rw [hlast] at hs
    cases hs
  · by_cases hmu : m.isUser = true
    · have he : tailFix r1 = r1 := by
        unfold tailFix
        rw [hlast]
        dsimp only
        rw [if_neg (fun hc => hc hmu)]
      rw [he]
      refine ⟨hne, hHead, ?_, hA, hC, hL⟩
      intro a ha
      rw [hlast] at ha
      cases ha
      exact hmu
    · have he : tailFix r1 = r1 ++ [CONTINUE_MESSAGE] := by
        unfold tailFix
        rw [hlast]
        dsimp only
        rw [if_pos hmu]
      rw [he]
      have hmf : m.isUser = false := by simpa using hmu
      refine ⟨by simp, ?_, ?_, ?_, ?_, ?_⟩
      · cases r1 with
        | nil => exact absurd rfl hne
        | cons x xs =>
          intro a ha
          rw [show ((x :: xs) ++ [CONTINUE_MESSAGE]).head? = some x from rfl]
            at ha
          cases ha
          exact hHead _ rfl
      · intro a ha
        rw [List.getLast?_concat] at ha
        cases ha
        rfl
      · refine chainB_concat roleFlip r1 CONTINUE_MESSAGE hA ?_
        intro a ha
        rw [hlast] at ha
        cases ha
        exact roleFlip_ft _ _ hmf rfl
      · refine chainB_concat pairOK r1 CONTINUE_MESSAGE hC ?_
        intro a ha
        rw [hlast] at ha
        cases ha
        exact pairOK_of_no_uses _ _ (hL _ hlast)
      · intro a ha
        rw [List.getLast?_concat] at ha
        cases ha
        rfl

theorem removeOrphaned_pres (l : List KMsg) (hne : l ≠ [])
    (hHead : ∀ a, l.head? = some a → a.isUser = true)
    (hLastU : ∀ a, l.getLast? = some a → a.isUser = true)
    (hA : alternatingB l = true) (hC : chainB pairOK l = true)
    (hL : ∀ a, l.getLast? = some a → a.hasToolUses = false) :
    removeOrphanedToolUses l ≠ [] ∧
    (∀ a, (removeOrphanedToolUses l).head? = some a → a.isUser = true) ∧
    (∀ a, (removeOrphanedToolUses l).getLast? = some a → a.isUser = true) ∧
    alternatingB (removeOrphanedToolUses l) = true ∧
    chainB pairOK (removeOrphanedToolUses l) = true ∧
    (∀ a, (removeOrphanedToolUses l).getLast? = some a →
      a.hasToolUses = false) := by
  unfold removeOrphanedToolUses
  dsimp only
  set orphans := orphanIdsAux (collectResultIds l) l with horph
  split
  · exact ⟨hne, hHead, hLastU, hA, hC, hL⟩
  · refine ⟨by simpa using hne, ?_, ?_, ?_, ?_, ?_⟩
    · intro a ha
      rw [List.head?_map] at ha
      rcases hh : l.head? with _ | x
      · rw [hh] at ha; cases ha
      · rw [hh] at ha
        cases ha
        have := hHead x hh
        cases x with
        | user c trs => rfl
        | assistant c tus => cases this
    · intro a ha
      rw [List.getLast?_map] at ha
      rcases hh : l.getLast? with _ | x
      · rw [hh] at ha; cases ha
      · rw [hh] at ha
        cases ha
        have := hLastU x hh
        cases x with
        | user c trs => rfl
        | assistant c tus => cases this
    · refine chainB_map roleFlip roleFlip _ ?_ l hA
      intro a b hab
      cases a <;> cases b <;>
        simpa [roleFlip, KMsg.isUser] using hab
    · refine chainB_map pairOK pairOK _ ?_ l hC
      intro a b hab
      cases a with
      | user ca trsa =>
        cases b <;> exact pairOK_of_no_uses _ _ rfl
      | assistant ca tusa =>
        dsimp only
        by_cases hfe : (tusa.filter
            (fun tu => ¬ orphans.contains tu.toolUseId)).isEmpty = true
        · refine pairOK_of_no_uses _ _ ?_
          simp [KMsg.hasToolUses, KMsg.isAssistant, KMsg.toolUses]
          simpa using hfe
        · have htusa : tusa.isEmpty = false := by
            cases tusa with
            | nil => simp at hfe
            | cons u us => rfl
          have hau : (KMsg.assistant ca tusa).hasToolUses = true := by
            simp [KMsg.hasToolUses, KMsg.isAssistant, KMsg.toolUses, htusa]
          unfold pairOK at hab
          rw [if_pos hau] at hab
          cases b with
          | assistant cb tusb =>
            exfalso
            simp [KMsg.isUser] at hab
          | user cb trsb =>
            simp only [KMsg.isUser, KMsg.toolUses, KMsg.toolResults,
              decide_eq_true_eq, Bool.and_eq_true] at hab
            unfold pairOK
            rw [if_pos (show (KMsg.assistant ca (tusa.filter
                (fun tu => ¬ orphans.contains tu.toolUseId))).hasToolUses =
                true from by
              simp [KMsg.hasToolUses, KMsg.isAssistant, KMsg.toolUses]
              simpa using hfe)]
            simp only [KMsg.isUser, KMsg.toolUses, KMsg.toolResults,
              decide_eq_true_eq]
            refine ⟨trivial, ?_⟩
            rw [List.all_eq_true]
            intro x hx
            exact List.all_eq_true.mp hab.2 x (List.mem_of_mem_filter hx)
    · intro a ha
      rw [List.getLast?_map] at ha
      rcases hh : l.getLast? with _ | x
      · rw [hh] at ha; cases ha
      · rw [hh] at ha
        cases ha
        have hx := hL x hh
        cases x with
        | user c trs => rfl
        | assistant c tus =>
          have htus : tus.isEmpty = true := by
            revert hx
            simp [KMsg.hasToolUses, KMsg.isAssistant, KMsg.toolUses]
          cases tus with
          | nil => rfl
          | cons u us => cases htus

theorem dropLast_getLastD {α : Type} :
    ∀ (l : List α) (d : α), l ≠ [] → l.dropLast ++ [l.getLast?.getD d] = l := by
  intro l d
  induction l with
  | nil => intro h; exact absurd rfl h
  | cons a t ih =>
    intro _
    cases t with
    | nil => rfl
    | cons b t2 =>
      have h2 := ih (by simp)
      rw [List.getLast?_cons_cons]
      show a :: ((b :: t2).dropLast ++ [((b :: t2).getLast?).getD d]) =
        a :: b :: t2
      rw [h2]

theorem alt_dropLast_last :
    ∀ (l : List KMsg), alternatingB l = true →
      ∀ b, l.getLast? = some b → b.isUser = true →
      ∀ a, l.dropLast.getLast? = some a → a.isUser = false := by
  intro l
  induction l with
  | nil =>
    intro _ b hb
    cases hb
  | cons x t ih =>
    intro halt b hb hbu a ha
    cases t with
    | nil => cases ha
    | cons y t2 =>
      have h2 : (roleFlip x y && chainB roleFlip (y :: t2)) = true := halt
      have hsplit : roleFlip x y = true ∧ chainB roleFlip (y :: t2) = true := by
        simpa using h2
      cases t2 with
      | nil =>
        have hb2 : some y = some b := hb
        have hy : y = b := by injection hb2
        subst hy
        have ha2 : some x = some a := ha
        have hx : x = a := by injection ha2
        subst hx
        have hrf := hsplit.1
        simp only [roleFlip, decide_eq_true_eq, hbu] at hrf
        simpa using hrf
      | cons z t3 =>
        rw [List.getLast?_cons_cons] at hb
        have ha2 : (x :: y :: (z :: t3).dropLast).getLast? = some a := ha
        rw [List.getLast?_cons_cons] at ha2
        exact ih hsplit.2 b hb hbu a ha2

theorem sanitizeConversation_facts (messages : List KMsg) :
    sanitizeConversation messages ≠ [] ∧
    (∀ a, (sanitizeConversation messages).head? = some a → a.isUser = true) ∧
    (∀ a, (sanitizeConversation messages).getLast? = some a →
      a.isUser = true) ∧
    alternatingB (sanitizeConversation messages) = true ∧
    chainB pairOK (sanitizeConversation messages) = true := by
  by_cases hem : messages.isEmpty = true
  · unfold sanitizeConversation
    rw [if_pos hem]
    refine ⟨by simp, ?_, ?_, rfl, rfl⟩
    · intro a ha
      cases ha
      rfl
    · intro a ha
      have ha2 : some HELLO_MESSAGE = some a := ha
      have := by injection ha2
      subst this
      rfl
  · obtain ⟨hA0, hC0, hH0⟩ := sanLoop_inv messages false [] rfl rfl
      (by intro a ha hx; cases ha)
    have hL0 : ∀ a, (sanLoop messages false []).reverse.getLast? = some a →
        a.hasToolUses = false := by
      intro a ha
      rw [List.getLast?_reverse] at ha
      exact hH0 a ha
    obtain ⟨h1ne, h1H, h1A, h1C, h1L⟩ :=
      sanHeadFix_spec (sanLoop messages false []).reverse hA0 hC0 hL0
    obtain ⟨h2ne, h2H, h2U, h2A, h2C, h2L⟩ :=
      sanTailFix_spec _ h1ne h1H h1A h1C h1L
    obtain ⟨h3ne, h3H, h3U, h3A, h3C, -⟩ :=
      removeOrphaned_pres _ h2ne h2H h2U h2A h2C h2L
    unfold sanitizeConversation
    rw [if_neg hem]
    exact ⟨h3ne, h3H, h3U, h3A, h3C⟩

/-- C1: for every history and current user message handed to the
forward translator, the conversation component of the Kiro payload
(`buildKiroPayload` via `sanitizeConversation`) splits the sanitized
list into `history` plus the final `currentMessage`; the sanitized
list is nonempty, starts with a user turn, ends with a user turn
(so the current message is the final user turn and the history, when
nonempty, ends with an assistant turn), strictly alternates
user/assistant roles, and pairs every assistant tool use with the
immediately following user message's tool results (`pairOK`).  The
claim's final conjunct — that no orphan tool result survives — is
FALSE: see the counterexample `sanitize_keeps_orphan_toolResult`. -/
theorem buildKiroConversation_spec (fc : String) (hist : List KMsg)
    (trs : List KToolResult) :
    (buildKiroConversation fc hist trs).history ++
        [(buildKiroConversation fc hist trs).currentMessage] =
      sanitizeConversation
        (hist ++ [.user fc (validateToolResults trs hist)]) ∧
    sanitizeConversation
        (hist ++ [.user fc (validateToolResults trs hist)]) ≠ [] ∧
    ((sanitizeConversation
        (hist ++ [.user fc (validateToolResults trs hist)])).head?.getD
      HELLO_MESSAGE).isUser = true ∧
    ((sanitizeConversation
        (hist ++ [.user fc (validateToolResults trs hist)])).getLast?.getD
      HELLO_MESSAGE).isUser = true ∧
    alternatingB (sanitizeConversation
        (hist ++ [.user fc (validateToolResults trs hist)])) = true ∧
    chainB pairOK (sanitizeConversation
        (hist ++ [.user fc (validateToolResults trs hist)])) = true ∧
    (buildKiroConversation fc hist trs).currentMessage.isUser = true ∧
    ((buildKiroConversation fc hist trs).history.getLast?.getD
      UNDERSTOOD_MESSAGE).isAssistant = true := by
  obtain ⟨hne, hH, hU, hA, hC⟩ := sanitizeConversation_facts
    (hist ++ [.user fc (validateToolResults trs hist)])
  set S := sanitizeConversation
    (hist ++ [.user fc (validateToolResults trs hist)]) with hS
  have hsplit : S.dropLast ++ [S.getLast?.getD HELLO_MESSAGE] = S :=
    dropLast_getLastD S HELLO_MESSAGE hne
  have hlastU : (S.getLast?.getD HELLO_MESSAGE).isUser = true := by
    rcases hl : S.getLast? with _ | b
    · have hs := getLast?_isSome_of_ne_nil S hne
      rw [hl] at hs
      cases hs
    · exact hU b hl
  refine ⟨hsplit, hne, ?_, hlastU, hA, hC, hlastU, ?_⟩
  · rcases hh : S.head? with _ | a
    · exact absurd (List.head?_eq_none_iff.mp hh) hne
    · exact hH a hh
  · show ((S.dropLast.getLast?).getD UNDERSTOOD_MESSAGE).isAssistant = true
    rcases hdl : S.dropLast.getLast? with _ | a
    · rfl
    · rcases hl : S.getLast? with _ | b
      · have hs := getLast?_isSome_of_ne_nil S hne
        rw [hl] at hs
        cases hs
      · have haf := alt_dropLast_last S hA b hl (hU b hl) a hdl
        cases a with
        | user c trsa => cases haf
        | assistant c tus => rfl

/-- C1 counterexample: `sanitizeConversation` does not remove orphan
tool results — a user tool result whose id matches no tool use in the
whole conversation survives sanitization, so the produced payload can
contain an orphan `tool_result`. -/
theorem sanitize_keeps_orphan_toolResult :
    hasOrphanToolResult (sanitizeConversation c1ExampleMessages) = true ∧
    hasOrphanToolResult c1ExampleMessages = true := by
  exact ⟨by decide, by decide⟩

end KiroGate
